import Mathlib

/-!
# esp_rgbww_firmware: command validation and dispatch

A shallow embedding of `app/jsonprocessor.cpp`: the request model built by
`JsonProcessor::parseRequestParams`, the validator
`JsonProcessor::RequestParameters::checkParams`, and the dispatcher
`JsonProcessor::onSingleColorCommand` / `JsonProcessor::onColor`; and of
`app/stepsync.cpp`: the step clock controller `ClockCatchUp`.

Stateful code is embedded by explicit state passing.  The animation engine
(`app.rgbwwctrl`) and the relay (`app.onCommandRelay`) are external: every call
made to them is appended to a call log, and the answer of the engine to a call
is given by an arbitrary function of the log so far and of the call.  A
`String&` out-parameter is embedded as an argument (the value on entry) and a
component of the result (the value on exit).
-/

/-! ## JSON values as seen through the accessors the code uses -/

/-- A JSON value as `parseRequestParams` observes it.  A leaf is represented by
what the three conversions used by the code return on it (`asString()`,
`as<double>()`, `as<int>()`), so that no assumption is made on how the JSON
library converts between numbers and text. -/
inductive JsonVariant where
  | undefined : JsonVariant
  | scalar (asString : String) (asDouble : ℚ) (asInt : Int) : JsonVariant
  | array (items : List JsonVariant) : JsonVariant
  | object (members : List (String × JsonVariant)) : JsonVariant

namespace JsonVariant

/-- The test `v.success()`: the value exists. -/
def success : JsonVariant → Bool
  | undefined => false
  | _ => true

/-- The subscript `v["key"]`: the member of an object, the undefined value when
`v` is not an object or has no such member. -/
def get (v : JsonVariant) (key : String) : JsonVariant :=
  match v with
  | object members => (members.lookup key).getD undefined
  | _ => undefined

/-- The conversion `v.asString()`; a null pointer is read as the empty string,
which is how `String` compares it. -/
def asString : JsonVariant → String
  | scalar s _ _ => s
  | _ => ""

/-- The conversion `v.as<double>()`. -/
def asDouble : JsonVariant → ℚ
  | scalar _ d _ => d
  | _ => 0

/-- The conversion `v.as<int>()`. -/
def asInt : JsonVariant → Int
  | scalar _ _ i => i
  | _ => 0

/-- The conversion `v.asArray()`: the items of an array, no item when `v` is
not an array. -/
def asArray : JsonVariant → List JsonVariant
  | array items => items
  | _ => []

end JsonVariant

/-! ## The request model -/

/-- The value class given to the `AbsOrRelValue` constructor
(`AbsOrRelValue::Type`; `Generic` is the default argument). -/
inductive ValueClass where
  | Generic | Hue | Ct | Raw
  deriving DecidableEq, Repr

/-- One parsed component: `hasValue` is `hasValue()`, `value` is the integer the
component compares as (`hsv.ct < 100`). -/
structure AbsOrRelValue where
  hasValue : Bool
  isRelative : Bool
  value : Int
  valueClass : ValueClass
  deriving DecidableEq, Repr

inductive QueuePolicy where
  | Invalid | FrontReset | Front | Back | Single
  deriving DecidableEq, Repr

inductive CtrlChannel where
  | Hue | Sat | Val | ColorTemp | Red | Green | Blue | WarmWhite | ColdWhite
  deriving DecidableEq, Repr

inductive RampType where
  | Time | Speed
  deriving DecidableEq, Repr

/-- The ramp `RampTimeOrSpeed`; the `double` value is embedded as the rational
it denotes. -/
structure RampTimeOrSpeed where
  value : ℚ
  type : RampType
  deriving DecidableEq

structure RequestHSVCT where
  h : AbsOrRelValue
  s : AbsOrRelValue
  v : AbsOrRelValue
  ct : AbsOrRelValue
  deriving DecidableEq

structure RequestChannelOutput where
  r : AbsOrRelValue
  g : AbsOrRelValue
  b : AbsOrRelValue
  ww : AbsOrRelValue
  cw : AbsOrRelValue
  deriving DecidableEq

namespace JsonProcessor

/-- The mode `RequestParameters::Mode`; `Undefined` is the mode of a request in
which no colour object was found. -/
inductive Mode where
  | Undefined | Hsv | Raw | Kelvin
  deriving DecidableEq, Repr

structure RequestParameters where
  mode : Mode
  hasHsvFrom : Bool
  hasRawFrom : Bool
  hsv : RequestHSVCT
  hsvFrom : RequestHSVCT
  raw : RequestChannelOutput
  rawFrom : RequestChannelOutput
  kelvin : Int
  ramp : RampTimeOrSpeed
  name : String
  requeue : Bool
  cmd : String
  direction : Int
  queue : QueuePolicy
  channels : List CtrlChannel
  deriving DecidableEq

namespace RequestParameters

/-- The test on `hsv.ct` of `checkParams`:
`hsv.ct != 0 && (hsv.ct < 100 || hsv.ct > 10000 || (hsv.ct > 500 && hsv.ct < 2000))`. -/
def badCt (ct : Int) : Prop :=
  ct ≠ 0 ∧ (ct < 100 ∨ ct > 10000 ∨ (ct > 500 ∧ ct < 2000))

instance (ct : Int) : Decidable (badCt ct) := by
  unfold badCt; infer_instance

/-- The part of `checkParams` after the colour block: queue, cmd, direction and
ramp, in this order. -/
def checkCommand (p : RequestParameters) (errorMsg : String) : Int × String :=
  if p.queue = QueuePolicy.Invalid then (1, "Invalid queue policy")
  else if p.cmd ≠ "fade" ∧ p.cmd ≠ "solid" then (1, "Invalid cmd")
  else if p.direction < 0 ∨ p.direction > 1 then (1, "Invalid direction")
  else if p.ramp.type = RampType.Speed ∧ p.ramp.value = 0 then (1, "Speed cannot be 0!")
  else (0, errorMsg)

/-- The validator `RequestParameters::checkParams(String& errorMsg)`: the
returned `int` and the value of `errorMsg` on exit. -/
def checkParams (p : RequestParameters) (errorMsg : String) : Int × String :=
  if p.mode = Mode.Hsv then
    if p.hsv.ct.hasValue = true ∧ badCt p.hsv.ct.value then (1, "bad param for ct")
    else if p.hsv.h.hasValue = false ∧ p.hsv.s.hasValue = false ∧ p.hsv.v.hasValue = false
        ∧ p.hsv.ct.hasValue = false then
      (1, "Need at least one HSVCT component!")
    else checkCommand p errorMsg
  else if p.mode = Mode.Raw then
    if p.raw.r.hasValue = false ∧ p.raw.g.hasValue = false ∧ p.raw.b.hasValue = false
        ∧ p.raw.ww.hasValue = false ∧ p.raw.cw.hasValue = false then
      (1, "Need at least one RAW component!")
    else checkCommand p errorMsg
  else checkCommand p errorMsg

end RequestParameters

/-! ## Building the request model -/

/-- The four assignments `params.hsv.h = AbsOrRelValue(obj["h"].asString(), Type::Hue)`
and so on for `s`, `v`, `ct`, each guarded by `obj[...].success()`; `mk` is the
constructor `AbsOrRelValue(const char*, Type)`.  The source runs this block
once on `root["hsv"]` and once more on `root["hsv"]["from"]`, both times with
`params.hsv` as the target. -/
def parseHsvFields (mk : String → ValueClass → AbsOrRelValue) (obj : JsonVariant)
    (c : RequestHSVCT) : RequestHSVCT :=
  let c := if (obj.get "h").success then { c with h := mk (obj.get "h").asString ValueClass.Hue } else c
  let c := if (obj.get "s").success then { c with s := mk (obj.get "s").asString ValueClass.Generic } else c
  let c := if (obj.get "v").success then { c with v := mk (obj.get "v").asString ValueClass.Generic } else c
  let c := if (obj.get "ct").success then { c with ct := mk (obj.get "ct").asString ValueClass.Ct } else c
  c

/-- The five assignments of `r`, `g`, `b`, `ww`, `cw` from `obj`, each guarded
by `obj[...].success()`.  The source runs this block on `root["raw"]` with
target `params.raw` and on `root["raw"]["from"]` with target `params.rawFrom`. -/
def parseRawFields (mk : String → ValueClass → AbsOrRelValue) (obj : JsonVariant)
    (c : RequestChannelOutput) : RequestChannelOutput :=
  let c := if (obj.get "r").success then { c with r := mk (obj.get "r").asString ValueClass.Raw } else c
  let c := if (obj.get "g").success then { c with g := mk (obj.get "g").asString ValueClass.Raw } else c
  let c := if (obj.get "b").success then { c with b := mk (obj.get "b").asString ValueClass.Raw } else c
  let c := if (obj.get "ww").success then { c with ww := mk (obj.get "ww").asString ValueClass.Raw } else c
  let c := if (obj.get "cw").success then { c with cw := mk (obj.get "cw").asString ValueClass.Raw } else c
  c

/-- The block `if (root["hsv"].success()) ... else if (root["raw"].success()) ...`. -/
def parseColor (mk : String → ValueClass → AbsOrRelValue) (root : JsonVariant)
    (params : RequestParameters) : RequestParameters :=
  if (root.get "hsv").success then
    let params := { params with
      mode := Mode.Hsv, hsv := parseHsvFields mk (root.get "hsv") params.hsv }
    if ((root.get "hsv").get "from").success then
      { params with
        hasHsvFrom := true
        hsv := parseHsvFields mk ((root.get "hsv").get "from") params.hsv }
    else params
  else if (root.get "raw").success then
    let params := { params with
      mode := Mode.Raw, raw := parseRawFields mk (root.get "raw") params.raw }
    if ((root.get "raw").get "from").success then
      { params with
        hasRawFrom := true
        rawFrom := parseRawFields mk ((root.get "raw").get "from") params.rawFrom }
    else params
  else params

/-- The first block on `root["kelvin"]`: the mode. -/
def parseKelvinMode (root : JsonVariant) (params : RequestParameters) : RequestParameters :=
  if (root.get "kelvin").success then { params with mode := Mode.Kelvin } else params

/-- The block on `root["t"]`. -/
def parseRampTime (root : JsonVariant) (params : RequestParameters) : RequestParameters :=
  if (root.get "t").success then
    { params with ramp := { value := (root.get "t").asDouble, type := RampType.Time } }
  else params

/-- The block on `root["s"]`. -/
def parseRampSpeed (root : JsonVariant) (params : RequestParameters) : RequestParameters :=
  if (root.get "s").success then
    { params with ramp := { value := (root.get "s").asDouble, type := RampType.Speed } }
  else params

/-- The block on `root["r"]`. -/
def parseRequeue (root : JsonVariant) (params : RequestParameters) : RequestParameters :=
  if (root.get "r").success then
    { params with requeue := decide ((root.get "r").asInt = 1) }
  else params

/-- The second block on `root["kelvin"]`: the value. -/
def parseKelvin (root : JsonVariant) (params : RequestParameters) : RequestParameters :=
  if (root.get "kelvin").success then { params with kelvin := (root.get "kelvin").asInt } else params

/-- The block on `root["d"]`. -/
def parseDirection (root : JsonVariant) (params : RequestParameters) : RequestParameters :=
  if (root.get "d").success then { params with direction := (root.get "d").asInt } else params

/-- The block on `root["name"]`. -/
def parseName (root : JsonVariant) (params : RequestParameters) : RequestParameters :=
  if (root.get "name").success then { params with name := (root.get "name").asString } else params

/-- The block on `root["cmd"]`. -/
def parseCmd (root : JsonVariant) (params : RequestParameters) : RequestParameters :=
  if (root.get "cmd").success then { params with cmd := (root.get "cmd").asString } else params

/-- The comparison chain on the token `q` of the block on `root["q"]`. -/
def queueOfToken (q : String) : QueuePolicy :=
  if q = "back" then QueuePolicy.Back
  else if q = "front" then QueuePolicy.Front
  else if q = "front_reset" then QueuePolicy.FrontReset
  else if q = "single" then QueuePolicy.Single
  else QueuePolicy.Invalid

/-- The block on `root["q"]`. -/
def parseQueue (root : JsonVariant) (params : RequestParameters) : RequestParameters :=
  if (root.get "q").success then
    { params with queue := queueOfToken (root.get "q").asString }
  else params

/-- The loop over `root["channels"].asArray()`: `channels` is the list so far,
`add` appends. -/
def addChannels : List JsonVariant → List CtrlChannel → List CtrlChannel
  | [], channels => channels
  | item :: rest, channels =>
    let str := item.asString
    if str = "h" then addChannels rest (channels ++ [CtrlChannel.Hue])
    else if str = "s" then addChannels rest (channels ++ [CtrlChannel.Sat])
    else if str = "v" then addChannels rest (channels ++ [CtrlChannel.Val])
    else if str = "ct" then addChannels rest (channels ++ [CtrlChannel.ColorTemp])
    else addChannels rest channels

/-- The block on `root["channels"]`. -/
def parseChannels (root : JsonVariant) (params : RequestParameters) : RequestParameters :=
  if (root.get "channels").success then
    { params with channels := addChannels (root.get "channels").asArray params.channels }
  else params

/-- The function `JsonProcessor::parseRequestParams(root, params)`: its blocks
in source order; the result is `params` on exit. -/
def parseRequestParams (mk : String → ValueClass → AbsOrRelValue) (root : JsonVariant)
    (params : RequestParameters) : RequestParameters :=
  params
    |> parseColor mk root
    |> parseKelvinMode root
    |> parseRampTime root
    |> parseRampSpeed root
    |> parseRequeue root
    |> parseKelvin root
    |> parseDirection root
    |> parseName root
    |> parseCmd root
    |> parseQueue root
    |> parseChannels root

/-! ## The engine and the dispatcher -/

/-- A call made on `app.rgbwwctrl` or on `app.onCommandRelay`, with its
arguments.  `fadeHSVFromTo` and `fadeRAWFromTo` are the overloads of `fadeHSV`
and `fadeRAW` that take two endpoints. -/
inductive EngineCall where
  | fadeHSV (hsv : RequestHSVCT) (ramp : RampTimeOrSpeed) (direction : Int)
      (queue : QueuePolicy) (requeue : Bool) (name : String)
  | setHSV (hsv : RequestHSVCT) (time : ℚ) (queue : QueuePolicy) (requeue : Bool)
      (name : String)
  | fadeHSVFromTo (hsvFrom hsv : RequestHSVCT) (ramp : RampTimeOrSpeed) (direction : Int)
      (queue : QueuePolicy)
  | fadeRAW (raw : RequestChannelOutput) (ramp : RampTimeOrSpeed) (queue : QueuePolicy)
  | setRAW (raw : RequestChannelOutput) (time : ℚ) (queue : QueuePolicy)
  | fadeRAWFromTo (rawFrom raw : RequestChannelOutput) (ramp : RampTimeOrSpeed)
      (queue : QueuePolicy)
  | colorDirectHSV (hsv : RequestHSVCT)
  | colorDirectRAW (raw : RequestChannelOutput)
  | clearAnimationQueue (channels : List CtrlChannel)
  | skipAnimation (channels : List CtrlChannel)
  | pauseAnimation (channels : List CtrlChannel)
  | continueAnimation (channels : List CtrlChannel)
  | blink (channels : List CtrlChannel) (time : ℚ) (queue : QueuePolicy) (requeue : Bool)
      (name : String)
  | onCommandRelay (command : String) (root : JsonVariant)

/-- What the code takes from outside this file: the constructor
`AbsOrRelValue(const char*, Type)`, the default-constructed
`RequestParameters` (its member initialisers are declared in the header), and
the answer of the engine to a call (`true`: the command was queued), which may
depend on every call made before. -/
structure Env where
  mkValue : String → ValueClass → AbsOrRelValue
  fresh : RequestParameters
  accepts : List EngineCall → EngineCall → Bool

/-- The two statements `RequestParameters params; parseRequestParams(root, params);`
that open a handler: the default-constructed request, filled from `root`. -/
def requestOf (env : Env) (root : JsonVariant) : RequestParameters :=
  parseRequestParams env.mkValue root env.fresh

/-- The function `JsonProcessor::onSingleColorCommand(root, errorMsg)`: the
returned `bool`, `errorMsg` on exit and the call log on exit. -/
def onSingleColorCommand (env : Env) (root : JsonVariant) (errorMsg : String)
    (log : List EngineCall) : Bool × String × List EngineCall :=
  let params := requestOf env root
  let check := params.checkParams errorMsg
  if check.1 ≠ 0 then (false, check.2, log)
  else
    let errorMsg := check.2
    let finish (queueOk : Bool) (log : List EngineCall) : Bool × String × List EngineCall :=
      (queueOk, if queueOk = false then "Queue full" else errorMsg, log)
    if params.mode = Mode.Kelvin then
      finish false log
    else if params.mode = Mode.Hsv then
      if params.hasHsvFrom = false then
        if params.cmd = "fade" then
          let call := EngineCall.fadeHSV params.hsv params.ramp params.direction params.queue
            params.requeue params.name
          finish (env.accepts log call) (log ++ [call])
        else
          let call := EngineCall.setHSV params.hsv params.ramp.value params.queue
            params.requeue params.name
          finish (env.accepts log call) (log ++ [call])
      else
        finish false (log ++ [EngineCall.fadeHSVFromTo params.hsvFrom params.hsv params.ramp
          params.direction params.queue])
    else if params.mode = Mode.Raw then
      if params.hasRawFrom = false then
        if params.cmd = "fade" then
          let call := EngineCall.fadeRAW params.raw params.ramp params.queue
          finish (env.accepts log call) (log ++ [call])
        else
          let call := EngineCall.setRAW params.raw params.ramp.value params.queue
          finish (env.accepts log call) (log ++ [call])
      else
        finish false (log ++ [EngineCall.fadeRAWFromTo params.rawFrom params.raw params.ramp
          params.queue])
    else
      (false, "No color object!", log)

/-- The string built by `for (...) msg += errors[i] + "|";` in the batch branch of
`onColor`.  It is built in a `String msg` declared inside the `else` block, which
shadows the parameter `msg` and goes out of scope at the end of the block. -/
def joinErrors (errors : List String) : String :=
  errors.foldl (fun msg e => msg ++ (e ++ "|")) ""

/-- The loop `for (i = 0; i < cmds.size(); ++i)` of `onColor`: each item is run
with a new empty `String msg`, and the message of an item that returns `false`
is added to `errors`. -/
def runCmds (env : Env) : List JsonVariant → List String → List EngineCall →
    List String × List EngineCall
  | [], errors, log => (errors, log)
  | item :: rest, errors, log =>
    let r := onSingleColorCommand env item "" log
    if r.1 = false then runCmds env rest (errors ++ [r.2.1]) r.2.2
    else runCmds env rest errors r.2.2

/-- The function `JsonProcessor::onColor(root, msg, relay)`: the returned
`bool`, `msg` on exit and the call log on exit.  The batch branch does not
write the parameter `msg` (see `joinErrors`); the relay call is made after
either branch when `relay` is set. -/
def onColor (env : Env) (root : JsonVariant) (msg : String) (relay : Bool)
    (log : List EngineCall) : Bool × String × List EngineCall :=
  let r : Bool × String × List EngineCall :=
    if (root.get "cmds").success then
      let batch := runCmds env (root.get "cmds").asArray [] log
      if batch.1.length = 0 then (true, msg, batch.2)
      else (false, msg, batch.2)
    else
      onSingleColorCommand env root msg log
  if relay = true then (r.1, r.2.1, r.2.2 ++ [EngineCall.onCommandRelay "color" root])
  else r

/-! ## Running the items of a batch one by one -/

/-- The items of a batch run one after the other: `onSingleColorCommand` on
each item in array order, each with an empty message and on the log left by
the item before it.  The result is the list of the returned (bool, message)
pairs and the log after the last item. -/
def runEach (env : Env) : List JsonVariant → List EngineCall →
    List (Bool × String) × List EngineCall
  | [], log => ([], log)
  | item :: rest, log =>
    let r := onSingleColorCommand env item "" log
    let after := runEach env rest r.2.2
    ((r.1, r.2.1) :: after.1, after.2)

/-- The messages of the items that returned false, in item order. -/
def failureReasons (results : List (Bool × String)) : List String :=
  (results.filter (fun r => r.1 = false)).map Prod.snd

/-- The mode and the colour fields of a request. -/
def colorPart (p : RequestParameters) :
    Mode × Bool × Bool × RequestHSVCT × RequestHSVCT × RequestChannelOutput ×
      RequestChannelOutput :=
  (p.mode, p.hasHsvFrom, p.hasRawFrom, p.hsv, p.hsvFrom, p.raw, p.rawFrom)

end JsonProcessor

/-! ## Sample collaborators

The theorems below hold for every `Env`.  Concrete requests are evaluated
with the following one. -/

namespace AbsOrRelValue

/-- The default-constructed `AbsOrRelValue()`: no value. -/
def none : AbsOrRelValue :=
  { hasValue := false, isRelative := false, value := 0, valueClass := ValueClass.Generic }

/-- The number written by a list of decimal digits, `acc` being the number read
so far; no number when a character is not a digit. -/
def readDigits : List Char → Nat → Option Nat
  | [], acc => some acc
  | c :: cs, acc => if c.isDigit then readDigits cs (acc * 10 + (c.toNat - 48)) else Option.none

/-- The number written by a non-empty list of decimal digits. -/
def readNumber : List Char → Option Nat
  | [] => Option.none
  | c :: cs => readDigits (c :: cs) 0

/-- Modelled from the spec: the constructor `AbsOrRelValue(const char*, Type)`,
which `jsonprocessor.cpp` calls and does not define.  Spec 4.1: an empty field yields `present = false`;
a token beginning with `+` or `-` yields `isRelative = true` with the signed
magnitude; any other parseable numeric token yields `isRelative = false`;
malformed numeric text is treated as value not present.  Numeric tokens are
read here as decimal integers. -/
def ofText (text : String) (valueClass : ValueClass) : AbsOrRelValue :=
  match text.data with
  | [] => { none with valueClass := valueClass }
  | '+' :: digits =>
    match readNumber digits with
    | some n => { hasValue := true, isRelative := true, value := n, valueClass := valueClass }
    | Option.none => { none with valueClass := valueClass }
  | '-' :: digits =>
    match readNumber digits with
    | some n => { hasValue := true, isRelative := true, value := -n, valueClass := valueClass }
    | Option.none => { none with valueClass := valueClass }
  | digits =>
    match readNumber digits with
    | some n => { hasValue := true, isRelative := false, value := n, valueClass := valueClass }
    | Option.none => { none with valueClass := valueClass }

end AbsOrRelValue

namespace JsonProcessor

/-- Modelled from the spec: the default-constructed `RequestParameters`, whose
member initialisers are declared in the header of `jsonprocessor.cpp`.  Spec 3 and
4.2: the mode is none, no component is present, there is no `from` endpoint, and
the queue defaults to a valid policy (`Back`).  The spec gives no default for
`cmd`, `direction` and the ramp; the requests evaluated below set them. -/
def RequestParameters.fresh : RequestParameters :=
  { mode := Mode.Undefined, hasHsvFrom := false, hasRawFrom := false
    hsv := ⟨AbsOrRelValue.none, AbsOrRelValue.none, AbsOrRelValue.none, AbsOrRelValue.none⟩
    hsvFrom := ⟨AbsOrRelValue.none, AbsOrRelValue.none, AbsOrRelValue.none, AbsOrRelValue.none⟩
    raw := ⟨AbsOrRelValue.none, AbsOrRelValue.none, AbsOrRelValue.none, AbsOrRelValue.none,
      AbsOrRelValue.none⟩
    rawFrom := ⟨AbsOrRelValue.none, AbsOrRelValue.none, AbsOrRelValue.none, AbsOrRelValue.none,
      AbsOrRelValue.none⟩
    kelvin := 0, ramp := ⟨0, RampType.Time⟩, name := "", requeue := false, cmd := "",
    direction := 0, queue := QueuePolicy.Back, channels := [] }

/-- An environment whose engine gives the answer `answer` to every call. -/
def sampleEnv (answer : Bool) : Env :=
  { mkValue := AbsOrRelValue.ofText, fresh := RequestParameters.fresh,
    accepts := fun _ _ => answer }

/-- A JSON string. -/
def jstr (s : String) : JsonVariant := JsonVariant.scalar s 0 0

/-- A JSON integer, with its text. -/
def jint (text : String) (n : Int) : JsonVariant := JsonVariant.scalar text n n

/-- The request `{"hsv": hsv, "cmd": cmd, "q": q, "d": 1, "t": 700}`. -/
def hsvRequest (hsv : JsonVariant) (cmd q : String) : JsonVariant :=
  JsonVariant.object [("hsv", hsv), ("cmd", jstr cmd), ("q", jstr q), ("d", jint "1" 1),
    ("t", jint "700" 700)]

/-- The request model with mode Hsv in which only `ct` is present, with value
`c`, and `cmd = "fade"`, `direction = 1`, queue `Back`, a Time ramp of 700. -/
def ctParams (c : Int) : RequestParameters :=
  { RequestParameters.fresh with
    mode := Mode.Hsv
    hsv := ⟨AbsOrRelValue.none, AbsOrRelValue.none, AbsOrRelValue.none,
      ⟨true, false, c, ValueClass.Ct⟩⟩
    cmd := "fade", direction := 1, ramp := ⟨700, RampType.Time⟩ }

/-- The request `{"kelvin": 3000, "cmd": "fade", "q": "back", "d": 1, "t": 700}`. -/
def kelvinRequest : JsonVariant :=
  JsonVariant.object [("kelvin", jint "3000" 3000), ("cmd", jstr "fade"), ("q", jstr "back"),
    ("d", jint "1" 1), ("t", jint "700" 700)]

/-- The request `{"cmd": "fade", "q": "back", "d": 1, "t": 700}`, without a colour object. -/
def noColorRequest : JsonVariant :=
  JsonVariant.object [("cmd", jstr "fade"), ("q", jstr "back"), ("d", jint "1" 1),
    ("t", jint "700" 700)]

/-- The request `{"raw": raw, "cmd": cmd, "q": q, "d": 1, "t": 700}`. -/
def rawRequest (raw : JsonVariant) (cmd q : String) : JsonVariant :=
  JsonVariant.object [("raw", raw), ("cmd", jstr cmd), ("q", jstr q), ("d", jint "1" 1),
    ("t", jint "700" 700)]

/-- The component parsed from the text of a non-negative integer `n`. -/
def absValue (n : Int) (valueClass : ValueClass) : AbsOrRelValue :=
  { hasValue := true, isRelative := false, value := n, valueClass := valueClass }

/-- The request
`{"hsv": {"v": "50", "from": {"h": "10"}}, "cmd": "fade", "q": "back", "d": 1, "t": 700}`. -/
def hsvFromRequest : JsonVariant :=
  hsvRequest (JsonVariant.object [("v", jstr "50"),
    ("from", JsonVariant.object [("h", jstr "10")])]) "fade" "back"

/-- The batch `{"cmds": [item 1, item 2, item 3]}` in which item 2 has the
unknown queue token "bogus". -/
def batchRequest : JsonVariant :=
  JsonVariant.object [("cmds", JsonVariant.array [
    hsvRequest (JsonVariant.object [("v", jstr "50")]) "fade" "back",
    hsvRequest (JsonVariant.object [("v", jstr "50")]) "fade" "bogus",
    rawRequest (JsonVariant.object [("r", jstr "7")]) "solid" "back"])]

end JsonProcessor

/-! ## The step clock: `app/stepsync.cpp`

Machine integers are embedded as `Nat` and `Int`, reduced to their 32-bit range
where the code stores them.  A `float` or `double` is embedded as a `FloatVal`:
the exact rational a finite value denotes, or one of the two infinities, or
NaN.  Every operation rounds its exact result to the format of its type, to
nearest with ties to even: `float` is IEEE 754 binary32 and `double` is
binary64, as on the ESP8266 the firmware is built for, where each operation is
a call of the soft-float library and no two operations are fused.  The sign of
a zero is not modelled: the only division by zero the code can reach has the
positive zero of a converted `int` as divisor, and no other result of the code
depends on the sign of a zero. -/

/-- The value of an `int` holding `x`: `x` reduced to the signed 32-bit range. -/
def toInt32 (x : Int) : Int :=
  (x + 2 ^ 31) % 2 ^ 32 - 2 ^ 31

/-- A value of type `float` or `double`. -/
inductive FloatVal where
  | finite (q : ℚ)
  | posInf
  | negInf
  | nan
  deriving DecidableEq

namespace FloatVal

/-- The integer nearest to `x`; when `x` is half-way between two integers, the
even one. -/
def roundHalfEven (x : ℚ) : Int :=
  if x - (Rat.floor x : ℚ) < 1 / 2 then Rat.floor x
  else if 1 / 2 < x - (Rat.floor x : ℚ) then Rat.floor x + 1
  else if Rat.floor x % 2 = 0 then Rat.floor x else Rat.floor x + 1

/-- The binary exponent at which `x` is represented in a format whose smallest
normal exponent is `emin`: the exponent `⌊log2 |x|⌋` of `x`, and `emin` for a
subnormal `x`. -/
def expo (emin : Int) (x : ℚ) : Int := Max.max (Int.log 2 |x|) emin

/-- The unit in the last place of `x` in a format with `prec` significand bits
and smallest normal exponent `emin`. -/
def ulp (prec : Nat) (emin : Int) (x : ℚ) : ℚ := 2 ^ (expo emin x - ((prec : Int) - 1))

/-- The rounding of the exact result `x` to the binary format with `prec`
significand bits and normal exponents `emin` to `emax`: the multiple of the unit
in the last place nearest to `x`, ties to the even multiple, and an infinity
when this multiple is `2^(emax + 1)` or more in magnitude. -/
def roundTo (prec : Nat) (emin emax : Int) (x : ℚ) : FloatVal :=
  if x = 0 then finite 0
  else if (2 : ℚ) ^ (emax + 1) ≤ |(roundHalfEven (x / ulp prec emin x) : ℚ) * ulp prec emin x| then
    (if 0 < x then posInf else negInf)
  else finite ((roundHalfEven (x / ulp prec emin x) : ℚ) * ulp prec emin x)

/-- The rounding to `float`, IEEE 754 binary32. -/
def roundFloat (x : ℚ) : FloatVal := roundTo 24 (-126) 127 x

/-- The rounding to `double`, IEEE 754 binary64. -/
def roundDouble (x : ℚ) : FloatVal := roundTo 53 (-1022) 1023 x

/-- The conversion of an `int` or a `uint32_t` to `float`: the integer is
rounded to the nearest `float`, ties to even, when it has more than 24
significant bits. -/
def ofInt (n : Int) : FloatVal := roundFloat n

/-- The conversion of a `double` to `float`. -/
def toFloat : FloatVal → FloatVal
  | finite q => roundFloat q
  | posInf => posInf
  | negInf => negInf
  | nan => nan

/-- The comparison `a < b`: false as soon as one side is NaN. -/
def lt : FloatVal → FloatVal → Bool
  | nan, _ => false
  | _, nan => false
  | finite a, finite b => decide (a < b)
  | finite _, posInf => true
  | finite _, negInf => false
  | posInf, _ => false
  | negInf, negInf => false
  | negInf, _ => true

/-- The sum `a + b`, the exact sum of two finite values rounded by `rnd`. -/
def addWith (rnd : ℚ → FloatVal) : FloatVal → FloatVal → FloatVal
  | nan, _ => nan
  | _, nan => nan
  | finite a, finite b => rnd (a + b)
  | posInf, negInf => nan
  | negInf, posInf => nan
  | posInf, _ => posInf
  | _, posInf => posInf
  | negInf, _ => negInf
  | _, negInf => negInf

/-- The sum `a + b` of two `float` values. -/
def add (a b : FloatVal) : FloatVal := addWith roundFloat a b

/-- The opposite `-a`. -/
def neg : FloatVal → FloatVal
  | finite a => finite (-a)
  | posInf => negInf
  | negInf => posInf
  | nan => nan

/-- The difference `a - b` of two `double` values. -/
def subDouble (a b : FloatVal) : FloatVal := addWith roundDouble a (neg b)

/-- The infinity with the sign of the non-zero rational `q`, NaN for zero. -/
def infOfSign (q : ℚ) : FloatVal :=
  if q = 0 then nan else if 0 < q then posInf else negInf

/-- The product `a * b` of two `float` values. -/
def mul : FloatVal → FloatVal → FloatVal
  | nan, _ => nan
  | _, nan => nan
  | finite a, finite b => roundFloat (a * b)
  | finite a, posInf => infOfSign a
  | finite a, negInf => infOfSign (-a)
  | posInf, finite b => infOfSign b
  | negInf, finite b => infOfSign (-b)
  | posInf, posInf => posInf
  | negInf, negInf => posInf
  | posInf, negInf => negInf
  | negInf, posInf => negInf

/-- The quotient `a / b` of two `float` values.  A finite value divided by zero
is an infinity with the sign of the dividend, and `0 / 0` is NaN; the zero
divisor is the positive zero, which is what the conversion of the `int` 0
gives. -/
def div : FloatVal → FloatVal → FloatVal
  | nan, _ => nan
  | _, nan => nan
  | finite a, finite b => if b = 0 then infOfSign a else roundFloat (a / b)
  | finite _, posInf => finite 0
  | finite _, negInf => finite 0
  | posInf, finite b => if 0 ≤ b then posInf else negInf
  | negInf, finite b => if 0 ≤ b then negInf else posInf
  | posInf, posInf => nan
  | posInf, negInf => nan
  | negInf, posInf => nan
  | negInf, negInf => nan

/-- The function `std::max(a, b)`, which is `(a < b) ? b : a`. -/
def max (a b : FloatVal) : FloatVal := if lt a b = true then b else a

/-- The function `std::min(a, b)`, which is `(b < a) ? b : a`. -/
def min (a b : FloatVal) : FloatVal := if lt b a = true then b else a

/-- The conversion of a `float` to `uint32_t`: a finite value is truncated.
C++ leaves the conversion undefined when the truncated value is not in the
range of `uint32_t`; the embedding then takes the value reduced modulo `2^32`
for a finite value above the range and 0 otherwise. -/
def toUInt32 : FloatVal → Nat
  | finite q => (Rat.floor q).toNat % 2 ^ 32
  | _ => 0

/-- The bound on the distance of the steering to 1.0 after a beat without
drift, in units in the last place, from the distance `k` before the beat: half
of `k` rounded up, and 0 from the distance 1 on, where the tie goes to 1.0. -/
def halveUlps (k : Nat) : Nat := if k ≤ 1 then 0 else (k + 1) / 2

end FloatVal

namespace StepSync

/-- Modelled from the spec: the helper `StepSync::calcOverflowVal(previous, current)`,
which `stepsync.cpp` calls and does not define.  Spec 4.5: both counters are
unsigned 32-bit counters that wrap around, and the result is the signed number
of forward steps elapsed, `(current - previous) mod 2^32`, reinterpreted as
signed when the result exceeds half the modulus. -/
def calcOverflowVal (previous current : Nat) : Int :=
  let d : Int := ((current : Int) - (previous : Int)) % 2 ^ 32
  if d > 2 ^ 31 then d - 2 ^ 32 else d

end StepSync

/-- The members of `ClockCatchUp` that `stepsync.cpp` reads and writes. -/
structure ClockCatchUp where
  constBaseInt : Nat
  firstMasterSync : Bool
  stepsSyncLast : Nat
  stepsSyncMasterLast : Nat
  catchupOffset : Int
  steering : FloatVal
  deriving DecidableEq

namespace ClockCatchUp

/-- The function `ClockCatchUp::reset()`: the returned interval and the state
on exit. -/
def reset (c : ClockCatchUp) : Nat × ClockCatchUp :=
  (c.constBaseInt,
    { c with firstMasterSync := true, catchupOffset := 0, steering := FloatVal.finite 1 })

/-- The local `int diff` of `onMasterClock`:
`int diff = StepSync::calcOverflowVal(_stepsSyncLast, stepsCurrent)`. -/
def diff (c : ClockCatchUp) (stepsCurrent : Nat) : Int :=
  toInt32 (StepSync.calcOverflowVal c.stepsSyncLast stepsCurrent)

/-- The local `int masterDiff` of `onMasterClock`:
`int masterDiff = StepSync::calcOverflowVal(_stepsSyncMasterLast, stepsMaster)`. -/
def masterDiff (c : ClockCatchUp) (stepsMaster : Nat) : Int :=
  toInt32 (StepSync.calcOverflowVal c.stepsSyncMasterLast stepsMaster)

/-- The local `float curSteering` of `onMasterClock` after the clamp, from the
updated `_catchupOffset` and `masterDiff`:
`float curSteering = 1.0 - static_cast<float>(_catchupOffset) / masterDiff;`
`curSteering = std::min(std::max(curSteering, 0.5f), 1.5f);`.
Both integers are converted to `float` and divided as `float`; the literal `1.0`
is a `double`, so the difference is taken in `double` and converted to `float`
by the initialisation. -/
def curSteering (catchupOffset masterDiff : Int) : FloatVal :=
  FloatVal.min
    (FloatVal.max
      (FloatVal.toFloat (FloatVal.subDouble (FloatVal.finite 1)
        (FloatVal.div (FloatVal.ofInt catchupOffset) (FloatVal.ofInt masterDiff))))
      (FloatVal.finite (1 / 2)))
    (FloatVal.finite (3 / 2))

/-- The function `ClockCatchUp::onMasterClock(stepsCurrent, stepsMaster)`: the
returned interval and the state on exit. -/
def onMasterClock (c : ClockCatchUp) (stepsCurrent stepsMaster : Nat) : Nat × ClockCatchUp :=
  let r : Nat × ClockCatchUp :=
    if c.firstMasterSync = false then
      let diff := c.diff stepsCurrent
      let masterDiff := c.masterDiff stepsMaster
      let curOffset := toInt32 (masterDiff - diff)
      let catchupOffset := toInt32 (c.catchupOffset + curOffset)
      let curSteering := curSteering catchupOffset masterDiff
      let steering := FloatVal.add (FloatVal.mul (FloatVal.finite (1 / 2)) c.steering)
        (FloatVal.mul (FloatVal.finite (1 / 2)) curSteering)
      let nextInt := FloatVal.toUInt32 (FloatVal.mul (FloatVal.ofInt c.constBaseInt) steering)
      (nextInt, { c with catchupOffset := catchupOffset, steering := steering })
    else (c.constBaseInt, c)
  (r.1, { r.2 with
    stepsSyncMasterLast := stepsMaster, stepsSyncLast := stepsCurrent,
    firstMasterSync := false })

/-- The function `ClockCatchUp::getCatchupOffset() const`: the returned value
and the state on exit. -/
def getCatchupOffset (c : ClockCatchUp) : Int × ClockCatchUp :=
  (c.catchupOffset, c)

/-- The state after a sequence of beats `(stepsCurrent, stepsMaster)`, given to
`onMasterClock` one after the other. -/
def run (c : ClockCatchUp) : List (Nat × Nat) → ClockCatchUp
  | [] => c
  | beat :: rest => run (c.onMasterClock beat.1 beat.2).2 rest

/-- The intervals returned by `onMasterClock` on a sequence of beats, in order. -/
def intervals (c : ClockCatchUp) : List (Nat × Nat) → List Nat
  | [] => []
  | beat :: rest =>
    (c.onMasterClock beat.1 beat.2).1 :: intervals (c.onMasterClock beat.1 beat.2).2 rest

/-- A synced controller with base interval 10, with an offset and a steering
left over from earlier beats. -/
def sample : ClockCatchUp :=
  { constBaseInt := 10, firstMasterSync := false, stepsSyncLast := 40,
    stepsSyncMasterLast := 50, catchupOffset := 7, steering := FloatVal.finite (5 / 4) }

/-- A beat stream without drift, from the state `c` on: on every beat the
master difference equals the local difference and is not 0. -/
def ZeroDrift (c : ClockCatchUp) : List (Nat × Nat) → Prop
  | [] => True
  | beat :: rest =>
    c.masterDiff beat.2 = c.diff beat.1 ∧ c.masterDiff beat.2 ≠ 0 ∧
      ZeroDrift (c.onMasterClock beat.1 beat.2).2 rest

/-- A beat stream in which every beat that finds the controller synced has a
non-zero master difference, from the state `c` on. -/
def NonZeroMaster (c : ClockCatchUp) : List (Nat × Nat) → Prop
  | [] => True
  | beat :: rest =>
    (c.firstMasterSync = false → c.masterDiff beat.2 ≠ 0) ∧
      NonZeroMaster (c.onMasterClock beat.1 beat.2).2 rest

/-- A synced controller with base interval 10, last-seen pair (0, 0), offset 0
and steering `q`. -/
def syncedSteering (q : ℚ) : ClockCatchUp :=
  { constBaseInt := 10, firstMasterSync := false, stepsSyncLast := 0,
    stepsSyncMasterLast := 0, catchupOffset := 0, steering := FloatVal.finite q }

/-- A synced controller with base interval 10, last-seen pair (0, 0), offset 0
and steering 1.0: the state after `reset()` and a first beat (0, 0). -/
def synced10 : ClockCatchUp :=
  { constBaseInt := 10, firstMasterSync := false, stepsSyncLast := 0,
    stepsSyncMasterLast := 0, catchupOffset := 0, steering := FloatVal.finite 1 }

/-- A synced controller with base interval `base`, last-seen pair (0, 0),
offset 0 and steering 1.0: the state after `reset()` and a first beat (0, 0). -/
def syncedBase (base : Nat) : ClockCatchUp :=
  { constBaseInt := base, firstMasterSync := false, stepsSyncLast := 0,
    stepsSyncMasterLast := 0, catchupOffset := 0, steering := FloatVal.finite 1 }

/-- The synced controller with base interval `base` after the beat `(10 k, k)`
of a stream on each beat of which the local clock has made 10 steps and the
master 1: the offset is `-9 k`, and `s` is the steering. -/
def aheadState (base k : Nat) (s : ℚ) : ClockCatchUp :=
  { constBaseInt := base, firstMasterSync := false, stepsSyncLast := 10 * k,
    stepsSyncMasterLast := k, catchupOffset := -9 * (k : Int), steering := FloatVal.finite s }

/-- The `n` beats that follow the beat `(10 k, k)` in this stream. -/
def aheadFrom (k : Nat) : Nat → List (Nat × Nat)
  | 0 => []
  | n + 1 => (10 * (k + 1), k + 1) :: aheadFrom (k + 1) n

/-- A first beat (0, 0) followed by 23 beats on each of which the local clock
has made 10 steps and the master 1. -/
def aheadBeats : List (Nat × Nat) :=
  [(0, 0), (10, 1), (20, 2), (30, 3), (40, 4), (50, 5), (60, 6), (70, 7), (80, 8), (90, 9),
    (100, 10), (110, 11), (120, 12), (130, 13), (140, 14), (150, 15), (160, 16), (170, 17),
    (180, 18), (190, 19), (200, 20), (210, 21), (220, 22), (230, 23)]

end ClockCatchUp

/-! ## The other handlers of `app/jsonprocessor.cpp` -/

namespace JsonVariant

/-- The members of an object after `obj[key] = value`: the value of an existing
member is replaced, a new member is added at the end. -/
def setMember : List (String × JsonVariant) → String → JsonVariant →
    List (String × JsonVariant)
  | [], key, value => [(key, value)]
  | (k, x) :: rest, key, value =>
    if k = key then (key, value) :: rest else (k, x) :: setMember rest key value

/-- The assignment `v[key] = value`; nothing is stored when `v` is not an
object. -/
def set (v : JsonVariant) (key : String) (value : JsonVariant) : JsonVariant :=
  match v with
  | object members => object (setMember members key value)
  | other => other

end JsonVariant

/-- The colour mode of the engine, `RGBWWLed::ColorMode`. -/
inductive ColorMode where
  | Hsv | Raw
  deriving DecidableEq, Repr

/-- What `addChannelStatesToCmd` reads from the engine: the mode `getMode()`,
and for each key the JSON value the code stores under it, computed from
`getCurrentColor()` or `getCurrentOutput()` (for `h`, `s` and `v` through the
library macros `RGBWW_CALC_HUEWHEELMAX` and `RGBWW_CALC_MAXVAL`). -/
structure CurrentState where
  mode : ColorMode
  h : JsonVariant
  s : JsonVariant
  v : JsonVariant
  ct : JsonVariant
  r : JsonVariant
  g : JsonVariant
  b : JsonVariant
  ww : JsonVariant
  cw : JsonVariant

namespace JsonProcessor

/-- The statement `if (channels.count() == 0 || channels.contains(ch)) obj[key] = value;`
of `addChannelStatesToCmd`, on the members of the new object. -/
def addState (channels : List CtrlChannel) (ch : CtrlChannel) (key : String)
    (value : JsonVariant) (members : List (String × JsonVariant)) :
    List (String × JsonVariant) :=
  if channels.length = 0 ∨ ch ∈ channels then JsonVariant.setMember members key value
  else members

/-- The function `JsonProcessor::addChannelStatesToCmd(root, channels)`: `root`
on exit.  `createNestedObject` stores a new object under "hsv" or "raw". -/
def addChannelStatesToCmd (cur : CurrentState) (root : JsonVariant)
    (channels : List CtrlChannel) : JsonVariant :=
  match cur.mode with
  | ColorMode.Hsv =>
    root.set "hsv" (JsonVariant.object ([]
      |> addState channels CtrlChannel.Hue "h" cur.h
      |> addState channels CtrlChannel.Sat "s" cur.s
      |> addState channels CtrlChannel.Val "v" cur.v
      |> addState channels CtrlChannel.ColorTemp "ct" cur.ct))
  | ColorMode.Raw =>
    root.set "raw" (JsonVariant.object ([]
      |> addState channels CtrlChannel.Red "r" cur.r
      |> addState channels CtrlChannel.Green "g" cur.g
      |> addState channels CtrlChannel.Blue "b" cur.b
      |> addState channels CtrlChannel.WarmWhite "ww" cur.ww
      |> addState channels CtrlChannel.ColdWhite "cw" cur.cw))

/-- The function `JsonProcessor::onDirect(root, msg, relay)`: the returned
`bool`, `msg` on exit and the call log on exit. -/
def onDirect (env : Env) (root : JsonVariant) (msg : String) (relay : Bool)
    (log : List EngineCall) : Bool × String × List EngineCall :=
  let params := requestOf env root
  let r : String × List EngineCall :=
    if params.mode = Mode.Kelvin then (msg, log)
    else if params.mode = Mode.Hsv then (msg, log ++ [EngineCall.colorDirectHSV params.hsv])
    else if params.mode = Mode.Raw then (msg, log ++ [EngineCall.colorDirectRAW params.raw])
    else ("No color object!", log)
  if relay = true then (true, r.1, r.2 ++ [EngineCall.onCommandRelay "direct" root])
  else (true, r.1, r.2)

/-- The function `JsonProcessor::onStop(root, msg, relay)`.  The state of the
engine read by `addChannelStatesToCmd` is given by `cur`, as a function of the
calls made so far. -/
def onStop (env : Env) (cur : List EngineCall → CurrentState) (root : JsonVariant)
    (msg : String) (relay : Bool) (log : List EngineCall) :
    Bool × String × List EngineCall :=
  let params := requestOf env root
  let log := log ++ [EngineCall.clearAnimationQueue params.channels]
  let log := log ++ [EngineCall.skipAnimation params.channels]
  let d := onDirect env root msg false log
  if relay = true then
    (true, d.2.1, d.2.2 ++ [EngineCall.onCommandRelay "stop"
      (addChannelStatesToCmd (cur d.2.2) root params.channels)])
  else (true, d.2.1, d.2.2)

/-- The function `JsonProcessor::onSkip(root, msg, relay)`. -/
def onSkip (env : Env) (cur : List EngineCall → CurrentState) (root : JsonVariant)
    (msg : String) (relay : Bool) (log : List EngineCall) :
    Bool × String × List EngineCall :=
  let params := requestOf env root
  let log := log ++ [EngineCall.skipAnimation params.channels]
  let d := onDirect env root msg false log
  if relay = true then
    (true, d.2.1, d.2.2 ++ [EngineCall.onCommandRelay "skip"
      (addChannelStatesToCmd (cur d.2.2) root params.channels)])
  else (true, d.2.1, d.2.2)

/-- The function `JsonProcessor::onPause(root, msg, relay)`. -/
def onPause (env : Env) (cur : List EngineCall → CurrentState) (root : JsonVariant)
    (msg : String) (relay : Bool) (log : List EngineCall) :
    Bool × String × List EngineCall :=
  let params := requestOf env root
  let log := log ++ [EngineCall.pauseAnimation params.channels]
  let d := onDirect env root msg false log
  if relay = true then
    (true, d.2.1, d.2.2 ++ [EngineCall.onCommandRelay "pause"
      (addChannelStatesToCmd (cur d.2.2) root params.channels)])
  else (true, d.2.1, d.2.2)

/-- The function `JsonProcessor::onContinue(root, msg, relay)`. -/
def onContinue (env : Env) (root : JsonVariant) (msg : String) (relay : Bool)
    (log : List EngineCall) : Bool × String × List EngineCall :=
  let params := requestOf env root
  let log := log ++ [EngineCall.continueAnimation params.channels]
  if relay = true then (true, msg, log ++ [EngineCall.onCommandRelay "continue" root])
  else (true, msg, log)

/-- The function `JsonProcessor::onBlink(root, msg, relay)`: the request is
default-constructed, its `ramp.value` is set to 500, and it is then filled from
`root`.  The value returned by `blink` is not used. -/
def onBlink (env : Env) (root : JsonVariant) (msg : String) (relay : Bool)
    (log : List EngineCall) : Bool × String × List EngineCall :=
  let params : RequestParameters :=
    { env.fresh with ramp := { env.fresh.ramp with value := 500 } }
  let params := parseRequestParams env.mkValue root params
  let log := log ++ [EngineCall.blink params.channels params.ramp.value params.queue
    params.requeue params.name]
  if relay = true then (true, msg, log ++ [EngineCall.onCommandRelay "blink" root])
  else (true, msg, log)

/-- The function `JsonProcessor::onJsonRpc(json)`, from the method
`rpc.getMethod()` and the parameters `rpc.getParams()` of the parsed message
on.  The result is `none` when control reaches the end of the function, which
has no `return` statement there. -/
def onJsonRpc (env : Env) (cur : List EngineCall → CurrentState) (method : String)
    (params : JsonVariant) (log : List EngineCall) : Option Bool × List EngineCall :=
  if method = "color" then
    (some (onColor env params "" false log).1, (onColor env params "" false log).2.2)
  else if method = "stop" then
    (some (onStop env cur params "" false log).1, (onStop env cur params "" false log).2.2)
  else if method = "blink" then
    (some (onBlink env params "" false log).1, (onBlink env params "" false log).2.2)
  else if method = "skip" then
    (some (onSkip env cur params "" false log).1, (onSkip env cur params "" false log).2.2)
  else if method = "pause" then
    (some (onPause env cur params "" false log).1, (onPause env cur params "" false log).2.2)
  else if method = "continue" then
    (some (onContinue env params "" false log).1, (onContinue env params "" false log).2.2)
  else if method = "direct" then
    (some (onDirect env params "" false log).1, (onDirect env params "" false log).2.2)
  else (none, log)

/-- The channel named by a token of the `channels` array, if any. -/
def channelOfToken (token : String) : Option CtrlChannel :=
  if token = "h" then some CtrlChannel.Hue
  else if token = "s" then some CtrlChannel.Sat
  else if token = "v" then some CtrlChannel.Val
  else if token = "ct" then some CtrlChannel.ColorTemp
  else none

/-- The raw block as the symmetry with the hsv block words it: the fields of
`raw` are parsed into `params.raw`, and the fields of `raw.from` supersede
them in `params.raw`, as the fields of `hsv.from` do in `params.hsv`. -/
def parseRawLikeHsv (mk : String → ValueClass → AbsOrRelValue) (root : JsonVariant)
    (params : RequestParameters) : RequestParameters :=
  let params := { params with
    mode := Mode.Raw, raw := parseRawFields mk (root.get "raw") params.raw }
  if ((root.get "raw").get "from").success then
    { params with
      hasRawFrom := true
      raw := parseRawFields mk ((root.get "raw").get "from") params.raw }
  else params

/-- Whether a call is a relay of a command to the peers. -/
def isRelay : EngineCall → Bool
  | EngineCall.onCommandRelay _ _ => true
  | _ => false

/-- An engine state in mode Hsv; the stored values are those of hue 120,
saturation 100, value 50 and colour temperature 2700. -/
def sampleState : CurrentState :=
  { mode := ColorMode.Hsv, h := jint "" 120, s := jint "" 100, v := jint "" 50,
    ct := jint "" 2700, r := jint "" 0, g := jint "" 0, b := jint "" 0, ww := jint "" 0,
    cw := jint "" 0 }

/-- The request
`{"raw": {"r": "7", "from": {"r": "9"}}, "cmd": "fade", "q": "back", "d": 1, "t": 700}`. -/
def rawFromRequest : JsonVariant :=
  rawRequest (JsonVariant.object [("r", jstr "7"),
    ("from", JsonVariant.object [("r", jstr "9")])]) "fade" "back"

/-! ## The validator -/

/-- When queue, cmd, direction and ramp are valid, the tail of `checkParams`
returns 0 and leaves the message as it was. -/
theorem checkCommand_of_valid (p : RequestParameters) (errorMsg : String)
    (hq : p.queue ≠ QueuePolicy.Invalid) (hcmd : p.cmd = "fade" ∨ p.cmd = "solid")
    (hd : p.direction = 0 ∨ p.direction = 1)
    (hr : ¬ (p.ramp.type = RampType.Speed ∧ p.ramp.value = 0)) :
    p.checkCommand errorMsg = (0, errorMsg) := by
  have hcmd2 : ¬ (p.cmd ≠ "fade" ∧ p.cmd ≠ "solid") := by
    rcases hcmd with h | h <;> simp [h]
  have hd2 : ¬ (p.direction < 0 ∨ p.direction > 1) := by omega
  simp only [RequestParameters.checkCommand, if_neg hq, if_neg hcmd2, if_neg hd2, if_neg hr]

/-- The tail of `checkParams` returns 0 exactly when queue, cmd, direction and
ramp are valid. -/
theorem checkCommand_eq_zero_iff (p : RequestParameters) (errorMsg : String) :
    (p.checkCommand errorMsg).1 = 0 ↔
      (p.queue ≠ QueuePolicy.Invalid ∧ (p.cmd = "fade" ∨ p.cmd = "solid") ∧
        (p.direction = 0 ∨ p.direction = 1) ∧
        ¬ (p.ramp.type = RampType.Speed ∧ p.ramp.value = 0)) := by
  constructor
  · intro h
    unfold RequestParameters.checkCommand at h
    split_ifs at h with h1 h2 h3 h4
    all_goals first
      | (exfalso; revert h; decide)
      | (refine ⟨h1, ?_, ?_, h4⟩
         · by_cases hf : p.cmd = "fade"
           · exact Or.inl hf
           · by_cases hs : p.cmd = "solid"
             · exact Or.inr hs
             · exact absurd ⟨hf, hs⟩ h2
         · omega)
  · rintro ⟨hq, hcmd, hd, hr⟩
    rw [checkCommand_of_valid p errorMsg hq hcmd hd hr]

/-- The accepted colour temperatures are exactly those the test of `checkParams`
does not reject. -/
theorem badCt_iff (c : Int) :
    RequestParameters.badCt c ↔ ¬ (c = 0 ∨ (100 ≤ c ∧ c ≤ 500) ∨ (2000 ≤ c ∧ c ≤ 10000)) := by
  unfold RequestParameters.badCt
  omega

/-- C1: in Hsv mode with `ct` present with integer value `c`, and queue, cmd,
direction and ramp valid, `checkParams` returns 0 if and only if `c = 0` or
`100 <= c <= 500` or `2000 <= c <= 10000`; for every other `c` it returns
non-zero (1) and sets the message to "bad param for ct". -/
theorem checkParams_ct_accepted_iff (p : RequestParameters) (errorMsg : String) (c : Int)
    (hmode : p.mode = Mode.Hsv) (hct : p.hsv.ct.hasValue = true) (hc : p.hsv.ct.value = c)
    (hq : p.queue ≠ QueuePolicy.Invalid) (hcmd : p.cmd = "fade" ∨ p.cmd = "solid")
    (hd : p.direction = 0 ∨ p.direction = 1)
    (hr : ¬ (p.ramp.type = RampType.Speed ∧ p.ramp.value = 0)) :
    ((p.checkParams errorMsg).1 = 0 ↔
        (c = 0 ∨ (100 ≤ c ∧ c ≤ 500) ∨ (2000 ≤ c ∧ c ≤ 10000))) ∧
      (¬ (c = 0 ∨ (100 ≤ c ∧ c ≤ 500) ∨ (2000 ≤ c ∧ c ≤ 10000)) →
        p.checkParams errorMsg = (1, "bad param for ct")) := by
  have hpresent : ¬ (p.hsv.h.hasValue = false ∧ p.hsv.s.hasValue = false ∧
      p.hsv.v.hasValue = false ∧ p.hsv.ct.hasValue = false) := by
    simp [hct]
  by_cases hbad : RequestParameters.badCt c
  · have hrej : p.checkParams errorMsg = (1, "bad param for ct") := by
      simp only [RequestParameters.checkParams, if_pos hmode, hc, if_pos (And.intro hct hbad)]
    refine ⟨?_, fun _ => hrej⟩
    rw [hrej]
    constructor
    · intro h
      exact absurd h (by decide)
    · intro h
      exact absurd h ((badCt_iff c).mp hbad)
  · have hacc : p.checkParams errorMsg = (0, errorMsg) := by
      have hnot : ¬ (p.hsv.ct.hasValue = true ∧ RequestParameters.badCt c) := fun h => hbad h.2
      simp only [RequestParameters.checkParams, if_pos hmode, hc, if_neg hnot, if_neg hpresent]
      exact checkCommand_of_valid p errorMsg hq hcmd hd hr
    have hok : c = 0 ∨ (100 ≤ c ∧ c ≤ 500) ∨ (2000 ≤ c ∧ c ≤ 10000) := by
      by_contra hn
      exact hbad ((badCt_iff c).mpr hn)
    refine ⟨?_, fun hn => absurd hok hn⟩
    rw [hacc]
    exact ⟨fun _ => hok, fun _ => rfl⟩

/-- C1, evaluated: the hypotheses hold for `ct = 501`, which is rejected with
"bad param for ct"; so are 1999, 10001, 99 and -1, while 0, 100, 500, 2000 and
10000 are accepted. -/
theorem checkParams_ct_accepted_iff_witness :
    ((ctParams 501).mode = Mode.Hsv ∧ (ctParams 501).hsv.ct.hasValue = true) ∧
    ((((ctParams 501).checkParams "").1 = 0 ↔
        ((501 : Int) = 0 ∨ (100 ≤ (501 : Int) ∧ (501 : Int) ≤ 500) ∨
          (2000 ≤ (501 : Int) ∧ (501 : Int) ≤ 10000))) ∧
      (¬ ((501 : Int) = 0 ∨ (100 ≤ (501 : Int) ∧ (501 : Int) ≤ 500) ∨
          (2000 ≤ (501 : Int) ∧ (501 : Int) ≤ 10000)) →
        (ctParams 501).checkParams "" = (1, "bad param for ct"))) ∧
    (ctParams 501).checkParams "" = (1, "bad param for ct") ∧
    (ctParams 1999).checkParams "" = (1, "bad param for ct") ∧
    (ctParams 10001).checkParams "" = (1, "bad param for ct") ∧
    (ctParams 99).checkParams "" = (1, "bad param for ct") ∧
    (ctParams (-1)).checkParams "" = (1, "bad param for ct") ∧
    (ctParams 0).checkParams "" = (0, "") ∧
    (ctParams 100).checkParams "" = (0, "") ∧
    (ctParams 500).checkParams "" = (0, "") ∧
    (ctParams 2000).checkParams "" = (0, "") ∧
    (ctParams 10000).checkParams "" = (0, "") :=
  ⟨by decide,
    checkParams_ct_accepted_iff (ctParams 501) "" 501 (by decide) (by decide) (by decide)
      (by decide) (by decide) (by decide) (by decide),
    by decide, by decide, by decide, by decide, by decide, by decide, by decide, by decide,
    by decide, by decide⟩

/-- Whenever `checkParams` returns 0, so does its tail, with the message
unchanged. -/
theorem checkParams_zero_checkCommand (p : RequestParameters) (errorMsg : String)
    (h : (p.checkParams errorMsg).1 = 0) :
    p.checkCommand errorMsg = p.checkParams errorMsg := by
  unfold RequestParameters.checkParams at h ⊢
  split_ifs at h ⊢
  all_goals first
    | rfl
    | (exfalso; revert h; decide)

/-- C2: for a request in mode Hsv or Raw, `checkParams` returns 0 if and only
if the colour block is valid (Hsv: `ct` absent, 0, or within [100,500] or
[2000,10000], and one of h, s, v, ct present; Raw: one of r, g, b, ww, cw
present), the queue is not Invalid, cmd is exactly "fade" or "solid", direction
is 0 or 1, and the ramp is not a Speed ramp of value 0.  A Speed ramp of 0 is
rejected whatever the other fields are, and the value of a Time ramp never
changes the outcome. -/
theorem checkParams_eq_zero_iff (p : RequestParameters) (errorMsg : String)
    (hmode : p.mode = Mode.Hsv ∨ p.mode = Mode.Raw) :
    ((p.checkParams errorMsg).1 = 0 ↔
      ((p.mode = Mode.Hsv →
          (p.hsv.ct.hasValue = false ∨ p.hsv.ct.value = 0 ∨
            (100 ≤ p.hsv.ct.value ∧ p.hsv.ct.value ≤ 500) ∨
            (2000 ≤ p.hsv.ct.value ∧ p.hsv.ct.value ≤ 10000)) ∧
          (p.hsv.h.hasValue = true ∨ p.hsv.s.hasValue = true ∨ p.hsv.v.hasValue = true ∨
            p.hsv.ct.hasValue = true)) ∧
        (p.mode = Mode.Raw →
          (p.raw.r.hasValue = true ∨ p.raw.g.hasValue = true ∨ p.raw.b.hasValue = true ∨
            p.raw.ww.hasValue = true ∨ p.raw.cw.hasValue = true)) ∧
        p.queue ≠ QueuePolicy.Invalid ∧ (p.cmd = "fade" ∨ p.cmd = "solid") ∧
        (p.direction = 0 ∨ p.direction = 1) ∧
        ¬ (p.ramp.type = RampType.Speed ∧ p.ramp.value = 0))) ∧
    (p.ramp.type = RampType.Speed → p.ramp.value = 0 → (p.checkParams errorMsg).1 ≠ 0) ∧
    (∀ v w : ℚ,
      RequestParameters.checkParams { p with ramp := ⟨v, RampType.Time⟩ } errorMsg =
        RequestParameters.checkParams { p with ramp := ⟨w, RampType.Time⟩ } errorMsg) := by
  refine ⟨?_, ?_, ?_⟩
  · rcases hmode with hm | hm
    · have hraw : p.mode ≠ Mode.Raw := by rw [hm]; decide
      simp only [RequestParameters.checkParams, if_pos hm]
      split_ifs with h1 h2
      · obtain ⟨hv, hb⟩ := h1
        rw [badCt_iff] at hb
        constructor
        · intro h
          exact absurd h (by decide)
        · rintro ⟨hh, -⟩
          rcases (hh hm).1 with h | h
          · rw [hv] at h
            exact absurd h (by decide)
          · exact absurd h hb
      · obtain ⟨hh2, hs2, hv2, hct⟩ := h2
        constructor
        · intro h
          exact absurd h (by decide)
        · rintro ⟨hh, -⟩
          have := (hh hm).2
          simp_all
      · rw [checkCommand_eq_zero_iff]
        constructor
        · rintro ⟨hq, hcmd, hd, hr⟩
          refine ⟨fun _ => ⟨?_, ?_⟩, fun h => absurd h hraw, hq, hcmd, hd, hr⟩
          · by_cases hv : p.hsv.ct.hasValue = true
            · right
              have hnb : ¬ RequestParameters.badCt p.hsv.ct.value := fun hb => h1 ⟨hv, hb⟩
              rw [badCt_iff] at hnb
              exact not_not.mp hnb
            · left
              simpa using hv
          · by_contra hn
            apply h2
            simp only [not_or, Bool.not_eq_true] at hn
            exact hn
        · rintro ⟨-, -, hq, hcmd, hd, hr⟩
          exact ⟨hq, hcmd, hd, hr⟩
    · have hhsv : p.mode ≠ Mode.Hsv := by rw [hm]; decide
      simp only [RequestParameters.checkParams, if_neg hhsv, if_pos hm]
      split_ifs with h1
      · constructor
        · intro h
          exact absurd h (by decide)
        · rintro ⟨-, hh, -⟩
          have := hh hm
          simp_all
      · rw [checkCommand_eq_zero_iff]
        constructor
        · rintro ⟨hq, hcmd, hd, hr⟩
          refine ⟨fun h => absurd h hhsv, fun _ => ?_, hq, hcmd, hd, hr⟩
          by_contra hn
          apply h1
          simp only [not_or, Bool.not_eq_true] at hn
          exact hn
        · rintro ⟨-, -, hq, hcmd, hd, hr⟩
          exact ⟨hq, hcmd, hd, hr⟩
  · intro ht hv h0
    have hc := checkParams_zero_checkCommand p errorMsg h0
    rw [← hc] at h0
    exact ((checkCommand_eq_zero_iff p errorMsg).mp h0).2.2.2 ⟨ht, hv⟩
  · intro v w
    simp [RequestParameters.checkParams, RequestParameters.checkCommand]

/-- C2, evaluated: a valid Hsv request (`ct = 300`) is in scope and accepted;
the same request is rejected with cmd "Fade", with the empty cmd, with
direction 2, with the Invalid queue and with a Speed ramp of 0, and accepted
with a Time ramp of 0. -/
theorem checkParams_eq_zero_iff_witness :
    ((ctParams 300).mode = Mode.Hsv ∨ (ctParams 300).mode = Mode.Raw) ∧
    ((ctParams 300).checkParams "").1 = 0 ∧
    RequestParameters.checkParams { ctParams 300 with cmd := "Fade" } "" = (1, "Invalid cmd") ∧
    RequestParameters.checkParams { ctParams 300 with cmd := "" } "" = (1, "Invalid cmd") ∧
    RequestParameters.checkParams { ctParams 300 with cmd := "solid" } "" = (0, "") ∧
    RequestParameters.checkParams { ctParams 300 with direction := 2 } "" =
      (1, "Invalid direction") ∧
    RequestParameters.checkParams { ctParams 300 with queue := QueuePolicy.Invalid } "" =
      (1, "Invalid queue policy") ∧
    RequestParameters.checkParams { ctParams 300 with ramp := ⟨0, RampType.Speed⟩ } "" =
      (1, "Speed cannot be 0!") ∧
    RequestParameters.checkParams { ctParams 300 with ramp := ⟨0, RampType.Time⟩ } "" = (0, "") :=
  ⟨by decide, (checkParams_eq_zero_iff (ctParams 300) "" (by decide)).1.mpr (by decide),
    by decide, by decide, by decide, by decide, by decide, by decide, by decide⟩

/-- C3: in Hsv mode with none of h, s, v, ct present, `checkParams` returns
non-zero with "Need at least one HSVCT component!", whatever queue, cmd,
direction and ramp are; in Raw mode with none of r, g, b, ww, cw present it
returns non-zero with "Need at least one RAW component!"; and an Hsv request in
which only `v` is present and whose queue, cmd, direction and ramp are valid
is accepted. -/
theorem checkParams_needs_component (p : RequestParameters) (errorMsg : String) :
    (p.mode = Mode.Hsv → p.hsv.h.hasValue = false → p.hsv.s.hasValue = false →
      p.hsv.v.hasValue = false → p.hsv.ct.hasValue = false →
      p.checkParams errorMsg = (1, "Need at least one HSVCT component!")) ∧
    (p.mode = Mode.Raw → p.raw.r.hasValue = false → p.raw.g.hasValue = false →
      p.raw.b.hasValue = false → p.raw.ww.hasValue = false → p.raw.cw.hasValue = false →
      p.checkParams errorMsg = (1, "Need at least one RAW component!")) ∧
    (p.mode = Mode.Hsv → p.hsv.v.hasValue = true → p.hsv.h.hasValue = false →
      p.hsv.s.hasValue = false → p.hsv.ct.hasValue = false →
      p.queue ≠ QueuePolicy.Invalid → (p.cmd = "fade" ∨ p.cmd = "solid") →
      (p.direction = 0 ∨ p.direction = 1) →
      ¬ (p.ramp.type = RampType.Speed ∧ p.ramp.value = 0) →
      p.checkParams errorMsg = (0, errorMsg)) := by
  refine ⟨?_, ?_, ?_⟩
  · intro hm hh hs hv hct
    have h1 : ¬ (p.hsv.ct.hasValue = true ∧ RequestParameters.badCt p.hsv.ct.value) := by
      simp [hct]
    simp only [RequestParameters.checkParams, if_pos hm, if_neg h1,
      if_pos (And.intro hh (And.intro hs (And.intro hv hct)))]
  · intro hm hr hg hb hww hcw
    have hhsv : p.mode ≠ Mode.Hsv := by rw [hm]; decide
    simp only [RequestParameters.checkParams, if_neg hhsv, if_pos hm,
      if_pos (And.intro hr (And.intro hg (And.intro hb (And.intro hww hcw))))]
  · intro hm hv hh hs hct hq hcmd hd hr
    have h1 : ¬ (p.hsv.ct.hasValue = true ∧ RequestParameters.badCt p.hsv.ct.value) := by
      simp [hct]
    have h2 : ¬ (p.hsv.h.hasValue = false ∧ p.hsv.s.hasValue = false ∧
        p.hsv.v.hasValue = false ∧ p.hsv.ct.hasValue = false) := by
      simp [hv]
    simp only [RequestParameters.checkParams, if_pos hm, if_neg h1, if_neg h2]
    exact checkCommand_of_valid p errorMsg hq hcmd hd hr

/-- C3, evaluated on parsed requests: `{"hsv": {}}` is rejected with the
HSVCT reason, also with an unknown queue token and an unknown cmd;
`{"raw": {}}` is rejected with the RAW reason; `{"hsv": {"v": "50"}}` with
valid queue, cmd, direction and ramp is accepted. -/
theorem checkParams_needs_component_witness :
    (parseRequestParams AbsOrRelValue.ofText
        (hsvRequest (JsonVariant.object []) "bogus" "bogus") RequestParameters.fresh).mode
      = Mode.Hsv ∧
    (parseRequestParams AbsOrRelValue.ofText
        (hsvRequest (JsonVariant.object []) "bogus" "bogus") RequestParameters.fresh).checkParams ""
      = (1, "Need at least one HSVCT component!") ∧
    (parseRequestParams AbsOrRelValue.ofText
        (hsvRequest (JsonVariant.object []) "fade" "back") RequestParameters.fresh).checkParams ""
      = (1, "Need at least one HSVCT component!") ∧
    (parseRequestParams AbsOrRelValue.ofText
        (JsonVariant.object [("raw", JsonVariant.object []), ("cmd", jstr "fade")])
        RequestParameters.fresh).checkParams ""
      = (1, "Need at least one RAW component!") ∧
    (parseRequestParams AbsOrRelValue.ofText
        (hsvRequest (JsonVariant.object [("v", jstr "50")]) "fade" "back")
        RequestParameters.fresh).checkParams ""
      = (0, "") :=
  ⟨by decide,
    (checkParams_needs_component _ "").1 (by decide) (by decide) (by decide) (by decide)
      (by decide),
    (checkParams_needs_component _ "").1 (by decide) (by decide) (by decide) (by decide)
      (by decide),
    (checkParams_needs_component _ "").2.1 (by decide) (by decide) (by decide) (by decide)
      (by decide) (by decide),
    (checkParams_needs_component _ "").2.2 (by decide) (by decide) (by decide) (by decide)
      (by decide) (by decide) (by decide) (by decide) (by decide)⟩

/-! ## The dispatcher -/

/-- C4: when `checkParams` returns non-zero on the parsed request,
`onSingleColorCommand` returns false, leaves in `errorMsg` the reason set by
`checkParams`, and makes no call to the engine: the call log is unchanged. -/
theorem onSingleColorCommand_invalid (env : Env) (root : JsonVariant) (errorMsg : String)
    (log : List EngineCall)
    (h : ((requestOf env root).checkParams errorMsg).1 ≠ 0) :
    onSingleColorCommand env root errorMsg log =
      (false, ((requestOf env root).checkParams errorMsg).2, log) := by
  unfold onSingleColorCommand
  simp only [if_pos h]

/-- C4, evaluated: the request `{"hsv": {"v": "50"}, "cmd": "fade", "q": "bogus", ...}`
fails validation; it returns false with "Invalid queue policy" and the log stays
empty, although the engine would accept every call. -/
theorem onSingleColorCommand_invalid_witness :
    ((requestOf (sampleEnv true)
        (hsvRequest (JsonVariant.object [("v", jstr "50")]) "fade" "bogus")).checkParams "").1
      ≠ 0 ∧
    onSingleColorCommand (sampleEnv true)
        (hsvRequest (JsonVariant.object [("v", jstr "50")]) "fade" "bogus") "" [] =
      (false, ((requestOf (sampleEnv true)
        (hsvRequest (JsonVariant.object [("v", jstr "50")]) "fade" "bogus")).checkParams "").2,
        []) ∧
    onSingleColorCommand (sampleEnv true)
        (hsvRequest (JsonVariant.object [("v", jstr "50")]) "fade" "bogus") "" [] =
      (false, "Invalid queue policy", []) :=
  ⟨by decide,
    onSingleColorCommand_invalid (sampleEnv true)
      (hsvRequest (JsonVariant.object [("v", jstr "50")]) "fade" "bogus") "" [] (by decide),
    by rfl⟩

/-- C5 fails for the Kelvin mode: the request `kelvinRequest` has mode Kelvin
and passes `checkParams`, and `onSingleColorCommand` returns false with the
reason "Queue full", not "No color object!". -/
theorem onSingleColorCommand_kelvin_counterexample :
    (requestOf (sampleEnv true) kelvinRequest).mode = Mode.Kelvin ∧
    (requestOf (sampleEnv true) kelvinRequest).checkParams "" = (0, "") ∧
    onSingleColorCommand (sampleEnv true) kelvinRequest "" [] = (false, "Queue full", []) ∧
    (onSingleColorCommand (sampleEnv true) kelvinRequest "" []).2.1 ≠ "No color object!" :=
  ⟨by decide, by decide, by rfl, by decide⟩

/-- C5, amended: for every request that passes `checkParams` and whose mode is
neither Hsv nor Raw, `onSingleColorCommand` returns false and makes no engine
call; when the mode is undefined (no colour object was given) `errorMsg` is
"No color object!". -/
theorem onSingleColorCommand_no_color (env : Env) (root : JsonVariant) (errorMsg : String)
    (log : List EngineCall)
    (hcheck : ((requestOf env root).checkParams errorMsg).1 = 0)
    (hhsv : (requestOf env root).mode ≠ Mode.Hsv)
    (hraw : (requestOf env root).mode ≠ Mode.Raw) :
    (onSingleColorCommand env root errorMsg log).1 = false ∧
    (onSingleColorCommand env root errorMsg log).2.2 = log ∧
    ((requestOf env root).mode = Mode.Undefined →
      onSingleColorCommand env root errorMsg log = (false, "No color object!", log)) := by
  have hc : ¬ ((requestOf env root).checkParams errorMsg).1 ≠ 0 := not_not.mpr hcheck
  unfold onSingleColorCommand
  simp only [if_neg hc, if_neg hhsv, if_neg hraw]
  by_cases hk : (requestOf env root).mode = Mode.Kelvin
  · simp [hk]
  · simp [hk]

/-- C5 amended, evaluated: the request without a colour object passes
`checkParams`, has the undefined mode, and is answered false with
"No color object!" and an empty log. -/
theorem onSingleColorCommand_no_color_witness :
    ((requestOf (sampleEnv true) noColorRequest).checkParams "").1 = 0 ∧
    (requestOf (sampleEnv true) noColorRequest).mode = Mode.Undefined ∧
    onSingleColorCommand (sampleEnv true) noColorRequest "" [] =
      (false, "No color object!", []) :=
  ⟨by decide, by decide,
    (onSingleColorCommand_no_color (sampleEnv true) noColorRequest "" [] (by decide)
      (by decide) (by decide)).2.2 (by decide)⟩

/-! ## The queue policy token -/

/-- None of the blocks of `parseRequestParams` other than the one on
`root["q"]` writes the queue. -/
theorem parseColor_queue (mk : String → ValueClass → AbsOrRelValue) (root : JsonVariant)
    (params : RequestParameters) : (parseColor mk root params).queue = params.queue := by
  unfold parseColor
  split_ifs <;> rfl

theorem parseKelvinMode_queue (root : JsonVariant) (params : RequestParameters) :
    (parseKelvinMode root params).queue = params.queue := by
  unfold parseKelvinMode
  split_ifs <;> rfl

theorem parseRampTime_queue (root : JsonVariant) (params : RequestParameters) :
    (parseRampTime root params).queue = params.queue := by
  unfold parseRampTime
  split_ifs <;> rfl

theorem parseRampSpeed_queue (root : JsonVariant) (params : RequestParameters) :
    (parseRampSpeed root params).queue = params.queue := by
  unfold parseRampSpeed
  split_ifs <;> rfl

theorem parseRequeue_queue (root : JsonVariant) (params : RequestParameters) :
    (parseRequeue root params).queue = params.queue := by
  unfold parseRequeue
  split_ifs <;> rfl

theorem parseKelvin_queue (root : JsonVariant) (params : RequestParameters) :
    (parseKelvin root params).queue = params.queue := by
  unfold parseKelvin
  split_ifs <;> rfl

theorem parseDirection_queue (root : JsonVariant) (params : RequestParameters) :
    (parseDirection root params).queue = params.queue := by
  unfold parseDirection
  split_ifs <;> rfl

theorem parseName_queue (root : JsonVariant) (params : RequestParameters) :
    (parseName root params).queue = params.queue := by
  unfold parseName
  split_ifs <;> rfl

theorem parseCmd_queue (root : JsonVariant) (params : RequestParameters) :
    (parseCmd root params).queue = params.queue := by
  unfold parseCmd
  split_ifs <;> rfl

theorem parseChannels_queue (root : JsonVariant) (params : RequestParameters) :
    (parseChannels root params).queue = params.queue := by
  unfold parseChannels
  split_ifs <;> rfl

/-- The queue of the parsed request: the policy of the token when `q` is
present, the queue on entry otherwise. -/
theorem parseRequestParams_queue (mk : String → ValueClass → AbsOrRelValue)
    (root : JsonVariant) (params : RequestParameters) :
    (parseRequestParams mk root params).queue =
      if (root.get "q").success = true then queueOfToken (root.get "q").asString
      else params.queue := by
  unfold parseRequestParams
  rw [parseChannels_queue]
  unfold parseQueue
  split_ifs
  · rfl
  · rw [parseCmd_queue, parseName_queue, parseDirection_queue, parseKelvin_queue,
      parseRequeue_queue, parseRampSpeed_queue, parseRampTime_queue, parseKelvinMode_queue,
      parseColor_queue]

/-- The reason "Invalid queue policy" is only given for the Invalid queue. -/
theorem checkParams_queue_reason (p : RequestParameters) (errorMsg : String)
    (h : p.checkParams errorMsg = (1, "Invalid queue policy")) :
    p.queue = QueuePolicy.Invalid := by
  unfold RequestParameters.checkParams RequestParameters.checkCommand at h
  split_ifs at h
  all_goals first
    | assumption
    | (exfalso; revert h; decide)
    | (exfalso; simp at h)

/-- C6: `parseRequestParams` maps a present `q` token to the queue policy:
"back" to Back, "front" to Front, "front_reset" to FrontReset, "single" to
Single, and every other token to Invalid.  Without a `q` key the queue keeps
the value it had before the call, and when that value is a valid policy the
parsed request is not rejected with "Invalid queue policy". -/
theorem parseRequestParams_queue_token (mk : String → ValueClass → AbsOrRelValue)
    (root : JsonVariant) (params : RequestParameters) :
    ((root.get "q").success = true →
      ((root.get "q").asString = "back" →
        (parseRequestParams mk root params).queue = QueuePolicy.Back) ∧
      ((root.get "q").asString = "front" →
        (parseRequestParams mk root params).queue = QueuePolicy.Front) ∧
      ((root.get "q").asString = "front_reset" →
        (parseRequestParams mk root params).queue = QueuePolicy.FrontReset) ∧
      ((root.get "q").asString = "single" →
        (parseRequestParams mk root params).queue = QueuePolicy.Single) ∧
      ((root.get "q").asString ≠ "back" → (root.get "q").asString ≠ "front" →
        (root.get "q").asString ≠ "front_reset" → (root.get "q").asString ≠ "single" →
        (parseRequestParams mk root params).queue = QueuePolicy.Invalid)) ∧
    ((root.get "q").success = false →
      (parseRequestParams mk root params).queue = params.queue ∧
      (params.queue ≠ QueuePolicy.Invalid → ∀ errorMsg : String,
        (parseRequestParams mk root params).checkParams errorMsg
          ≠ (1, "Invalid queue policy"))) := by
  constructor
  · intro hq
    rw [parseRequestParams_queue, if_pos hq]
    refine ⟨?_, ?_, ?_, ?_, ?_⟩
    · intro h
      rw [h]
      decide
    · intro h
      rw [h]
      decide
    · intro h
      rw [h]
      decide
    · intro h
      rw [h]
      decide
    · intro h1 h2 h3 h4
      simp only [queueOfToken, if_neg h1, if_neg h2, if_neg h3, if_neg h4]
  · intro hq
    have hkeep : (parseRequestParams mk root params).queue = params.queue := by
      rw [parseRequestParams_queue]
      simp [hq]
    refine ⟨hkeep, ?_⟩
    intro hvalid errorMsg hrej
    have := checkParams_queue_reason _ errorMsg hrej
    rw [hkeep] at this
    exact hvalid this

/-- C6, evaluated: the four tokens give their policies; "bogus", "Back" and the
empty token give Invalid; a request without `q` keeps the queue it had (here
Single, then Back) and is accepted. -/
theorem parseRequestParams_queue_token_witness :
    (parseRequestParams AbsOrRelValue.ofText (JsonVariant.object [("q", jstr "back")])
      RequestParameters.fresh).queue = QueuePolicy.Back ∧
    (parseRequestParams AbsOrRelValue.ofText (JsonVariant.object [("q", jstr "front")])
      RequestParameters.fresh).queue = QueuePolicy.Front ∧
    (parseRequestParams AbsOrRelValue.ofText (JsonVariant.object [("q", jstr "front_reset")])
      RequestParameters.fresh).queue = QueuePolicy.FrontReset ∧
    (parseRequestParams AbsOrRelValue.ofText (JsonVariant.object [("q", jstr "single")])
      RequestParameters.fresh).queue = QueuePolicy.Single ∧
    (parseRequestParams AbsOrRelValue.ofText (JsonVariant.object [("q", jstr "bogus")])
      RequestParameters.fresh).queue = QueuePolicy.Invalid ∧
    (parseRequestParams AbsOrRelValue.ofText (JsonVariant.object [("q", jstr "Back")])
      RequestParameters.fresh).queue = QueuePolicy.Invalid ∧
    (parseRequestParams AbsOrRelValue.ofText (JsonVariant.object [("q", jstr "")])
      RequestParameters.fresh).queue = QueuePolicy.Invalid ∧
    (parseRequestParams AbsOrRelValue.ofText
      (JsonVariant.object [("hsv", JsonVariant.object [("v", jstr "50")]), ("cmd", jstr "solid")])
      { RequestParameters.fresh with queue := QueuePolicy.Single }).queue = QueuePolicy.Single ∧
    (parseRequestParams AbsOrRelValue.ofText
      (JsonVariant.object [("hsv", JsonVariant.object [("v", jstr "50")]), ("cmd", jstr "solid")])
      RequestParameters.fresh).checkParams "" = (0, "") :=
  ⟨((parseRequestParams_queue_token AbsOrRelValue.ofText
      (JsonVariant.object [("q", jstr "back")]) RequestParameters.fresh).1 (by decide)).1
      (by decide),
    by decide, by decide, by decide,
    ((parseRequestParams_queue_token AbsOrRelValue.ofText
      (JsonVariant.object [("q", jstr "bogus")]) RequestParameters.fresh).1
      (by decide)).2.2.2.2 (by decide) (by decide) (by decide) (by decide),
    by decide, by decide,
    ((parseRequestParams_queue_token AbsOrRelValue.ofText
      (JsonVariant.object [("hsv", JsonVariant.object [("v", jstr "50")]), ("cmd", jstr "solid")])
      { RequestParameters.fresh with queue := QueuePolicy.Single }).2 (by decide)).1,
    by decide⟩

/-! ## The engine call of a validated request -/

/-- A request that passes `checkParams` has cmd "fade" or "solid". -/
theorem checkParams_zero_cmd (p : RequestParameters) (errorMsg : String)
    (h : (p.checkParams errorMsg).1 = 0) : p.cmd = "fade" ∨ p.cmd = "solid" := by
  have hc := checkParams_zero_checkCommand p errorMsg h
  rw [← hc] at h
  exact ((checkCommand_eq_zero_iff p errorMsg).mp h).2.1

/-- A request that passes `checkParams` leaves the message as it was. -/
theorem checkParams_zero_msg (p : RequestParameters) (errorMsg : String)
    (h : (p.checkParams errorMsg).1 = 0) : (p.checkParams errorMsg).2 = errorMsg := by
  have hc := checkParams_zero_checkCommand p errorMsg h
  rw [← hc] at h
  have hv := (checkCommand_eq_zero_iff p errorMsg).mp h
  rw [← hc, checkCommand_of_valid p errorMsg hv.1 hv.2.1 hv.2.2.1 hv.2.2.2]

/-- C7: for a request that passes `checkParams` and whose mode is Hsv or Raw,
the log after `onSingleColorCommand` is the log before it followed by exactly
one call, selected by mode, cmd and the has-from marker: Hsv, "fade", no from:
`fadeHSV(hsv, ramp, direction, queue, requeue, name)`; Hsv, "solid", no from:
`setHSV(hsv, ramp.value, queue, requeue, name)`; Hsv with from:
`fadeHSV(hsvFrom, hsv, ramp, direction, queue)` whatever cmd is; Raw likewise
among `fadeRAW(raw, ramp, queue)`, `setRAW(raw, ramp.value, queue)` and
`fadeRAW(rawFrom, raw, ramp, queue)`.  The cmd of such a request is "fade" or
"solid", so the cases cover every request. -/
theorem onSingleColorCommand_engine_call (env : Env) (root : JsonVariant) (errorMsg : String)
    (log : List EngineCall)
    (hcheck : ((requestOf env root).checkParams errorMsg).1 = 0)
    (hmode : (requestOf env root).mode = Mode.Hsv ∨ (requestOf env root).mode = Mode.Raw) :
    ((requestOf env root).cmd = "fade" ∨ (requestOf env root).cmd = "solid") ∧
    (∃ call, (onSingleColorCommand env root errorMsg log).2.2 = log ++ [call]) ∧
    ((requestOf env root).mode = Mode.Hsv → (requestOf env root).hasHsvFrom = false →
      (requestOf env root).cmd = "fade" →
      (onSingleColorCommand env root errorMsg log).2.2 =
        log ++ [EngineCall.fadeHSV (requestOf env root).hsv (requestOf env root).ramp
          (requestOf env root).direction (requestOf env root).queue
          (requestOf env root).requeue (requestOf env root).name]) ∧
    ((requestOf env root).mode = Mode.Hsv → (requestOf env root).hasHsvFrom = false →
      (requestOf env root).cmd = "solid" →
      (onSingleColorCommand env root errorMsg log).2.2 =
        log ++ [EngineCall.setHSV (requestOf env root).hsv (requestOf env root).ramp.value
          (requestOf env root).queue (requestOf env root).requeue (requestOf env root).name]) ∧
    ((requestOf env root).mode = Mode.Hsv → (requestOf env root).hasHsvFrom = true →
      (onSingleColorCommand env root errorMsg log).2.2 =
        log ++ [EngineCall.fadeHSVFromTo (requestOf env root).hsvFrom (requestOf env root).hsv
          (requestOf env root).ramp (requestOf env root).direction
          (requestOf env root).queue]) ∧
    ((requestOf env root).mode = Mode.Raw → (requestOf env root).hasRawFrom = false →
      (requestOf env root).cmd = "fade" →
      (onSingleColorCommand env root errorMsg log).2.2 =
        log ++ [EngineCall.fadeRAW (requestOf env root).raw (requestOf env root).ramp
          (requestOf env root).queue]) ∧
    ((requestOf env root).mode = Mode.Raw → (requestOf env root).hasRawFrom = false →
      (requestOf env root).cmd = "solid" →
      (onSingleColorCommand env root errorMsg log).2.2 =
        log ++ [EngineCall.setRAW (requestOf env root).raw (requestOf env root).ramp.value
          (requestOf env root).queue]) ∧
    ((requestOf env root).mode = Mode.Raw → (requestOf env root).hasRawFrom = true →
      (onSingleColorCommand env root errorMsg log).2.2 =
        log ++ [EngineCall.fadeRAWFromTo (requestOf env root).rawFrom (requestOf env root).raw
          (requestOf env root).ramp (requestOf env root).queue]) := by
  have hc : ¬ ((requestOf env root).checkParams errorMsg).1 ≠ 0 := not_not.mpr hcheck
  have hcmd := checkParams_zero_cmd _ errorMsg hcheck
  have hsolid : ("solid" : String) ≠ "fade" := by decide
  refine ⟨hcmd, ?_, ?_, ?_, ?_, ?_, ?_, ?_⟩
  · unfold onSingleColorCommand
    simp only [if_neg hc]
    rcases hmode with hm | hm
    · have hk : (requestOf env root).mode ≠ Mode.Kelvin := by rw [hm]; decide
      simp only [if_neg hk, if_pos hm]
      split_ifs
      all_goals exact ⟨_, rfl⟩
    · have hk : (requestOf env root).mode ≠ Mode.Kelvin := by rw [hm]; decide
      have hh : (requestOf env root).mode ≠ Mode.Hsv := by rw [hm]; decide
      simp only [if_neg hk, if_neg hh, if_pos hm]
      split_ifs
      all_goals exact ⟨_, rfl⟩
  · intro hm hfrom hfade
    have hk : (requestOf env root).mode ≠ Mode.Kelvin := by rw [hm]; decide
    unfold onSingleColorCommand
    simp only [if_neg hc, if_neg hk, if_pos hm, if_pos hfrom, if_pos hfade]
  · intro hm hfrom hs
    have hk : (requestOf env root).mode ≠ Mode.Kelvin := by rw [hm]; decide
    have hnf : (requestOf env root).cmd ≠ "fade" := by rw [hs]; exact hsolid
    unfold onSingleColorCommand
    simp only [if_neg hc, if_neg hk, if_pos hm, if_pos hfrom, if_neg hnf]
  · intro hm hfrom
    have hk : (requestOf env root).mode ≠ Mode.Kelvin := by rw [hm]; decide
    have hnf : ¬ (requestOf env root).hasHsvFrom = false := by rw [hfrom]; decide
    unfold onSingleColorCommand
    simp only [if_neg hc, if_neg hk, if_pos hm, if_neg hnf]
  · intro hm hfrom hfade
    have hk : (requestOf env root).mode ≠ Mode.Kelvin := by rw [hm]; decide
    have hh : (requestOf env root).mode ≠ Mode.Hsv := by rw [hm]; decide
    unfold onSingleColorCommand
    simp only [if_neg hc, if_neg hk, if_neg hh, if_pos hm, if_pos hfrom, if_pos hfade]
  · intro hm hfrom hs
    have hk : (requestOf env root).mode ≠ Mode.Kelvin := by rw [hm]; decide
    have hh : (requestOf env root).mode ≠ Mode.Hsv := by rw [hm]; decide
    have hnf : (requestOf env root).cmd ≠ "fade" := by rw [hs]; exact hsolid
    unfold onSingleColorCommand
    simp only [if_neg hc, if_neg hk, if_neg hh, if_pos hm, if_pos hfrom, if_neg hnf]
  · intro hm hfrom
    have hk : (requestOf env root).mode ≠ Mode.Kelvin := by rw [hm]; decide
    have hh : (requestOf env root).mode ≠ Mode.Hsv := by rw [hm]; decide
    have hnf : ¬ (requestOf env root).hasRawFrom = false := by rw [hfrom]; decide
    unfold onSingleColorCommand
    simp only [if_neg hc, if_neg hk, if_neg hh, if_pos hm, if_neg hnf]

/-- C7, evaluated with an engine that accepts every call: each of the six
selections on a concrete request, with the whole log. -/
theorem onSingleColorCommand_engine_call_witness :
    (((requestOf (sampleEnv true)
        (hsvRequest (JsonVariant.object [("v", jstr "50")]) "fade" "back")).checkParams "").1 = 0 ∧
      (requestOf (sampleEnv true)
        (hsvRequest (JsonVariant.object [("v", jstr "50")]) "fade" "back")).mode = Mode.Hsv) ∧
    (onSingleColorCommand (sampleEnv true)
        (hsvRequest (JsonVariant.object [("v", jstr "50")]) "fade" "back") "" []).2.2 =
      [] ++ [EngineCall.fadeHSV
        ⟨AbsOrRelValue.none, AbsOrRelValue.none, absValue 50 ValueClass.Generic,
          AbsOrRelValue.none⟩ ⟨700, RampType.Time⟩ 1 QueuePolicy.Back false ""] ∧
    (onSingleColorCommand (sampleEnv true)
        (hsvRequest (JsonVariant.object [("v", jstr "50")]) "solid" "front") "" []).2.2 =
      [EngineCall.setHSV
        ⟨AbsOrRelValue.none, AbsOrRelValue.none, absValue 50 ValueClass.Generic,
          AbsOrRelValue.none⟩ 700 QueuePolicy.Front false ""] ∧
    (onSingleColorCommand (sampleEnv true)
        (hsvRequest (JsonVariant.object [("v", jstr "50"),
          ("from", JsonVariant.object [("h", jstr "10")])]) "solid" "back") "" []).2.2 =
      [EngineCall.fadeHSVFromTo
        ⟨AbsOrRelValue.none, AbsOrRelValue.none, AbsOrRelValue.none, AbsOrRelValue.none⟩
        ⟨absValue 10 ValueClass.Hue, AbsOrRelValue.none, absValue 50 ValueClass.Generic,
          AbsOrRelValue.none⟩ ⟨700, RampType.Time⟩ 1 QueuePolicy.Back] ∧
    (onSingleColorCommand (sampleEnv true)
        (rawRequest (JsonVariant.object [("r", jstr "7")]) "fade" "back") "" []).2.2 =
      [EngineCall.fadeRAW
        ⟨absValue 7 ValueClass.Raw, AbsOrRelValue.none, AbsOrRelValue.none, AbsOrRelValue.none,
          AbsOrRelValue.none⟩ ⟨700, RampType.Time⟩ QueuePolicy.Back] ∧
    (onSingleColorCommand (sampleEnv true)
        (rawRequest (JsonVariant.object [("r", jstr "7")]) "solid" "back") "" []).2.2 =
      [EngineCall.setRAW
        ⟨absValue 7 ValueClass.Raw, AbsOrRelValue.none, AbsOrRelValue.none, AbsOrRelValue.none,
          AbsOrRelValue.none⟩ 700 QueuePolicy.Back] ∧
    (onSingleColorCommand (sampleEnv true)
        (rawRequest (JsonVariant.object [("r", jstr "7"),
          ("from", JsonVariant.object [("g", jstr "9")])]) "solid" "back") "" []).2.2 =
      [EngineCall.fadeRAWFromTo
        ⟨AbsOrRelValue.none, absValue 9 ValueClass.Raw, AbsOrRelValue.none, AbsOrRelValue.none,
          AbsOrRelValue.none⟩
        ⟨absValue 7 ValueClass.Raw, AbsOrRelValue.none, AbsOrRelValue.none, AbsOrRelValue.none,
          AbsOrRelValue.none⟩ ⟨700, RampType.Time⟩ QueuePolicy.Back] :=
  ⟨⟨by decide, by decide⟩,
    (onSingleColorCommand_engine_call (sampleEnv true)
      (hsvRequest (JsonVariant.object [("v", jstr "50")]) "fade" "back") "" [] (by decide)
      (by decide)).2.2.1 (by decide) (by decide) (by decide),
    by rfl, by rfl, by rfl, by rfl, by rfl⟩

/-- C8: for a request that passes `checkParams`, in mode Hsv or Raw and without
a from endpoint, `onSingleColorCommand` makes one engine call and returns the
answer of the engine to it: true with `errorMsg` unchanged when the engine
accepts, false with `errorMsg = "Queue full"` when it declines; it returns
false with "Queue full" if and only if the engine declined. -/
theorem onSingleColorCommand_queue_full (env : Env) (root : JsonVariant) (errorMsg : String)
    (log : List EngineCall)
    (hcheck : ((requestOf env root).checkParams errorMsg).1 = 0)
    (hmode : ((requestOf env root).mode = Mode.Hsv ∧ (requestOf env root).hasHsvFrom = false) ∨
      ((requestOf env root).mode = Mode.Raw ∧ (requestOf env root).hasRawFrom = false)) :
    ∃ call, (onSingleColorCommand env root errorMsg log).2.2 = log ++ [call] ∧
      (onSingleColorCommand env root errorMsg log).1 = env.accepts log call ∧
      (env.accepts log call = true →
        onSingleColorCommand env root errorMsg log = (true, errorMsg, log ++ [call])) ∧
      (env.accepts log call = false →
        onSingleColorCommand env root errorMsg log = (false, "Queue full", log ++ [call])) ∧
      (((onSingleColorCommand env root errorMsg log).1 = false ∧
          (onSingleColorCommand env root errorMsg log).2.1 = "Queue full") ↔
        env.accepts log call = false) := by
  have hc : ¬ ((requestOf env root).checkParams errorMsg).1 ≠ 0 := not_not.mpr hcheck
  have hmsg := checkParams_zero_msg _ errorMsg hcheck
  have key : ∀ call : EngineCall,
      onSingleColorCommand env root errorMsg log =
        (env.accepts log call,
          if env.accepts log call = false then "Queue full" else errorMsg, log ++ [call]) →
      (onSingleColorCommand env root errorMsg log).2.2 = log ++ [call] ∧
      (onSingleColorCommand env root errorMsg log).1 = env.accepts log call ∧
      (env.accepts log call = true →
        onSingleColorCommand env root errorMsg log = (true, errorMsg, log ++ [call])) ∧
      (env.accepts log call = false →
        onSingleColorCommand env root errorMsg log = (false, "Queue full", log ++ [call])) ∧
      (((onSingleColorCommand env root errorMsg log).1 = false ∧
          (onSingleColorCommand env root errorMsg log).2.1 = "Queue full") ↔
        env.accepts log call = false) := by
    intro call h
    rw [h]
    cases env.accepts log call <;> simp
  rcases hmode with ⟨hm, hfrom⟩ | ⟨hm, hfrom⟩
  · have hk : (requestOf env root).mode ≠ Mode.Kelvin := by rw [hm]; decide
    by_cases hfade : (requestOf env root).cmd = "fade"
    · refine ⟨EngineCall.fadeHSV (requestOf env root).hsv (requestOf env root).ramp
        (requestOf env root).direction (requestOf env root).queue (requestOf env root).requeue
        (requestOf env root).name, key _ ?_⟩
      unfold onSingleColorCommand
      simp only [if_neg hc, if_neg hk, if_pos hm, if_pos hfrom, if_pos hfade, hmsg]
    · refine ⟨EngineCall.setHSV (requestOf env root).hsv (requestOf env root).ramp.value
        (requestOf env root).queue (requestOf env root).requeue (requestOf env root).name,
        key _ ?_⟩
      unfold onSingleColorCommand
      simp only [if_neg hc, if_neg hk, if_pos hm, if_pos hfrom, if_neg hfade, hmsg]
  · have hk : (requestOf env root).mode ≠ Mode.Kelvin := by rw [hm]; decide
    have hh : (requestOf env root).mode ≠ Mode.Hsv := by rw [hm]; decide
    by_cases hfade : (requestOf env root).cmd = "fade"
    · refine ⟨EngineCall.fadeRAW (requestOf env root).raw (requestOf env root).ramp
        (requestOf env root).queue, key _ ?_⟩
      unfold onSingleColorCommand
      simp only [if_neg hc, if_neg hk, if_neg hh, if_pos hm, if_pos hfrom, if_pos hfade, hmsg]
    · refine ⟨EngineCall.setRAW (requestOf env root).raw (requestOf env root).ramp.value
        (requestOf env root).queue, key _ ?_⟩
      unfold onSingleColorCommand
      simp only [if_neg hc, if_neg hk, if_neg hh, if_pos hm, if_pos hfrom, if_neg hfade, hmsg]

/-- C8, evaluated on `{"hsv": {"v": "50"}, "cmd": "fade", ...}` with message
"old" on entry: the request is in scope; an engine that accepts gives true and
leaves "old"; an engine that declines gives false and "Queue full"; the call is
made in both cases. -/
theorem onSingleColorCommand_queue_full_witness :
    (((requestOf (sampleEnv false)
        (hsvRequest (JsonVariant.object [("v", jstr "50")]) "fade" "back")).checkParams "old").1
        = 0 ∧
      (requestOf (sampleEnv false)
        (hsvRequest (JsonVariant.object [("v", jstr "50")]) "fade" "back")).mode = Mode.Hsv ∧
      (requestOf (sampleEnv false)
        (hsvRequest (JsonVariant.object [("v", jstr "50")]) "fade" "back")).hasHsvFrom = false) ∧
    (∃ call, (onSingleColorCommand (sampleEnv false)
        (hsvRequest (JsonVariant.object [("v", jstr "50")]) "fade" "back") "old" []).2.2
          = [] ++ [call] ∧
      (onSingleColorCommand (sampleEnv false)
        (hsvRequest (JsonVariant.object [("v", jstr "50")]) "fade" "back") "old" []).1
          = (sampleEnv false).accepts [] call) ∧
    onSingleColorCommand (sampleEnv false)
        (hsvRequest (JsonVariant.object [("v", jstr "50")]) "fade" "back") "old" [] =
      (false, "Queue full", [EngineCall.fadeHSV
        ⟨AbsOrRelValue.none, AbsOrRelValue.none, absValue 50 ValueClass.Generic,
          AbsOrRelValue.none⟩ ⟨700, RampType.Time⟩ 1 QueuePolicy.Back false ""]) ∧
    onSingleColorCommand (sampleEnv true)
        (hsvRequest (JsonVariant.object [("v", jstr "50")]) "fade" "back") "old" [] =
      (true, "old", [EngineCall.fadeHSV
        ⟨AbsOrRelValue.none, AbsOrRelValue.none, absValue 50 ValueClass.Generic,
          AbsOrRelValue.none⟩ ⟨700, RampType.Time⟩ 1 QueuePolicy.Back false ""]) :=
  ⟨⟨by decide, by decide, by decide⟩,
    (onSingleColorCommand_queue_full (sampleEnv false)
      (hsvRequest (JsonVariant.object [("v", jstr "50")]) "fade" "back") "old" [] (by decide)
      (Or.inl ⟨by decide, by decide⟩)).imp (fun _ h => ⟨h.1, h.2.1⟩),
    by rfl, by rfl⟩

/-- For every request that passes `checkParams` and has a from endpoint, and
every engine, `onSingleColorCommand` makes the two-endpoint call and then
returns false with "Queue full": `queueOk` is still false after the call. -/
theorem onSingleColorCommand_from (env : Env) (root : JsonVariant) (errorMsg : String)
    (log : List EngineCall)
    (hcheck : ((requestOf env root).checkParams errorMsg).1 = 0) :
    ((requestOf env root).mode = Mode.Hsv → (requestOf env root).hasHsvFrom = true →
      onSingleColorCommand env root errorMsg log =
        (false, "Queue full",
          log ++ [EngineCall.fadeHSVFromTo (requestOf env root).hsvFrom (requestOf env root).hsv
            (requestOf env root).ramp (requestOf env root).direction
            (requestOf env root).queue])) ∧
    ((requestOf env root).mode = Mode.Raw → (requestOf env root).hasRawFrom = true →
      onSingleColorCommand env root errorMsg log =
        (false, "Queue full",
          log ++ [EngineCall.fadeRAWFromTo (requestOf env root).rawFrom (requestOf env root).raw
            (requestOf env root).ramp (requestOf env root).queue])) := by
  have hc : ¬ ((requestOf env root).checkParams errorMsg).1 ≠ 0 := not_not.mpr hcheck
  constructor
  · intro hm hfrom
    have hk : (requestOf env root).mode ≠ Mode.Kelvin := by rw [hm]; decide
    have hnf : ¬ (requestOf env root).hasHsvFrom = false := by rw [hfrom]; decide
    unfold onSingleColorCommand
    simp only [if_neg hc, if_neg hk, if_pos hm, if_neg hnf, if_true]
  · intro hm hfrom
    have hk : (requestOf env root).mode ≠ Mode.Kelvin := by rw [hm]; decide
    have hh : (requestOf env root).mode ≠ Mode.Hsv := by rw [hm]; decide
    have hnf : ¬ (requestOf env root).hasRawFrom = false := by rw [hfrom]; decide
    unfold onSingleColorCommand
    simp only [if_neg hc, if_neg hk, if_neg hh, if_pos hm, if_neg hnf, if_true]

/-- C9, the code at the failing input: the request `hsvFromRequest` passes
`checkParams` in mode Hsv with a from endpoint; with an engine that accepts
every call, the two-endpoint `fadeHSV` is called and `onSingleColorCommand`
returns false with `errorMsg = "Queue full"`. -/
theorem onSingleColorCommand_from_reports_queue_full :
    (requestOf (sampleEnv true) hsvFromRequest).checkParams "" = (0, "") ∧
    (requestOf (sampleEnv true) hsvFromRequest).mode = Mode.Hsv ∧
    (requestOf (sampleEnv true) hsvFromRequest).hasHsvFrom = true ∧
    onSingleColorCommand (sampleEnv true) hsvFromRequest "" [] =
      (false, "Queue full", [EngineCall.fadeHSVFromTo
        ⟨AbsOrRelValue.none, AbsOrRelValue.none, AbsOrRelValue.none, AbsOrRelValue.none⟩
        ⟨absValue 10 ValueClass.Hue, AbsOrRelValue.none, absValue 50 ValueClass.Generic,
          AbsOrRelValue.none⟩ ⟨700, RampType.Time⟩ 1 QueuePolicy.Back]) :=
  ⟨by decide, by decide, by decide, by rfl⟩

/-! ## Batch colour commands -/

/-- The loop of `onColor` runs every item: its log is the log of `runEach`, and
`errors` receives the messages of the failing items in order. -/
theorem runCmds_eq_runEach (env : Env) (items : List JsonVariant) :
    ∀ (errors : List String) (log : List EngineCall),
      runCmds env items errors log =
        (errors ++ failureReasons (runEach env items log).1, (runEach env items log).2) := by
  induction items with
  | nil =>
    intro errors log
    simp [runCmds, runEach, failureReasons]
  | cons item rest ih =>
    intro errors log
    by_cases h : (onSingleColorCommand env item "" log).1 = false
    · simp only [runCmds, if_pos h, ih, runEach, failureReasons, List.filter_cons, h,
        decide_True, if_true, List.map_cons, List.append_assoc, List.singleton_append]
    · have ht : (onSingleColorCommand env item "" log).1 = true := by simpa using h
      simp [runCmds, ih, runEach, failureReasons, List.filter_cons, ht]

theorem runEach_length (env : Env) (items : List JsonVariant) :
    ∀ log : List EngineCall, (runEach env items log).1.length = items.length := by
  induction items with
  | nil => intro log; rfl
  | cons item rest ih =>
    intro log
    simp [runEach, ih]

theorem failureReasons_eq_nil_iff (results : List (Bool × String)) :
    failureReasons results = [] ↔ ∀ r ∈ results, r.1 = true := by
  simp [failureReasons, List.filter_eq_nil_iff]

/-- C10: for a request with a `cmds` array, `onColor` runs
`onSingleColorCommand` on every item in array order, the items after a failing
one included: one outcome per item, and the log on exit is the log of the
item-by-item run, followed by the relay call when `relay` is set.  It returns
true if and only if every item returned true; an empty array succeeds. -/
theorem onColor_batch (env : Env) (root : JsonVariant) (msg : String) (relay : Bool)
    (log : List EngineCall) (hcmds : (root.get "cmds").success = true) :
    (runEach env (root.get "cmds").asArray log).1.length = (root.get "cmds").asArray.length ∧
    (onColor env root msg relay log).2.2 =
      (runEach env (root.get "cmds").asArray log).2 ++
        (if relay = true then [EngineCall.onCommandRelay "color" root] else []) ∧
    ((onColor env root msg relay log).1 = true ↔
      ∀ r ∈ (runEach env (root.get "cmds").asArray log).1, r.1 = true) ∧
    ((root.get "cmds").asArray = [] → (onColor env root msg relay log).1 = true) := by
  have hres : (onColor env root msg relay log).1 = true ↔
      ∀ r ∈ (runEach env (root.get "cmds").asArray log).1, r.1 = true := by
    rw [← failureReasons_eq_nil_iff]
    unfold onColor
    simp only [if_pos hcmds, runCmds_eq_runEach, List.nil_append, List.length_eq_zero]
    by_cases hnil : failureReasons (runEach env (root.get "cmds").asArray log).1 = []
    · cases relay <;> simp [hnil]
    · cases relay <;> simp [hnil]
  refine ⟨runEach_length env _ log, ?_, hres, ?_⟩
  · unfold onColor
    simp only [if_pos hcmds, runCmds_eq_runEach]
    cases relay
    · split_ifs <;> simp
    · split_ifs <;> simp
  · intro hempty
    rw [hres, hempty]
    simp [runEach]

/-- C10, evaluated: three items of which the second is invalid.  The batch
returns false, the outcomes are true, false, true, and the calls of items 1
and 3 are both in the log. -/
theorem onColor_batch_witness :
    (batchRequest.get "cmds").success = true ∧
    ((onColor (sampleEnv true) batchRequest "" false []).1 = true ↔
      ∀ r ∈ (runEach (sampleEnv true) (batchRequest.get "cmds").asArray []).1, r.1 = true) ∧
    (runEach (sampleEnv true) (batchRequest.get "cmds").asArray []).1 =
      [(true, ""), (false, "Invalid queue policy"), (true, "")] ∧
    onColor (sampleEnv true) batchRequest "" false [] =
      (false, "", [
        EngineCall.fadeHSV
          ⟨AbsOrRelValue.none, AbsOrRelValue.none, absValue 50 ValueClass.Generic,
            AbsOrRelValue.none⟩ ⟨700, RampType.Time⟩ 1 QueuePolicy.Back false "",
        EngineCall.setRAW
          ⟨absValue 7 ValueClass.Raw, AbsOrRelValue.none, AbsOrRelValue.none,
            AbsOrRelValue.none, AbsOrRelValue.none⟩ 700 QueuePolicy.Back]) ∧
    (onColor (sampleEnv true) (JsonVariant.object [("cmds", JsonVariant.array [])]) "" false
      []).1 = true :=
  ⟨by decide, (onColor_batch (sampleEnv true) batchRequest "" false [] (by decide)).2.2.1,
    by rfl, by rfl, by rfl⟩

end JsonProcessor

/-! ## The step clock -/

/-- An integer of the signed 32-bit range is stored unchanged. -/
theorem toInt32_of_range (x : Int) (hlo : -2 ^ 31 ≤ x) (hhi : x < 2 ^ 31) : toInt32 x = x := by
  unfold toInt32
  omega

/-- The value held by an `int` is in the signed 32-bit range. -/
theorem toInt32_range (x : Int) : -2 ^ 31 ≤ toInt32 x ∧ toInt32 x < 2 ^ 31 := by
  unfold toInt32
  omega

/-! ### Rounding to a binary format -/

namespace FloatVal

theorem roundHalfEven_le (x : ℚ) (n : Int) (h : x ≤ n) : roundHalfEven x ≤ n := by
  have hf : Rat.floor x = ⌊x⌋ := rfl
  have h1 : (⌊x⌋ : ℚ) ≤ x := Int.floor_le x
  have h2 : ⌊x⌋ ≤ n := by exact_mod_cast le_trans h1 h
  unfold roundHalfEven
  rw [hf]
  by_cases a : x - (⌊x⌋ : ℚ) < 1 / 2
  · rw [if_pos a]
    exact h2
  · have h3 : ⌊x⌋ < n := by
      by_contra hc
      have h5 : n ≤ ⌊x⌋ := not_lt.mp hc
      have h6 : (n : ℚ) ≤ ⌊x⌋ := by exact_mod_cast h5
      linarith
    rw [if_neg a]
    split_ifs <;> omega

theorem roundHalfEven_ge (x : ℚ) (n : Int) (h : (n : ℚ) ≤ x) : n ≤ roundHalfEven x := by
  have hf : Rat.floor x = ⌊x⌋ := rfl
  have h2 : n ≤ ⌊x⌋ := Int.le_floor.mpr h
  unfold roundHalfEven
  rw [hf]
  split_ifs <;> omega

theorem roundHalfEven_intCast (n : Int) : roundHalfEven (n : ℚ) = n :=
  le_antisymm (roundHalfEven_le _ _ le_rfl) (roundHalfEven_ge _ _ le_rfl)

/-- The nearest integer is within one half. -/
theorem roundHalfEven_near (x : ℚ) (n : Int) (h1 : (n : ℚ) - 1 / 2 < x) (h2 : x < n + 1 / 2) :
    roundHalfEven x = n := by
  have hf : Rat.floor x = ⌊x⌋ := rfl
  have hfl1 : (⌊x⌋ : ℚ) ≤ x := Int.floor_le x
  have hfl2 : x < ⌊x⌋ + 1 := Int.lt_floor_add_one x
  unfold roundHalfEven
  rw [hf]
  by_cases a : x - (⌊x⌋ : ℚ) < 1 / 2
  · rw [if_pos a]
    have h3 : (⌊x⌋ : ℚ) < n + 1 := by linarith
    have h4 : (n : ℚ) < ⌊x⌋ + 1 := by linarith
    have h5 : ⌊x⌋ < n + 1 := by exact_mod_cast h3
    have h6 : n < ⌊x⌋ + 1 := by exact_mod_cast h4
    omega
  · rw [if_neg a]
    have a2 : 1 / 2 ≤ x - (⌊x⌋ : ℚ) := not_lt.mp a
    have h3 : (⌊x⌋ : ℚ) < n := by linarith
    have h4 : (n : ℚ) < ⌊x⌋ + 2 := by linarith
    have h5 : ⌊x⌋ < n := by exact_mod_cast h3
    have h6 : n < ⌊x⌋ + 2 := by exact_mod_cast h4
    have h7 : n = ⌊x⌋ + 1 := by omega
    have a3 : 1 / 2 < x - (⌊x⌋ : ℚ) := by
      rw [h7] at h2
      push_cast at h2
      rcases lt_or_eq_of_le a2 with h | h
      · exact h
      · exfalso
        rw [h7] at h1
        push_cast at h1
        linarith
    rw [if_pos a3]
    omega

/-- A tie goes to the even neighbour. -/
theorem roundHalfEven_tie (x : ℚ) (n : Int) (h : x = n + 1 / 2) :
    roundHalfEven x = if n % 2 = 0 then n else n + 1 := by
  have hf : Rat.floor x = ⌊x⌋ := rfl
  have hfl : ⌊x⌋ = n := by
    rw [Int.floor_eq_iff, h]
    constructor <;> linarith
  unfold roundHalfEven
  rw [hf, hfl]
  have a : ¬ (x - (n : ℚ) < 1 / 2) := by rw [h]; norm_num
  have b : ¬ (1 / 2 < x - (n : ℚ)) := by rw [h]; norm_num
  rw [if_neg a, if_neg b]

end FloatVal

namespace FloatVal

theorem two_zpow_pos (k : Int) : (0 : ℚ) < 2 ^ k := zpow_pos (by norm_num) k

theorem ulp_pos (p : Nat) (emin : Int) (x : ℚ) : 0 < ulp p emin x := two_zpow_pos _

/-- A power of two with a natural exponent is an integer. -/
theorem two_zpow_of_nonneg (k : Int) (hk : 0 ≤ k) :
    (2 : ℚ) ^ k = (((2 : Int) ^ k.toNat : Int) : ℚ) := by
  have h : k = (k.toNat : Int) := (Int.toNat_of_nonneg hk).symm
  conv_lhs => rw [h]
  rw [zpow_natCast]
  push_cast
  rfl

theorem two_zpow_mono {a b : Int} (h : a ≤ b) : (2 : ℚ) ^ a ≤ 2 ^ b :=
  zpow_le_zpow_right₀ (by norm_num) h

theorem log_bounds (x : ℚ) (hx : 0 < x) :
    (2 : ℚ) ^ Int.log 2 x ≤ x ∧ x < 2 ^ (Int.log 2 x + 1) := by
  have h1 := Int.zpow_log_le_self (b := 2) (by norm_num) hx
  have h2 := Int.lt_zpow_succ_log_self (R := ℚ) (b := 2) (by norm_num) x
  exact ⟨by exact_mod_cast h1, by exact_mod_cast h2⟩

theorem log_lt_of_lt (x : ℚ) (e : Int) (hx : 0 < x) (h : x < 2 ^ e) : Int.log 2 x < e := by
  have := (Int.lt_zpow_iff_log_lt (R := ℚ) (b := 2) (by norm_num) (x := e) hx).mp
    (by exact_mod_cast h)
  exact this

theorem le_log_of_le (x : ℚ) (e : Int) (hx : 0 < x) (h : (2 : ℚ) ^ e ≤ x) : e ≤ Int.log 2 x := by
  have := (Int.zpow_le_iff_le_log (R := ℚ) (b := 2) (by norm_num) (x := e) hx).mp
    (by exact_mod_cast h)
  exact this

theorem expo_mono (emin : Int) (x y : ℚ) (hx : x ≠ 0) (h : |x| ≤ |y|) :
    expo emin x ≤ expo emin y :=
  max_le_max (Int.log_mono_right (abs_pos.mpr hx) h) le_rfl

theorem emin_le_expo (emin : Int) (x : ℚ) : emin ≤ expo emin x := le_max_right _ _

theorem abs_lt_expo (emin : Int) (x : ℚ) : |x| < 2 ^ (expo emin x + 1) := by
  by_cases hx : x = 0
  · rw [hx, abs_zero]
    exact two_zpow_pos _
  · have h := (log_bounds |x| (abs_pos.mpr hx)).2
    exact lt_of_lt_of_le h (two_zpow_mono (by unfold expo; have := le_max_left (Int.log 2 |x|) emin; omega))

/-- The quotient by the unit in the last place is below `2^p` in magnitude. -/
theorem abs_div_ulp_lt (p : Nat) (emin : Int) (x : ℚ) :
    |x / ulp p emin x| < 2 ^ p := by
  have hu := ulp_pos p emin x
  rw [abs_div, abs_of_pos hu, div_lt_iff₀ hu]
  have h := abs_lt_expo emin x
  have e : (2 : ℚ) ^ p * ulp p emin x = 2 ^ (expo emin x + 1) := by
    unfold ulp
    rw [← zpow_natCast, ← zpow_add₀ (by norm_num)]
    congr 1
    ring
  rw [e]
  exact h

theorem roundTo_of_ne (p : Nat) (emin emax : Int) (x : ℚ) (hx : x ≠ 0) :
    roundTo p emin emax x =
      if (2 : ℚ) ^ (emax + 1) ≤ |(roundHalfEven (x / ulp p emin x) : ℚ) * ulp p emin x| then
        (if 0 < x then posInf else negInf)
      else finite ((roundHalfEven (x / ulp p emin x) : ℚ) * ulp p emin x) := by
  unfold roundTo
  rw [if_neg hx]

theorem roundTo_zero (p : Nat) (emin emax : Int) : roundTo p emin emax 0 = finite 0 := by
  unfold roundTo
  rw [if_pos rfl]

/-- The rounding never gives NaN. -/
theorem roundTo_ne_nan (p : Nat) (emin emax : Int) (x : ℚ) : roundTo p emin emax x ≠ nan := by
  unfold roundTo
  split_ifs <;> exact fun h => FloatVal.noConfusion h

/-- A number of the format is an integer below `2^p` in magnitude times its
unit in the last place, and is below the overflow threshold. -/
theorem rep_canon (p : Nat) (emin emax : Int) (b : ℚ) (hb : roundTo p emin emax b = finite b) :
    ∃ n : Int, |n| < 2 ^ p ∧ b = (n : ℚ) * ulp p emin b ∧ |b| < 2 ^ (emax + 1) := by
  by_cases h0 : b = 0
  · refine ⟨0, ?_, ?_, ?_⟩
    · simp
    · simp [h0]
    · rw [h0, abs_zero]
      exact two_zpow_pos _
  · rw [roundTo_of_ne p emin emax b h0] at hb
    split_ifs at hb with hov
    · have hy : (roundHalfEven (b / ulp p emin b) : ℚ) * ulp p emin b = b := by
        injection hb
      refine ⟨roundHalfEven (b / ulp p emin b), ?_, hy.symm, ?_⟩
      · have hq : ((roundHalfEven (b / ulp p emin b) : Int) : ℚ) = b / ulp p emin b := by
          rw [eq_div_iff (ne_of_gt (ulp_pos p emin b))]
          exact hy
        have hlt := abs_div_ulp_lt p emin b
        rw [← hq] at hlt
        have : ((|roundHalfEven (b / ulp p emin b)| : Int) : ℚ) < (((2 : Int) ^ p : Int) : ℚ) := by
          push_cast
          exact hlt
        exact_mod_cast this
      · rw [hy] at hov
        exact not_le.mp hov

end FloatVal

namespace FloatVal

theorem roundTo_finite_of_lt (p : Nat) (emin emax : Int) (x : ℚ) (hx : x ≠ 0)
    (h : |(roundHalfEven (x / ulp p emin x) : ℚ) * ulp p emin x| < 2 ^ (emax + 1)) :
    roundTo p emin emax x = finite ((roundHalfEven (x / ulp p emin x) : ℚ) * ulp p emin x) := by
  rw [roundTo_of_ne p emin emax x hx, if_neg (not_le.mpr h)]

/-- An integer below `2^p` in magnitude times a power of two that is at least
the smallest unit in the last place is a number of the format, when it is
below the overflow threshold. -/
theorem roundTo_dyadic (p : Nat) (emin emax : Int) (m k : Int) (hm : |m| < 2 ^ p)
    (hk : emin - ((p : Int) - 1) ≤ k) (hfin : |(m : ℚ) * 2 ^ k| < 2 ^ (emax + 1)) :
    roundTo p emin emax ((m : ℚ) * 2 ^ k) = finite ((m : ℚ) * 2 ^ k) := by
  by_cases hm0 : m = 0
  · rw [hm0]
    simp [roundTo_zero]
  · have hmq : (m : ℚ) ≠ 0 := by exact_mod_cast hm0
    have hx : (m : ℚ) * 2 ^ k ≠ 0 := mul_ne_zero hmq (ne_of_gt (two_zpow_pos k))
    have habs : |(m : ℚ) * 2 ^ k| = |(m : ℚ)| * 2 ^ k := by
      rw [abs_mul, abs_of_pos (two_zpow_pos k)]
    have hmq2 : |(m : ℚ)| < 2 ^ (p : Int) := by
      have : ((|m| : Int) : ℚ) < (((2 : Int) ^ p : Int) : ℚ) := by exact_mod_cast hm
      push_cast at this
      rw [zpow_natCast]
      exact this
    have hlt : |(m : ℚ) * 2 ^ k| < 2 ^ ((p : Int) + k) := by
      rw [habs, zpow_add₀ (by norm_num : (2 : ℚ) ≠ 0)]
      exact mul_lt_mul_of_pos_right hmq2 (two_zpow_pos k)
    have hlog := log_lt_of_lt _ _ (abs_pos.mpr hx) hlt
    have hexpo : expo emin ((m : ℚ) * 2 ^ k) ≤ (p : Int) + k - 1 := by
      unfold expo
      apply max_le <;> omega
    have hd : 0 ≤ k - (expo emin ((m : ℚ) * 2 ^ k) - ((p : Int) - 1)) := by omega
    have hq : (m : ℚ) * 2 ^ k / ulp p emin ((m : ℚ) * 2 ^ k) =
        (((m * (2 : Int) ^ (k - (expo emin ((m : ℚ) * 2 ^ k) - ((p : Int) - 1))).toNat : Int)) : ℚ) := by
      unfold ulp
      rw [mul_div_assoc, ← zpow_sub₀ (by norm_num : (2 : ℚ) ≠ 0), two_zpow_of_nonneg _ hd]
      push_cast
      rfl
    have hy : (roundHalfEven ((m : ℚ) * 2 ^ k / ulp p emin ((m : ℚ) * 2 ^ k)) : ℚ) *
        ulp p emin ((m : ℚ) * 2 ^ k) = (m : ℚ) * 2 ^ k := by
      have h1 : (roundHalfEven ((m : ℚ) * 2 ^ k / ulp p emin ((m : ℚ) * 2 ^ k)) : ℚ) =
          (m : ℚ) * 2 ^ k / ulp p emin ((m : ℚ) * 2 ^ k) := by
        conv_lhs => rw [hq, roundHalfEven_intCast]
        rw [hq]
      rw [h1, div_mul_cancel₀ _ (ne_of_gt (ulp_pos p emin _))]
    have hres := roundTo_finite_of_lt p emin emax _ hx (by rw [hy]; exact hfin)
    rw [hres, hy]

/-- A non-positive number is rounded to a non-positive number or to the
negative infinity. -/
theorem roundTo_nonpos (p : Nat) (emin emax : Int) (x : ℚ) (hx : x ≤ 0) :
    roundTo p emin emax x = negInf ∨ ∃ r : ℚ, roundTo p emin emax x = finite r ∧ r ≤ 0 := by
  by_cases h0 : x = 0
  · right
    exact ⟨0, by rw [h0, roundTo_zero], le_rfl⟩
  · rw [roundTo_of_ne p emin emax x h0]
    have hneg : ¬ (0 < x) := not_lt.mpr hx
    by_cases hov : (2 : ℚ) ^ (emax + 1) ≤ |(roundHalfEven (x / ulp p emin x) : ℚ) * ulp p emin x|
    · left
      rw [if_pos hov, if_neg hneg]
    · right
      rw [if_neg hov]
      refine ⟨_, rfl, ?_⟩
      have h1 : roundHalfEven (x / ulp p emin x) ≤ 0 :=
        roundHalfEven_le _ 0 (by
          push_cast
          exact div_nonpos_of_nonpos_of_nonneg hx (le_of_lt (ulp_pos p emin x)))
      have h2 : ((roundHalfEven (x / ulp p emin x) : Int) : ℚ) ≤ 0 := by exact_mod_cast h1
      exact mul_nonpos_of_nonpos_of_nonneg h2 (le_of_lt (ulp_pos p emin x))

/-- A positive number below a number `b` of the format is rounded to a finite
number between 0 and `b`. -/
theorem roundTo_le_of_le (p : Nat) (emin emax : Int) (x b : ℚ) (hx : 0 < x) (hxb : x ≤ b)
    (hb : roundTo p emin emax b = finite b) :
    ∃ r : ℚ, roundTo p emin emax x = finite r ∧ 0 ≤ r ∧ r ≤ b := by
  obtain ⟨n, -, hbn, hbfin⟩ := rep_canon p emin emax b hb
  have hb0 : 0 < b := lt_of_lt_of_le hx hxb
  have hexpo : expo emin x ≤ expo emin b :=
    expo_mono emin x b (ne_of_gt hx) (by rw [abs_of_pos hx, abs_of_pos hb0]; exact hxb)
  have hd : 0 ≤ expo emin b - expo emin x := by omega
  have hu : ulp p emin b = ulp p emin x * 2 ^ (expo emin b - expo emin x) := by
    unfold ulp
    rw [← zpow_add₀ (by norm_num : (2 : ℚ) ≠ 0)]
    congr 1
    ring
  have hux := ulp_pos p emin x
  have hbq : b / ulp p emin x =
      (((n * (2 : Int) ^ (expo emin b - expo emin x).toNat : Int)) : ℚ) := by
    rw [div_eq_iff (ne_of_gt hux)]
    conv_lhs => rw [hbn, hu, two_zpow_of_nonneg _ hd]
    push_cast
    ring
  have hle : x / ulp p emin x ≤
      (((n * (2 : Int) ^ (expo emin b - expo emin x).toNat : Int)) : ℚ) := by
    rw [← hbq]
    exact div_le_div_of_nonneg_right hxb (le_of_lt hux)
  have h1 := roundHalfEven_le _ _ hle
  have h1q : ((roundHalfEven (x / ulp p emin x) : Int) : ℚ) ≤ b / ulp p emin x := by
    rw [hbq]
    exact_mod_cast h1
  have hyb : (roundHalfEven (x / ulp p emin x) : ℚ) * ulp p emin x ≤ b := by
    have := mul_le_mul_of_nonneg_right h1q (le_of_lt hux)
    rwa [div_mul_cancel₀ _ (ne_of_gt hux)] at this
  have h0 : (0 : Int) ≤ roundHalfEven (x / ulp p emin x) :=
    roundHalfEven_ge _ 0 (by
      push_cast
      exact le_of_lt (div_pos hx hux))
  have h0q : (0 : ℚ) ≤ ((roundHalfEven (x / ulp p emin x) : Int) : ℚ) := by exact_mod_cast h0
  have hy0 : 0 ≤ (roundHalfEven (x / ulp p emin x) : ℚ) * ulp p emin x :=
    mul_nonneg h0q (le_of_lt hux)
  refine ⟨_, roundTo_finite_of_lt p emin emax x (ne_of_gt hx) ?_, hy0, hyb⟩
  rw [abs_of_nonneg hy0]
  rw [abs_of_pos hb0] at hbfin
  exact lt_of_le_of_lt hyb hbfin

/-- A number above a positive number `a` of the format is rounded to a finite
number that is at least `a`, or to the positive infinity. -/
theorem roundTo_ge_of_ge (p : Nat) (emin emax : Int) (hp : 1 ≤ p) (a x : ℚ) (ha : 0 < a)
    (hax : a ≤ x) (hrep : roundTo p emin emax a = finite a) :
    roundTo p emin emax x = posInf ∨ ∃ r : ℚ, roundTo p emin emax x = finite r ∧ a ≤ r := by
  have hx : 0 < x := lt_of_lt_of_le ha hax
  rw [roundTo_of_ne p emin emax x (ne_of_gt hx)]
  by_cases hov : (2 : ℚ) ^ (emax + 1) ≤ |(roundHalfEven (x / ulp p emin x) : ℚ) * ulp p emin x|
  · left
    rw [if_pos hov, if_pos hx]
  · right
    rw [if_neg hov]
    refine ⟨_, rfl, ?_⟩
    obtain ⟨n, -, han, -⟩ := rep_canon p emin emax a hrep
    have hux := ulp_pos p emin x
    have hexpo : expo emin a ≤ expo emin x :=
      expo_mono emin a x (ne_of_gt ha) (by rw [abs_of_pos ha, abs_of_pos hx]; exact hax)
    rcases eq_or_lt_of_le hexpo with heq | hlt
    · have hu : ulp p emin a = ulp p emin x := by
        unfold ulp
        rw [heq]
      rw [hu] at han
      have hle : (n : ℚ) ≤ x / ulp p emin x := by
        rw [le_div_iff₀ hux, ← han]
        exact hax
      have h1 := roundHalfEven_ge _ _ hle
      have h1q : (n : ℚ) ≤ ((roundHalfEven (x / ulp p emin x) : Int) : ℚ) := by exact_mod_cast h1
      rw [han]
      exact mul_le_mul_of_nonneg_right h1q (le_of_lt hux)
    · have hemin := emin_le_expo emin a
      have hlog : expo emin x = Int.log 2 |x| := by
        unfold expo at hlt ⊢
        apply max_eq_left
        by_contra hc
        have hc2 : Int.log 2 |x| ≤ emin := le_of_lt (not_le.mp hc)
        rw [max_eq_right hc2] at hlt
        unfold expo at hemin
        omega
      have hpow : (2 : ℚ) ^ expo emin x ≤ x := by
        rw [hlog]
        rw [abs_of_pos hx]
        exact (log_bounds x hx).1
      have hp0 : (0 : Int) ≤ (p : Int) - 1 := by omega
      have hsplit : (2 : ℚ) ^ expo emin x =
          ((((2 : Int) ^ ((p : Int) - 1).toNat : Int)) : ℚ) * ulp p emin x := by
        rw [← two_zpow_of_nonneg _ hp0]
        unfold ulp
        rw [← zpow_add₀ (by norm_num : (2 : ℚ) ≠ 0)]
        congr 1
        ring
      have hle : ((((2 : Int) ^ ((p : Int) - 1).toNat : Int)) : ℚ) ≤ x / ulp p emin x := by
        rw [le_div_iff₀ hux, ← hsplit]
        exact hpow
      have h1 := roundHalfEven_ge _ _ hle
      have h1q : ((((2 : Int) ^ ((p : Int) - 1).toNat : Int)) : ℚ) ≤
          ((roundHalfEven (x / ulp p emin x) : Int) : ℚ) := by exact_mod_cast h1
      have hy : (2 : ℚ) ^ expo emin x ≤
          (roundHalfEven (x / ulp p emin x) : ℚ) * ulp p emin x := by
        rw [hsplit]
        exact mul_le_mul_of_nonneg_right h1q (le_of_lt hux)
      have ha2 : a < 2 ^ (expo emin a + 1) := by
        have := abs_lt_expo emin a
        rwa [abs_of_pos ha] at this
      have ha3 : (2 : ℚ) ^ (expo emin a + 1) ≤ 2 ^ expo emin x := two_zpow_mono (by omega)
      linarith

/-- The result of a rounding is a number of the format. -/
theorem roundTo_idem (p : Nat) (emin emax : Int) (hp : 1 ≤ p) (x r : ℚ)
    (h : roundTo p emin emax x = finite r) : roundTo p emin emax r = finite r := by
  by_cases h0 : x = 0
  · rw [h0, roundTo_zero] at h
    injection h with h
    rw [← h, roundTo_zero]
  · rw [roundTo_of_ne p emin emax x h0] at h
    split_ifs at h with hov
    injection h with hy
    have hfin : |r| < 2 ^ (emax + 1) := by
      rw [← hy]
      exact not_le.mp hov
    have hlt := abs_div_ulp_lt p emin x
    rw [abs_lt] at hlt
    have hn1 : roundHalfEven (x / ulp p emin x) ≤ (2 : Int) ^ p :=
      roundHalfEven_le _ _ (by
        push_cast
        exact le_of_lt hlt.2)
    have hn2 : -(2 : Int) ^ p ≤ roundHalfEven (x / ulp p emin x) :=
      roundHalfEven_ge _ _ (by
        push_cast
        exact le_of_lt hlt.1)
    have hemin := emin_le_expo emin x
    have h2p : (2 : Int) ≤ 2 ^ p := by
      calc (2 : Int) = 2 ^ 1 := by norm_num
        _ ≤ 2 ^ p := pow_le_pow_right₀ (by norm_num) hp
    have hpow : (2 : ℚ) ^ (expo emin x + 1) = (2 : ℚ) ^ p * ulp p emin x := by
      unfold ulp
      rw [← zpow_natCast, ← zpow_add₀ (by norm_num : (2 : ℚ) ≠ 0)]
      congr 1
      ring
    rcases eq_or_lt_of_le hn1 with he1 | hl1
    · have hr : r = ((1 : Int) : ℚ) * 2 ^ (expo emin x + 1) := by
        rw [← hy, he1, hpow]
        push_cast
        ring
      rw [hr]
      rw [hr] at hfin
      exact roundTo_dyadic p emin emax 1 _ (by rw [abs_one]; omega) (by omega) hfin
    · rcases eq_or_lt_of_le hn2 with he2 | hl2
      · have hr : r = ((-1 : Int) : ℚ) * 2 ^ (expo emin x + 1) := by
          rw [← hy, ← he2, hpow]
          push_cast
          ring
        rw [hr]
        rw [hr] at hfin
        exact roundTo_dyadic p emin emax (-1) _ (by rw [abs_neg, abs_one]; omega) (by omega) hfin
      · have hr : r = ((roundHalfEven (x / ulp p emin x) : Int) : ℚ) *
            2 ^ (expo emin x - ((p : Int) - 1)) := hy.symm
        rw [hr]
        rw [hr] at hfin
        exact roundTo_dyadic p emin emax _ _ (abs_lt.mpr ⟨hl2, hl1⟩) (by omega) hfin

/-- Half of a number of the format that is not below twice the smallest normal
number is a number of the format. -/
theorem roundTo_half (p : Nat) (emin emax : Int) (b : ℚ)
    (hb : roundTo p emin emax b = finite b) (hnorm : (2 : ℚ) ^ (emin + 1) ≤ |b|) :
    roundTo p emin emax (b / 2) = finite (b / 2) := by
  obtain ⟨n, hn, hbn, hbfin⟩ := rep_canon p emin emax b hb
  have hb0 : b ≠ 0 := by
    intro h
    rw [h, abs_zero] at hnorm
    exact absurd hnorm (not_le.mpr (two_zpow_pos _))
  have hlog := le_log_of_le |b| (emin + 1) (abs_pos.mpr hb0) hnorm
  have hexpo : emin + 1 ≤ expo emin b := le_trans hlog (le_max_left _ _)
  have hhalf : b / 2 = (n : ℚ) * 2 ^ (expo emin b - ((p : Int) - 1) - 1) := by
    conv_lhs => rw [hbn]
    unfold ulp
    rw [zpow_sub₀ (by norm_num : (2 : ℚ) ≠ 0) _ 1, zpow_one]
    ring
  have hfin : |b / 2| < 2 ^ (emax + 1) := by
    rw [abs_div]
    have : |b| / |(2 : ℚ)| ≤ |b| := by
      rw [abs_of_pos (by norm_num : (0 : ℚ) < 2)]
      have := abs_nonneg b
      linarith
    exact lt_of_le_of_lt this hbfin
  rw [hhalf] at hfin ⊢
  exact roundTo_dyadic p emin emax n _ hn (by omega) hfin

end FloatVal

namespace FloatVal

/-- The three ways in which `roundHalfEven x` is the integer nearest to `x`. -/
theorem roundHalfEven_spec (x : ℚ) :
    (((roundHalfEven x : Int) : ℚ) - 1 / 2 < x ∧ x < (roundHalfEven x : ℚ) + 1 / 2) ∨
    (x = (roundHalfEven x : ℚ) + 1 / 2 ∧ roundHalfEven x % 2 = 0) ∨
    (x = (roundHalfEven x : ℚ) - 1 / 2 ∧ roundHalfEven x % 2 = 0) := by
  have hf : Rat.floor x = ⌊x⌋ := rfl
  have hfl1 : (⌊x⌋ : ℚ) ≤ x := Int.floor_le x
  have hfl2 : x < ⌊x⌋ + 1 := Int.lt_floor_add_one x
  unfold roundHalfEven
  rw [hf]
  by_cases a : x - (⌊x⌋ : ℚ) < 1 / 2
  · simp only [if_pos a]
    left
    constructor <;> linarith
  · simp only [if_neg a]
    have a2 : 1 / 2 ≤ x - (⌊x⌋ : ℚ) := not_lt.mp a
    by_cases b : 1 / 2 < x - (⌊x⌋ : ℚ)
    · simp only [if_pos b]
      left
      push_cast
      constructor <;> linarith
    · simp only [if_neg b]
      have b2 : x - (⌊x⌋ : ℚ) = 1 / 2 := le_antisymm (not_lt.mp b) a2
      by_cases c : ⌊x⌋ % 2 = 0
      · simp only [if_pos c]
        right
        left
        exact ⟨by linarith, c⟩
      · simp only [if_neg c]
        right
        right
        refine ⟨by push_cast; linarith, by omega⟩

theorem roundHalfEven_neg (x : ℚ) : roundHalfEven (-x) = -roundHalfEven x := by
  rcases roundHalfEven_spec x with ⟨h1, h2⟩ | ⟨h1, h2⟩ | ⟨h1, h2⟩
  · apply roundHalfEven_near
    · push_cast
      linarith
    · push_cast
      linarith
  · have h := roundHalfEven_tie (-x) (-roundHalfEven x - 1) (by push_cast; linarith)
    rw [h]
    split_ifs <;> omega
  · have h := roundHalfEven_tie (-x) (-roundHalfEven x) (by push_cast; linarith)
    rw [h]
    split_ifs <;> omega

theorem ulp_neg (p : Nat) (emin : Int) (x : ℚ) : ulp p emin (-x) = ulp p emin x := by
  unfold ulp expo
  rw [abs_neg]

/-- The rounding is symmetric. -/
theorem roundTo_neg (p : Nat) (emin emax : Int) (x : ℚ) :
    roundTo p emin emax (-x) = neg (roundTo p emin emax x) := by
  by_cases h0 : x = 0
  · rw [h0, neg_zero, roundTo_zero]
    simp [neg]
  · have h0n : -x ≠ 0 := neg_ne_zero.mpr h0
    rw [roundTo_of_ne p emin emax x h0, roundTo_of_ne p emin emax (-x) h0n, ulp_neg, neg_div,
      roundHalfEven_neg]
    push_cast
    rw [neg_mul, abs_neg]
    by_cases hov : (2 : ℚ) ^ (emax + 1) ≤ |(roundHalfEven (x / ulp p emin x) : ℚ) * ulp p emin x|
    · rw [if_pos hov, if_pos hov]
      rcases lt_or_gt_of_ne h0 with h | h
      · have h1 : (0 : ℚ) < -x := by linarith
        have h2 : ¬ ((0 : ℚ) < x) := by linarith
        rw [if_pos h1, if_neg h2]
        rfl
      · have h1 : ¬ ((0 : ℚ) < -x) := by linarith
        rw [if_neg h1, if_pos h]
        rfl
    · rw [if_neg hov, if_neg hov]
      rfl

/-- A number between two numbers of the format is rounded to a finite number
between them. -/
theorem roundTo_between (p : Nat) (emin emax : Int) (hp : 1 ≤ p) (a x b : ℚ)
    (ha : roundTo p emin emax a = finite a) (hb : roundTo p emin emax b = finite b)
    (hax : a ≤ x) (hxb : x ≤ b) :
    ∃ r : ℚ, roundTo p emin emax x = finite r ∧ a ≤ r ∧ r ≤ b := by
  have pos : ∀ a x b : ℚ, roundTo p emin emax a = finite a → roundTo p emin emax b = finite b →
      a ≤ x → x ≤ b → 0 < x → ∃ r : ℚ, roundTo p emin emax x = finite r ∧ a ≤ r ∧ r ≤ b := by
    intro a x b ha hb hax hxb hx
    obtain ⟨r, hr, hr0, hrb⟩ := roundTo_le_of_le p emin emax x b hx hxb hb
    refine ⟨r, hr, ?_, hrb⟩
    by_cases ha0 : 0 < a
    · rcases roundTo_ge_of_ge p emin emax hp a x ha0 hax ha with h | ⟨r2, hr2, har2⟩
      · rw [hr] at h
        exact FloatVal.noConfusion h
      · rw [hr] at hr2
        injection hr2 with hr2
        rw [hr2]
        exact har2
    · linarith
  rcases lt_trichotomy x 0 with hx | hx | hx
  · have han : roundTo p emin emax (-a) = finite (-a) := by rw [roundTo_neg, ha]; rfl
    have hbn : roundTo p emin emax (-b) = finite (-b) := by rw [roundTo_neg, hb]; rfl
    obtain ⟨r, hr, h1, h2⟩ := pos (-b) (-x) (-a) hbn han (by linarith) (by linarith) (by linarith)
    refine ⟨-r, ?_, by linarith, by linarith⟩
    have := roundTo_neg p emin emax (-x)
    rw [neg_neg, hr] at this
    rw [this]
    rfl
  · refine ⟨0, by rw [hx, roundTo_zero], by linarith, by linarith⟩
  · exact pos a x b ha hb hax hxb hx

/-- The rounding of a number whose binary exponent is `e` and whose quotient
by the unit in the last place is nearest to `n`. -/
theorem roundTo_eval (p : Nat) (emin emax : Int) (x : ℚ) (e n : Int)
    (he1 : (2 : ℚ) ^ e ≤ |x|) (he2 : |x| < 2 ^ (e + 1)) (hemin : emin ≤ e)
    (hn : roundHalfEven (x / 2 ^ (e - ((p : Int) - 1))) = n)
    (hfin : |(n : ℚ) * 2 ^ (e - ((p : Int) - 1))| < 2 ^ (emax + 1)) :
    roundTo p emin emax x = finite ((n : ℚ) * 2 ^ (e - ((p : Int) - 1))) := by
  have hx : x ≠ 0 := by
    intro h
    rw [h, abs_zero] at he1
    exact absurd he1 (not_le.mpr (two_zpow_pos _))
  have hpos := abs_pos.mpr hx
  have hlog : Int.log 2 |x| = e :=
    le_antisymm (by have := log_lt_of_lt _ _ hpos he2; omega) (le_log_of_le _ _ hpos he1)
  have hexpo : expo emin x = e := by
    unfold expo
    rw [hlog]
    exact max_eq_left hemin
  have hulp : ulp p emin x = 2 ^ (e - ((p : Int) - 1)) := by
    unfold ulp
    rw [hexpo]
  have h := roundTo_finite_of_lt p emin emax x hx (by rw [hulp, hn]; exact hfin)
  rw [h, hulp, hn]

theorem roundFloat_idem (x r : ℚ) (h : roundFloat x = finite r) : roundFloat r = finite r :=
  roundTo_idem 24 (-126) 127 (by norm_num) x r h

theorem roundFloat_ne_nan (x : ℚ) : roundFloat x ≠ nan := roundTo_ne_nan _ _ _ x

theorem roundDouble_ne_nan (x : ℚ) : roundDouble x ≠ nan := roundTo_ne_nan _ _ _ x

theorem roundFloat_between (a x b : ℚ) (ha : roundFloat a = finite a)
    (hb : roundFloat b = finite b) (hax : a ≤ x) (hxb : x ≤ b) :
    ∃ r : ℚ, roundFloat x = finite r ∧ a ≤ r ∧ r ≤ b :=
  roundTo_between 24 (-126) 127 (by norm_num) a x b ha hb hax hxb

theorem roundDouble_between (a x b : ℚ) (ha : roundDouble a = finite a)
    (hb : roundDouble b = finite b) (hax : a ≤ x) (hxb : x ≤ b) :
    ∃ r : ℚ, roundDouble x = finite r ∧ a ≤ r ∧ r ≤ b :=
  roundTo_between 53 (-1022) 1023 (by norm_num) a x b ha hb hax hxb

/-- An integer below `2^24` in magnitude times a power of two is a `float`. -/
theorem roundFloat_dyadic (m k : Int) (hm : |m| < 2 ^ 24) (hk1 : -149 ≤ k) (hk2 : k ≤ 100) :
    roundFloat ((m : ℚ) * 2 ^ k) = finite ((m : ℚ) * 2 ^ k) := by
  apply roundTo_dyadic 24 (-126) 127 m k hm (by norm_num; omega)
  rw [abs_mul, abs_of_pos (two_zpow_pos k)]
  have h1 : |(m : ℚ)| < 2 ^ (24 : Int) := by
    have : ((|m| : Int) : ℚ) < (((2 : Int) ^ 24 : Int) : ℚ) := by exact_mod_cast hm
    push_cast at this
    norm_num
    exact this
  have h2 : (2 : ℚ) ^ k ≤ 2 ^ (100 : Int) := two_zpow_mono hk2
  calc |(m : ℚ)| * 2 ^ k ≤ |(m : ℚ)| * 2 ^ (100 : Int) :=
        mul_le_mul_of_nonneg_left h2 (abs_nonneg _)
    _ < 2 ^ (24 : Int) * 2 ^ (100 : Int) := mul_lt_mul_of_pos_right h1 (two_zpow_pos _)
    _ = 2 ^ (124 : Int) := by
        rw [← zpow_add₀ (by norm_num : (2 : ℚ) ≠ 0)]
        norm_num
    _ ≤ 2 ^ ((127 : Int) + 1) := two_zpow_mono (by norm_num)

/-- An integer below `2^53` in magnitude times a power of two is a `double`. -/
theorem roundDouble_dyadic (m k : Int) (hm : |m| < 2 ^ 53) (hk1 : -1074 ≤ k) (hk2 : k ≤ 900) :
    roundDouble ((m : ℚ) * 2 ^ k) = finite ((m : ℚ) * 2 ^ k) := by
  apply roundTo_dyadic 53 (-1022) 1023 m k hm (by norm_num; omega)
  rw [abs_mul, abs_of_pos (two_zpow_pos k)]
  have h1 : |(m : ℚ)| < 2 ^ (53 : Int) := by
    have : ((|m| : Int) : ℚ) < (((2 : Int) ^ 53 : Int) : ℚ) := by exact_mod_cast hm
    push_cast at this
    norm_num
    exact this
  have h2 : (2 : ℚ) ^ k ≤ 2 ^ (900 : Int) := two_zpow_mono hk2
  calc |(m : ℚ)| * 2 ^ k ≤ |(m : ℚ)| * 2 ^ (900 : Int) :=
        mul_le_mul_of_nonneg_left h2 (abs_nonneg _)
    _ < 2 ^ (53 : Int) * 2 ^ (900 : Int) := mul_lt_mul_of_pos_right h1 (two_zpow_pos _)
    _ = 2 ^ (953 : Int) := by
        rw [← zpow_add₀ (by norm_num : (2 : ℚ) ≠ 0)]
        norm_num
    _ ≤ 2 ^ ((1023 : Int) + 1) := two_zpow_mono (by norm_num)

/-- An integer below `2^24` in magnitude divided by a power of two is a `float`. -/
theorem roundFloat_div_pow (m : Int) (j : Nat) (hm : |m| < 2 ^ 24) (hj : j ≤ 149) :
    roundFloat ((m : ℚ) / 2 ^ j) = finite ((m : ℚ) / 2 ^ j) := by
  have h := roundFloat_dyadic m (-(j : Int)) hm (by omega) (by omega)
  rw [zpow_neg, zpow_natCast, ← div_eq_mul_inv] at h
  exact h

/-- An integer below `2^53` in magnitude divided by a power of two is a `double`. -/
theorem roundDouble_div_pow (m : Int) (j : Nat) (hm : |m| < 2 ^ 53) (hj : j ≤ 1074) :
    roundDouble ((m : ℚ) / 2 ^ j) = finite ((m : ℚ) / 2 ^ j) := by
  have h := roundDouble_dyadic m (-(j : Int)) hm (by omega) (by omega)
  rw [zpow_neg, zpow_natCast, ← div_eq_mul_inv] at h
  exact h

/-- An integer of at most `2^24` in magnitude is a `float`. -/
theorem roundFloat_int (n : Int) (hn : |n| ≤ 2 ^ 24) : roundFloat (n : ℚ) = finite (n : ℚ) := by
  rcases lt_or_eq_of_le hn with h | h
  · have := roundFloat_div_pow n 0 h (by norm_num)
    simpa using this
  · rcases abs_eq (by norm_num : (0 : Int) ≤ 2 ^ 24) |>.mp h with h1 | h1
    · have := roundFloat_dyadic 1 24 (by norm_num) (by norm_num) (by norm_num)
      rw [h1]
      norm_num at this ⊢
      exact this
    · have := roundFloat_dyadic (-1) 24 (by norm_num) (by norm_num) (by norm_num)
      rw [h1]
      norm_num at this ⊢
      exact this

/-- An integer below `2^53` in magnitude is a `double`. -/
theorem roundDouble_int (n : Int) (hn : |n| < 2 ^ 53) : roundDouble (n : ℚ) = finite (n : ℚ) := by
  have := roundDouble_div_pow n 0 hn (by norm_num)
  simpa using this

/-- A power of two between `2^(-149)` and `2^100` is a `float`. -/
theorem roundFloat_two_zpow (k : Int) (hk1 : -149 ≤ k) (hk2 : k ≤ 100) :
    roundFloat (2 ^ k) = finite (2 ^ k) := by
  have := roundFloat_dyadic 1 k (by norm_num) hk1 hk2
  simpa using this

/-- Twice a `float` is a `float`, below the overflow threshold. -/
theorem roundFloat_double (b : ℚ) (hb : roundFloat b = finite b) (hfin : |b| < 2 ^ (127 : Int)) :
    roundFloat (2 * b) = finite (2 * b) := by
  obtain ⟨n, hn, hbn, -⟩ := rep_canon 24 (-126) 127 b hb
  have hexpo := emin_le_expo (-126) b
  have h2 : 2 * b = (n : ℚ) * 2 ^ (expo (-126) b - ((24 : Nat) - 1) + 1) := by
    conv_lhs => rw [hbn]
    unfold ulp
    rw [zpow_add₀ (by norm_num : (2 : ℚ) ≠ 0) _ 1, zpow_one]
    ring
  have hfin2 : |2 * b| < 2 ^ ((127 : Int) + 1) := by
    rw [abs_mul, abs_of_pos (by norm_num : (0 : ℚ) < 2),
      zpow_add₀ (by norm_num : (2 : ℚ) ≠ 0), zpow_one]
    linarith
  rw [h2] at hfin2 ⊢
  exact roundTo_dyadic 24 (-126) 127 n _ hn (by push_cast; omega) hfin2

/-- Half of a `float` of magnitude at least 0.25 is a `float`. -/
theorem roundFloat_half (b : ℚ) (hb : roundFloat b = finite b) (hnorm : 1 / 4 ≤ |b|) :
    roundFloat (1 / 2 * b) = finite (1 / 2 * b) := by
  have h := roundTo_half 24 (-126) 127 b hb
    (le_trans (le_trans (two_zpow_mono (by norm_num : (-126 : Int) + 1 ≤ -2)) (by norm_num)) hnorm)
  have e : 1 / 2 * b = b / 2 := by ring
  rw [e]
  exact h

end FloatVal

/-! ### The operations on `float` and the instantaneous steering -/

namespace FloatVal

/-- A sum with NaN is NaN. -/
theorem add_nan (a : FloatVal) : add a nan = nan := by
  cases a <;> rfl

theorem add_finite (a b : ℚ) : add (finite a) (finite b) = roundFloat (a + b) := rfl

theorem mul_finite (a b : ℚ) : mul (finite a) (finite b) = roundFloat (a * b) := rfl

theorem subDouble_finite (a b : ℚ) : subDouble (finite a) (finite b) = roundDouble (a - b) := by
  simp [subDouble, neg, addWith, sub_eq_add_neg]

theorem div_finite (a b : ℚ) (hb : b ≠ 0) : div (finite a) (finite b) = roundFloat (a / b) := by
  simp [div, hb]

/-- The function `std::max` on finite values. -/
theorem max_finite (a b : ℚ) :
    FloatVal.max (finite a) (finite b) = if a < b then finite b else finite a := by
  by_cases h : a < b <;> simp [FloatVal.max, lt, h]

/-- The function `std::min` on finite values. -/
theorem min_finite (a b : ℚ) :
    FloatVal.min (finite a) (finite b) = if b < a then finite b else finite a := by
  by_cases h : b < a <;> simp [FloatVal.min, lt, h]

/-- The clamp `std::min(std::max(x, 0.5f), 1.5f)` of a finite value is the
clamp of the rational. -/
theorem clamp_finite (x : ℚ) :
    FloatVal.min (FloatVal.max (finite x) (finite (1 / 2))) (finite (3 / 2)) =
      finite (Min.min (Max.max x (1 / 2)) (3 / 2)) := by
  rw [max_finite]
  by_cases h1 : x < 1 / 2
  · have h2 : Max.max x (1 / 2) = 1 / 2 := max_eq_right (le_of_lt h1)
    have h3 : Min.min (1 / 2 : ℚ) (3 / 2) = 1 / 2 := min_eq_left (by norm_num)
    have h4 : ¬ ((3 / 2 : ℚ) < 1 / 2) := by norm_num
    rw [if_pos h1, min_finite, if_neg h4, h2, h3]
  · have h2 : Max.max x (1 / 2) = x := max_eq_left (not_lt.mp h1)
    rw [if_neg h1, min_finite, h2]
    by_cases h5 : (3 / 2 : ℚ) < x
    · rw [if_pos h5, min_eq_right (le_of_lt h5)]
    · rw [if_neg h5, min_eq_left (not_lt.mp h5)]

theorem roundFloat_zero : roundFloat 0 = finite 0 := roundTo_zero _ _ _

theorem roundFloat_one : roundFloat 1 = finite 1 := by
  have := roundFloat_int 1 (by norm_num)
  simpa using this

theorem roundDouble_one : roundDouble 1 = finite 1 := by
  have := roundDouble_int 1 (by norm_num)
  simpa using this

theorem roundFloat_quarter : roundFloat (1 / 4) = finite (1 / 4) := by
  have := roundFloat_div_pow 1 2 (by norm_num) (by norm_num)
  norm_num at this ⊢
  exact this

theorem roundFloat_one_half : roundFloat (1 / 2) = finite (1 / 2) := by
  have := roundFloat_div_pow 1 1 (by norm_num) (by norm_num)
  norm_num at this ⊢
  exact this

theorem roundFloat_three_quarters : roundFloat (3 / 4) = finite (3 / 4) := by
  have := roundFloat_div_pow 3 2 (by norm_num) (by norm_num)
  norm_num at this ⊢
  exact this

theorem roundFloat_three_halves : roundFloat (3 / 2) = finite (3 / 2) := by
  have := roundFloat_div_pow 3 1 (by norm_num) (by norm_num)
  norm_num at this ⊢
  exact this

theorem roundFloat_two_pow_31 : roundFloat (2 ^ 31) = finite (2 ^ 31) := by
  have := roundFloat_two_zpow 31 (by norm_num) (by norm_num)
  norm_num at this ⊢
  exact this

theorem roundFloat_neg_two_pow_31 : roundFloat (-2 ^ 31) = finite (-2 ^ 31) := by
  have := roundFloat_dyadic (-1) 31 (by norm_num) (by norm_num) (by norm_num)
  norm_num at this ⊢
  exact this

theorem roundFloat_neg_one : roundFloat (-1) = finite (-1) := by
  have := roundFloat_int (-1) (by norm_num)
  simpa using this

theorem roundDouble_two_pow_32 : roundDouble (2 ^ 32) = finite (2 ^ 32) := by
  have := roundDouble_int (2 ^ 32) (by norm_num)
  norm_num at this ⊢
  exact this

theorem roundDouble_neg_two_pow_32 : roundDouble (-2 ^ 32) = finite (-2 ^ 32) := by
  have := roundDouble_int (-2 ^ 32) (by norm_num)
  norm_num at this ⊢
  exact this

theorem roundFloat_two_pow_32 : roundFloat (2 ^ 32) = finite (2 ^ 32) := by
  have := roundFloat_two_zpow 32 (by norm_num) (by norm_num)
  norm_num at this ⊢
  exact this

theorem roundFloat_neg_two_pow_32 : roundFloat (-2 ^ 32) = finite (-2 ^ 32) := by
  have := roundFloat_dyadic (-1) 32 (by norm_num) (by norm_num) (by norm_num)
  norm_num at this ⊢
  exact this

/-- The conversion of an `int` to `float` is finite, keeps the sign, and is at
least 1 in magnitude for an `int` other than 0. -/
theorem ofInt_int32 (n : Int) (h1 : -2 ^ 31 ≤ n) (h2 : n ≤ 2 ^ 31) :
    ∃ r : ℚ, ofInt n = finite r ∧ -2 ^ 31 ≤ r ∧ r ≤ 2 ^ 31 ∧
      (0 < n → 1 ≤ r) ∧ (n < 0 → r ≤ -1) ∧ (n = 0 → r = 0) := by
  have h1q : (-2 ^ 31 : ℚ) ≤ (n : ℚ) := by exact_mod_cast h1
  have h2q : (n : ℚ) ≤ 2 ^ 31 := by exact_mod_cast h2
  unfold ofInt
  rcases lt_trichotomy n 0 with hn | hn | hn
  · have hq : (n : ℚ) ≤ -1 := by exact_mod_cast (by omega : n ≤ -1)
    obtain ⟨r, hr, hr1, hr2⟩ := roundFloat_between _ _ _ roundFloat_neg_two_pow_31
      roundFloat_neg_one h1q hq
    exact ⟨r, hr, hr1, by linarith, fun h => by omega, fun _ => hr2, fun h => by omega⟩
  · rw [hn]
    refine ⟨0, by simpa using roundFloat_zero, by norm_num, by norm_num, fun h => by omega,
      fun h => by omega, fun _ => rfl⟩
  · have hq : (1 : ℚ) ≤ (n : ℚ) := by exact_mod_cast (by omega : 1 ≤ n)
    obtain ⟨r, hr, hr1, hr2⟩ := roundFloat_between _ _ _ roundFloat_one
      roundFloat_two_pow_31 hq h2q
    exact ⟨r, hr, by linarith, hr2, fun _ => hr1, fun h => by omega, fun h => by omega⟩

end FloatVal

namespace ClockCatchUp

open FloatVal in
/-- The clamped instantaneous steering, for an offset and a non-zero master
difference held in `int`s: it is a `float` of [0.5, 1.5], at most 1 when the
offset and the master difference are positive, at least 1 when the offset is
negative and the master difference positive, and 1 when the offset is 0. -/
theorem curSteering_finite (off md : Int) (ho1 : -2 ^ 31 ≤ off) (ho2 : off < 2 ^ 31)
    (hm1 : -2 ^ 31 ≤ md) (hm2 : md < 2 ^ 31) (hmd : md ≠ 0) :
    ∃ x : ℚ, curSteering off md = finite x ∧ roundFloat x = finite x ∧ 1 / 2 ≤ x ∧ x ≤ 3 / 2 ∧
      (0 < off → 0 < md → x ≤ 1) ∧ (off < 0 → 0 < md → 1 ≤ x) ∧ (off = 0 → x = 1) := by
  obtain ⟨o, ho, hol, hou, opos, oneg, ho0⟩ := ofInt_int32 off ho1 (by omega)
  obtain ⟨d, hd, hdl, hdu, hdpos, hdneg, -⟩ := ofInt_int32 md hm1 (by omega)
  have hd1 : 1 ≤ |d| := by
    rcases lt_or_gt_of_ne hmd with h | h
    · have := hdneg h
      rw [abs_of_neg (by linarith)]
      linarith
    · have := hdpos h
      rw [abs_of_pos (by linarith)]
      exact this
  have hd0 : d ≠ 0 := by
    intro h
    rw [h, abs_zero] at hd1
    linarith
  have hoabs : |o| ≤ 2 ^ 31 := abs_le.mpr ⟨hol, hou⟩
  have hquot : |o / d| ≤ 2 ^ 31 := by
    rw [abs_div, div_le_iff₀ (by linarith)]
    calc |o| ≤ 2 ^ 31 := hoabs
      _ = 2 ^ 31 * 1 := (mul_one _).symm
      _ ≤ 2 ^ 31 * |d| := mul_le_mul_of_nonneg_left hd1 (by norm_num)
  have hquot2 := abs_le.mp hquot
  -- the quotient
  obtain ⟨q, hq, hql, hqu⟩ := roundFloat_between _ (o / d) _ roundFloat_neg_two_pow_31
    roundFloat_two_pow_31 hquot2.1 hquot2.2
  have hqpos : 0 < off → 0 < md → 0 ≤ q := by
    intro h1 h2
    have hx : 0 ≤ o / d := div_nonneg (by linarith [opos h1]) (by linarith [hdpos h2])
    obtain ⟨r, hr, hr1, -⟩ := roundFloat_between _ (o / d) _ roundFloat_zero
      roundFloat_two_pow_31 hx hquot2.2
    rw [hq] at hr
    injection hr with hr
    rw [hr]
    exact hr1
  have hqneg : off < 0 → 0 < md → q ≤ 0 := by
    intro h1 h2
    have hx : o / d ≤ 0 := div_nonpos_of_nonpos_of_nonneg (by linarith [oneg h1])
      (by linarith [hdpos h2])
    obtain ⟨r, hr, -, hr2⟩ := roundFloat_between _ (o / d) _ roundFloat_neg_two_pow_31
      roundFloat_zero hquot2.1 hx
    rw [hq] at hr
    injection hr with hr
    rw [hr]
    exact hr2
  have hqzero : off = 0 → q = 0 := by
    intro h
    rw [ho0 h, zero_div, roundFloat_zero] at hq
    injection hq with hq
    exact hq.symm
  -- the difference, in `double`
  have hsub1 : (-2 ^ 32 : ℚ) ≤ 1 - q := by linarith
  have hsub2 : 1 - q ≤ (2 ^ 32 : ℚ) := by linarith
  obtain ⟨t, ht, htl, htu⟩ := roundDouble_between _ (1 - q) _ roundDouble_neg_two_pow_32
    roundDouble_two_pow_32 hsub1 hsub2
  have htpos : 0 < off → 0 < md → t ≤ 1 := by
    intro h1 h2
    obtain ⟨r, hr, -, hr2⟩ := roundDouble_between _ (1 - q) _ roundDouble_neg_two_pow_32
      roundDouble_one hsub1 (by linarith [hqpos h1 h2])
    rw [ht] at hr
    injection hr with hr
    rw [hr]
    exact hr2
  have htneg : off < 0 → 0 < md → 1 ≤ t := by
    intro h1 h2
    obtain ⟨r, hr, hr1, -⟩ := roundDouble_between _ (1 - q) _ roundDouble_one
      roundDouble_two_pow_32 (by linarith [hqneg h1 h2]) hsub2
    rw [ht] at hr
    injection hr with hr
    rw [hr]
    exact hr1
  have htzero : off = 0 → t = 1 := by
    intro h
    rw [hqzero h, sub_zero, roundDouble_one] at ht
    injection ht with ht
    exact ht.symm
  -- the conversion to `float`
  obtain ⟨u, hu, hul, huu⟩ := roundFloat_between _ t _ roundFloat_neg_two_pow_32
    roundFloat_two_pow_32 htl htu
  have hupos : 0 < off → 0 < md → u ≤ 1 := by
    intro h1 h2
    obtain ⟨r, hr, -, hr2⟩ := roundFloat_between _ t _ roundFloat_neg_two_pow_32
      roundFloat_one htl (htpos h1 h2)
    rw [hu] at hr
    injection hr with hr
    rw [hr]
    exact hr2
  have huneg : off < 0 → 0 < md → 1 ≤ u := by
    intro h1 h2
    obtain ⟨r, hr, hr1, -⟩ := roundFloat_between _ t _ roundFloat_one
      roundFloat_two_pow_32 (htneg h1 h2) htu
    rw [hu] at hr
    injection hr with hr
    rw [hr]
    exact hr1
  have huzero : off = 0 → u = 1 := by
    intro h
    rw [htzero h, roundFloat_one] at hu
    injection hu with hu
    exact hu.symm
  have hurep : roundFloat u = finite u := roundFloat_idem t u hu
  have hcur : curSteering off md = finite (Min.min (Max.max u (1 / 2)) (3 / 2)) := by
    unfold curSteering
    rw [ho, hd, div_finite _ _ hd0, hq, subDouble_finite, ht]
    show FloatVal.min (FloatVal.max (roundFloat t) _) _ = _
    rw [hu, clamp_finite]
  refine ⟨_, hcur, ?_, le_min (le_max_right _ _) (by norm_num), min_le_right _ _, ?_, ?_, ?_⟩
  · by_cases c1 : u < 1 / 2
    · rw [max_eq_right (le_of_lt c1), min_eq_left (by norm_num)]
      exact roundFloat_one_half
    · rw [max_eq_left (not_lt.mp c1)]
      by_cases c2 : 3 / 2 < u
      · rw [min_eq_right (le_of_lt c2)]
        exact roundFloat_three_halves
      · rw [min_eq_left (not_lt.mp c2)]
        exact hurep
  · intro h1 h2
    exact le_trans (min_le_left _ _) (max_le (hupos h1 h2) (by norm_num))
  · intro h1 h2
    exact le_min (le_trans (huneg h1 h2) (le_max_left _ _)) (by norm_num)
  · intro h
    rw [huzero h]
    norm_num

end ClockCatchUp

namespace FloatVal

/-- The conversion to `uint32_t` of a finite value in the range of `uint32_t`
is its integer part. -/
theorem toUInt32_finite (x : ℚ) (h0 : 0 ≤ x) (h : x < 2 ^ 32) :
    ((toUInt32 (finite x) : Nat) : Int) = ⌊x⌋ := by
  have hfloor : Rat.floor x = ⌊x⌋ := rfl
  have h1 : (0 : Int) ≤ ⌊x⌋ := Int.floor_nonneg.mpr h0
  have h2 : ⌊x⌋ < 2 ^ 32 := by
    have : ((⌊x⌋ : Int) : ℚ) < ((2 ^ 32 : Int) : ℚ) := by
      push_cast
      exact lt_of_le_of_lt (Int.floor_le x) h
    exact_mod_cast this
  simp only [toUInt32, hfloor]
  omega

/-- The conversion to `uint32_t` of a finite value below the natural number `n`
is at most `n`. -/
theorem toUInt32_finite_le (x : ℚ) (n : Nat) (h : x ≤ n) : toUInt32 (finite x) ≤ n := by
  have hfloor : Rat.floor x = ⌊x⌋ := rfl
  have h1 : ⌊x⌋ ≤ (n : Int) := by
    have : ((⌊x⌋ : Int) : ℚ) ≤ ((n : Int) : ℚ) := by
      push_cast
      exact le_trans (Int.floor_le x) h
    exact_mod_cast this
  simp only [toUInt32, hfloor]
  have h2 : ⌊x⌋.toNat % 2 ^ 32 ≤ ⌊x⌋.toNat := Nat.mod_le _ _
  omega

/-- The conversion to `uint32_t` of a finite value of the range of `uint32_t`
that is at least the natural number `n` is at least `n`. -/
theorem toUInt32_finite_ge (x : ℚ) (n : Nat) (h : (n : ℚ) ≤ x) (hx : x < 2 ^ 32) :
    n ≤ toUInt32 (finite x) := by
  have h0 : 0 ≤ x := le_trans (Nat.cast_nonneg n) h
  have heq := toUInt32_finite x h0 hx
  have h1 : (n : Int) ≤ ⌊x⌋ := by
    apply Int.le_floor.mpr
    exact_mod_cast h
  omega

/-- The conversion to `float` of a base interval below `2^24` is exact. -/
theorem ofInt_base (base : Nat) (h : base < 2 ^ 24) : ofInt base = finite base := by
  unfold ofInt
  have := roundFloat_int (base : Int) (by rw [abs_of_nonneg (by omega)]; omega)
  simpa using this

/-- The smoothing `0.5f * s + 0.5f * x` of a steering `s` of [0.5, 1.5] and an
instantaneous steering `x` that is a `float` of [0.5, 1.5]: the result is a
`float` of [0.5, 1.5], on the side of 1 on which both `s` and `x` are. -/
theorem smoothing_bounds (s x : ℚ) (hs1 : 1 / 2 ≤ s) (hs2 : s ≤ 3 / 2)
    (hx : roundFloat x = finite x) (hx1 : 1 / 2 ≤ x) (hx2 : x ≤ 3 / 2) :
    ∃ q : ℚ, add (mul (finite (1 / 2)) (finite s)) (mul (finite (1 / 2)) (finite x)) = finite q ∧
      roundFloat q = finite q ∧ 1 / 2 ≤ q ∧ q ≤ 3 / 2 ∧
      (s ≤ 1 → x ≤ 1 → q ≤ 1) ∧ (1 ≤ s → 1 ≤ x → 1 ≤ q) := by
  obtain ⟨h, hh, hh1, hh2⟩ := roundFloat_between (1 / 4) (1 / 2 * s) (3 / 4) roundFloat_quarter
    roundFloat_three_quarters (by linarith) (by linarith)
  have hhlo : s ≤ 1 → h ≤ 1 / 2 := by
    intro hs
    obtain ⟨r, hr, -, hr2⟩ := roundFloat_between (1 / 4) (1 / 2 * s) (1 / 2) roundFloat_quarter
      roundFloat_one_half (by linarith) (by linarith)
    rw [hh] at hr
    injection hr with hr
    rw [hr]
    exact hr2
  have hhhi : 1 ≤ s → 1 / 2 ≤ h := by
    intro hs
    obtain ⟨r, hr, hr1, -⟩ := roundFloat_between (1 / 2) (1 / 2 * s) (3 / 4) roundFloat_one_half
      roundFloat_three_quarters (by linarith) (by linarith)
    rw [hh] at hr
    injection hr with hr
    rw [hr]
    exact hr1
  have hg : roundFloat (1 / 2 * x) = finite (1 / 2 * x) :=
    roundFloat_half x hx (by rw [abs_of_pos (by linarith)]; linarith)
  obtain ⟨q, hq, hq1, hq2⟩ := roundFloat_between (1 / 2) (h + 1 / 2 * x) (3 / 2)
    roundFloat_one_half roundFloat_three_halves (by linarith) (by linarith)
  refine ⟨q, ?_, roundFloat_idem _ _ hq, hq1, hq2, ?_, ?_⟩
  · rw [mul_finite, mul_finite, hh, hg, add_finite, hq]
  · intro hs hx
    obtain ⟨r, hr, -, hr2⟩ := roundFloat_between (1 / 2) (h + 1 / 2 * x) 1
      roundFloat_one_half roundFloat_one (by linarith) (by linarith [hhlo hs])
    rw [hq] at hr
    injection hr with hr
    rw [hr]
    exact hr2
  · intro hs hx
    obtain ⟨r, hr, hr1, -⟩ := roundFloat_between 1 (h + 1 / 2 * x) (3 / 2)
      roundFloat_one roundFloat_three_halves (by linarith [hhhi hs]) (by linarith)
    rw [hq] at hr
    injection hr with hr
    rw [hr]
    exact hr1

/-- The smoothing of a steering `s` that is a `float` of [0.5, 1.5]: both
products are exact, and the result is the exact value rounded once. -/
theorem smoothing_exact (s x : ℚ) (hs : roundFloat s = finite s) (hs1 : 1 / 2 ≤ s)
    (hx : roundFloat x = finite x) (hx1 : 1 / 2 ≤ x) :
    add (mul (finite (1 / 2)) (finite s)) (mul (finite (1 / 2)) (finite x)) =
      roundFloat (1 / 2 * s + 1 / 2 * x) := by
  have hh : roundFloat (1 / 2 * s) = finite (1 / 2 * s) :=
    roundFloat_half s hs (by rw [abs_of_pos (by linarith)]; linarith)
  have hg : roundFloat (1 / 2 * x) = finite (1 / 2 * x) :=
    roundFloat_half x hx (by rw [abs_of_pos (by linarith)]; linarith)
  rw [mul_finite, mul_finite, hh, hg, add_finite]

/-- A base interval that `float` holds exactly: half of it is a `float`. -/
theorem base_half (base : Nat) (hb : ofInt base = finite base) :
    roundFloat ((base : ℚ) * (1 / 2)) = finite ((base : ℚ) * (1 / 2)) := by
  unfold ofInt at hb
  rw [Int.cast_natCast] at hb
  rw [mul_comm]
  rcases Nat.eq_zero_or_pos base with h | h
  · rw [h]
    simpa using roundFloat_zero
  · apply roundFloat_half _ hb
    have : (1 : ℚ) ≤ (base : ℚ) := by exact_mod_cast h
    rw [abs_of_pos (by linarith)]
    linarith

/-- A base interval below `2^31` that `float` holds exactly: twice the base
interval is a `float`. -/
theorem base_double (base : Nat) (hb : ofInt base = finite base) (hlt : base < 2 ^ 31) :
    roundFloat ((base : ℚ) * 2) = finite ((base : ℚ) * 2) := by
  unfold ofInt at hb
  rw [Int.cast_natCast] at hb
  rw [mul_comm]
  apply roundFloat_double _ hb
  have h1 : ((base : Nat) : ℚ) < ((2 ^ 31 : Nat) : ℚ) := by exact_mod_cast hlt
  push_cast at h1
  rw [abs_of_nonneg (Nat.cast_nonneg _)]
  have h2 : (2 : ℚ) ^ (31 : Nat) ≤ 2 ^ (127 : Int) := by
    rw [← zpow_natCast]
    exact two_zpow_mono (by norm_num)
  linarith

/-- The interval computed from a base interval that `float` holds exactly and
a steering between two bounds whose products with the base interval are
`float`s of the range of `uint32_t`. -/
theorem interval_between (base : Nat) (q lo hi : ℚ) (hbase : ofInt base = finite base)
    (hlo : roundFloat ((base : ℚ) * lo) = finite ((base : ℚ) * lo))
    (hhi : roundFloat ((base : ℚ) * hi) = finite ((base : ℚ) * hi))
    (h0 : 0 ≤ lo) (h1 : lo ≤ q) (h2 : q ≤ hi) (hrange : (base : ℚ) * hi < 2 ^ 32) :
    ∃ r : ℚ, mul (ofInt base) (finite q) = finite r ∧ (base : ℚ) * lo ≤ r ∧
      r ≤ (base : ℚ) * hi ∧ ((toUInt32 (finite r) : Nat) : Int) = ⌊r⌋ := by
  have hb : (0 : ℚ) ≤ (base : ℚ) := Nat.cast_nonneg _
  obtain ⟨r, hr, hr1, hr2⟩ := roundFloat_between _ ((base : ℚ) * q) _ hlo hhi
    (mul_le_mul_of_nonneg_left h1 hb) (mul_le_mul_of_nonneg_left h2 hb)
  refine ⟨r, ?_, hr1, hr2, ?_⟩
  · rw [hbase, mul_finite, hr]
  · exact toUInt32_finite r (le_trans (mul_nonneg hb h0) hr1) (lt_of_le_of_lt hr2 hrange)

end FloatVal

/-! ### One beat -/

namespace FloatVal

/-- A `float` is a `double`. -/
theorem roundDouble_of_roundFloat (y : ℚ) (h : roundFloat y = finite y) :
    roundDouble y = finite y := by
  obtain ⟨n, hn, hy, hfin⟩ := rep_canon 24 (-126) 127 y h
  have hexpo := emin_le_expo (-126) y
  have hfin2 : |y| < 2 ^ ((1023 : Int) + 1) :=
    lt_of_lt_of_le hfin (two_zpow_mono (by norm_num))
  unfold ulp at hy
  rw [hy] at hfin2 ⊢
  exact roundTo_dyadic 53 (-1022) 1023 n _ (lt_trans hn (by norm_num)) (by push_cast; omega) hfin2

end FloatVal

namespace ClockCatchUp

/-- The cumulative offset after a beat in a synced state. -/
theorem onMasterClock_catchupOffset (c : ClockCatchUp) (l m : Nat)
    (hs : c.firstMasterSync = false) :
    (c.onMasterClock l m).2.catchupOffset =
      toInt32 (c.catchupOffset + toInt32 (c.masterDiff m - c.diff l)) := by
  simp [onMasterClock, hs]

/-- A beat in a synced state: the new offset, the new steering and the
interval. -/
theorem onMasterClock_synced (c : ClockCatchUp) (l m : Nat) (hs : c.firstMasterSync = false) :
    c.onMasterClock l m =
      (FloatVal.toUInt32 (FloatVal.mul (FloatVal.ofInt c.constBaseInt)
          (FloatVal.add (FloatVal.mul (FloatVal.finite (1 / 2)) c.steering)
            (FloatVal.mul (FloatVal.finite (1 / 2))
              (curSteering (toInt32 (c.catchupOffset + toInt32 (c.masterDiff m - c.diff l)))
                (c.masterDiff m))))),
        { c with
          catchupOffset := toInt32 (c.catchupOffset + toInt32 (c.masterDiff m - c.diff l))
          steering := FloatVal.add (FloatVal.mul (FloatVal.finite (1 / 2)) c.steering)
            (FloatVal.mul (FloatVal.finite (1 / 2))
              (curSteering (toInt32 (c.catchupOffset + toInt32 (c.masterDiff m - c.diff l)))
                (c.masterDiff m)))
          stepsSyncMasterLast := m, stepsSyncLast := l, firstMasterSync := false }) := by
  simp [onMasterClock, hs]

/-- The clamped instantaneous steering when no operation rounds: the offset and
the master difference are at most `2^24` in magnitude, and the quotient and its
difference to 1 are `float`s. -/
theorem curSteering_exact (off md : Int) (ho : |off| ≤ 2 ^ 24) (hm : |md| ≤ 2 ^ 24)
    (hmd : md ≠ 0)
    (hq : FloatVal.roundFloat ((off : ℚ) / (md : ℚ)) = FloatVal.finite ((off : ℚ) / (md : ℚ)))
    (ht : FloatVal.roundFloat (1 - (off : ℚ) / (md : ℚ)) =
      FloatVal.finite (1 - (off : ℚ) / (md : ℚ))) :
    curSteering off md =
      FloatVal.finite (Min.min (Max.max (1 - (off : ℚ) / (md : ℚ)) (1 / 2)) (3 / 2)) := by
  have hmdq : (md : ℚ) ≠ 0 := by exact_mod_cast hmd
  unfold curSteering FloatVal.ofInt
  rw [FloatVal.roundFloat_int off ho, FloatVal.roundFloat_int md hm,
    FloatVal.div_finite _ _ hmdq, hq, FloatVal.subDouble_finite,
    FloatVal.roundDouble_of_roundFloat _ ht]
  show FloatVal.min (FloatVal.max (FloatVal.roundFloat _) _) _ = _
  rw [ht, FloatVal.clamp_finite]

/-- The state after `reset()` and one beat. -/
theorem reset_first (c : ClockCatchUp) (l m : Nat) :
    (c.reset.2.onMasterClock l m).2 =
      { constBaseInt := c.constBaseInt, firstMasterSync := false, stepsSyncLast := l,
        stepsSyncMasterLast := m, catchupOffset := 0, steering := FloatVal.finite 1 } := by
  simp [reset, onMasterClock]

/-- C12: for every state, `reset()` returns the base interval and leaves the
cumulative offset 0, the steering 1.0 and the controller unsynced; the next
`onMasterClock(l, m)` returns the base interval unmodified, leaves the offset 0
and the steering 1.0, records `(l, m)` as the last-seen pair and moves to
synced.  Every beat in an unsynced state is such a first call. -/
theorem reset_then_first_beat (c : ClockCatchUp) (l m : Nat) :
    (c.reset.1 = c.constBaseInt ∧ c.reset.2.catchupOffset = 0 ∧
      c.reset.2.steering = FloatVal.finite 1 ∧ c.reset.2.firstMasterSync = true ∧
      c.reset.2.constBaseInt = c.constBaseInt) ∧
    (c.reset.2.onMasterClock l m).1 = c.constBaseInt ∧
    (c.reset.2.onMasterClock l m).2 =
      { constBaseInt := c.constBaseInt, firstMasterSync := false, stepsSyncLast := l,
        stepsSyncMasterLast := m, catchupOffset := 0, steering := FloatVal.finite 1 } ∧
    (∀ u : ClockCatchUp, u.firstMasterSync = true →
      u.onMasterClock l m =
        (u.constBaseInt,
          { u with stepsSyncMasterLast := m, stepsSyncLast := l, firstMasterSync := false })) := by
  refine ⟨⟨rfl, rfl, rfl, rfl, rfl⟩, ?_, ?_, ?_⟩
  · simp [reset, onMasterClock]
  · simp [reset, onMasterClock]
  · intro u hu
    simp [onMasterClock, hu]

/-- C12, evaluated on the sample controller (offset 7, steering 1.25): after
`reset()` the beat (123, 456) returns the base interval 10 and leaves offset 0
and steering 1.0. -/
theorem reset_then_first_beat_witness :
    sample.reset =
      (10, { constBaseInt := 10, firstMasterSync := true, stepsSyncLast := 40,
             stepsSyncMasterLast := 50, catchupOffset := 0, steering := FloatVal.finite 1 }) ∧
    sample.reset.2.onMasterClock 123 456 =
      (10, { constBaseInt := 10, firstMasterSync := false, stepsSyncLast := 123,
             stepsSyncMasterLast := 456, catchupOffset := 0, steering := FloatVal.finite 1 }) :=
  ⟨rfl, Prod.ext (reset_then_first_beat sample 123 456).2.1
    (reset_then_first_beat sample 123 456).2.2.1⟩

/-- C13: in a synced state with cumulative offset `c`, the beat `(l, m)` sets
the cumulative offset to `c + (masterDiff - diff)`, where `diff` and
`masterDiff` are the `int` locals holding `calcOverflowVal` of the last-seen and
the current local, respectively master, step; the sum is held in an `int`, and
is exact whenever it is in the range of `int`.  The beat stores `(l, m)` as the
last-seen pair, and `getCatchupOffset()` then returns the new offset and leaves
the state as it is. -/
theorem onMasterClock_offset (c : ClockCatchUp) (l m : Nat)
    (hs : c.firstMasterSync = false) :
    (c.diff l = toInt32 (StepSync.calcOverflowVal c.stepsSyncLast l) ∧
      c.masterDiff m = toInt32 (StepSync.calcOverflowVal c.stepsSyncMasterLast m)) ∧
    (StepSync.calcOverflowVal c.stepsSyncLast l < 2 ^ 31 →
      c.diff l = StepSync.calcOverflowVal c.stepsSyncLast l) ∧
    (StepSync.calcOverflowVal c.stepsSyncMasterLast m < 2 ^ 31 →
      c.masterDiff m = StepSync.calcOverflowVal c.stepsSyncMasterLast m) ∧
    (c.onMasterClock l m).2.catchupOffset =
      toInt32 (c.catchupOffset + toInt32 (c.masterDiff m - c.diff l)) ∧
    (-2 ^ 31 ≤ c.masterDiff m - c.diff l → c.masterDiff m - c.diff l < 2 ^ 31 →
      -2 ^ 31 ≤ c.catchupOffset + (c.masterDiff m - c.diff l) →
      c.catchupOffset + (c.masterDiff m - c.diff l) < 2 ^ 31 →
      (c.onMasterClock l m).2.catchupOffset = c.catchupOffset + (c.masterDiff m - c.diff l)) ∧
    (c.onMasterClock l m).2.stepsSyncLast = l ∧
    (c.onMasterClock l m).2.stepsSyncMasterLast = m ∧
    (c.onMasterClock l m).2.getCatchupOffset =
      ((c.onMasterClock l m).2.catchupOffset, (c.onMasterClock l m).2) := by
  have hcalc : ∀ p q : Nat, StepSync.calcOverflowVal p q < 2 ^ 31 →
      toInt32 (StepSync.calcOverflowVal p q) = StepSync.calcOverflowVal p q := by
    intro p q h
    apply toInt32_of_range _ _ h
    unfold StepSync.calcOverflowVal
    simp only
    split_ifs <;> omega
  refine ⟨⟨rfl, rfl⟩, hcalc _ _, hcalc _ _, onMasterClock_catchupOffset c l m hs, ?_, ?_, ?_, rfl⟩
  · intro h1 h2 h3 h4
    rw [onMasterClock_catchupOffset c l m hs, toInt32_of_range _ h1 h2, toInt32_of_range _ h3 h4]
  · simp [onMasterClock]
  · simp [onMasterClock]

/-- C13, evaluated on the sample controller (last-seen pair (40, 50), offset
7): the beat (43, 58) has `diff = 3`, `masterDiff = 8` and gives the offset
`7 + (8 - 3) = 12`, which `getCatchupOffset()` returns. -/
theorem onMasterClock_offset_witness :
    sample.firstMasterSync = false ∧
    sample.diff 43 = 3 ∧ sample.masterDiff 58 = 8 ∧
    (sample.onMasterClock 43 58).2.catchupOffset = 7 + (8 - 3) ∧
    (sample.onMasterClock 43 58).2.stepsSyncLast = 43 ∧
    (sample.onMasterClock 43 58).2.stepsSyncMasterLast = 58 ∧
    (sample.onMasterClock 43 58).2.getCatchupOffset.1 = 12 :=
  ⟨rfl, by decide, by decide,
    (onMasterClock_offset sample 43 58 rfl).2.2.2.2.1 (by decide) (by decide) (by decide)
      (by decide),
    (onMasterClock_offset sample 43 58 rfl).2.2.2.2.2.1,
    (onMasterClock_offset sample 43 58 rfl).2.2.2.2.2.2.1,
    by decide⟩

/-- C14, amended: in a synced state with steering `s`, a beat with
`masterDiff != 0` computes the clamped instantaneous steering `x` from `c'`, the
cumulative offset after the update of this beat: `x` is a `float` of
[0.5, 1.5], equal to `clamp(1 - c' / masterDiff, 0.5, 1.5)` when no operation
rounds.  The new steering is `0.5f * s + 0.5f * x` with the two products and the
sum rounded to `float`, which for a `float` `s >= 0.5` is the exact value
`0.5 * s + 0.5 * x` rounded once.  When local is behind (`c' > 0`,
`masterDiff > 0`), `x` is at most 1, and for `s` in [0.5, 1] the new steering is
at most 1 and the interval at most the base interval, for a base interval that
`float` holds exactly, as every one below `2^24`; when local is ahead
(`c' < 0`, `masterDiff > 0`) the inequalities are reversed. -/
theorem onMasterClock_steering_rounded (c : ClockCatchUp) (l m : Nat) (s : ℚ)
    (hs : c.firstMasterSync = false) (hsteer : c.steering = FloatVal.finite s)
    (hmd : c.masterDiff m ≠ 0) :
    ∃ x : ℚ,
      curSteering (c.onMasterClock l m).2.catchupOffset (c.masterDiff m) = FloatVal.finite x ∧
      FloatVal.roundFloat x = FloatVal.finite x ∧ 1 / 2 ≤ x ∧ x ≤ 3 / 2 ∧
      (|(c.onMasterClock l m).2.catchupOffset| ≤ 2 ^ 24 → |c.masterDiff m| ≤ 2 ^ 24 →
        FloatVal.roundFloat (((c.onMasterClock l m).2.catchupOffset : ℚ) / (c.masterDiff m : ℚ)) =
          FloatVal.finite (((c.onMasterClock l m).2.catchupOffset : ℚ) / (c.masterDiff m : ℚ)) →
        FloatVal.roundFloat
            (1 - ((c.onMasterClock l m).2.catchupOffset : ℚ) / (c.masterDiff m : ℚ)) =
          FloatVal.finite
            (1 - ((c.onMasterClock l m).2.catchupOffset : ℚ) / (c.masterDiff m : ℚ)) →
        x = Min.min (Max.max
          (1 - ((c.onMasterClock l m).2.catchupOffset : ℚ) / (c.masterDiff m : ℚ))
          (1 / 2)) (3 / 2)) ∧
      (c.onMasterClock l m).2.steering =
        FloatVal.add (FloatVal.mul (FloatVal.finite (1 / 2)) (FloatVal.finite s))
          (FloatVal.mul (FloatVal.finite (1 / 2)) (FloatVal.finite x)) ∧
      (FloatVal.roundFloat s = FloatVal.finite s → 1 / 2 ≤ s →
        (c.onMasterClock l m).2.steering = FloatVal.roundFloat (1 / 2 * s + 1 / 2 * x)) ∧
      (0 < (c.onMasterClock l m).2.catchupOffset → 0 < c.masterDiff m →
        x ≤ 1 ∧ (1 / 2 ≤ s → s ≤ 1 →
          ∃ q : ℚ, (c.onMasterClock l m).2.steering = FloatVal.finite q ∧ q ≤ 1 ∧
            (FloatVal.ofInt c.constBaseInt = FloatVal.finite c.constBaseInt →
              c.constBaseInt < 2 ^ 32 → (c.onMasterClock l m).1 ≤ c.constBaseInt))) ∧
      ((c.onMasterClock l m).2.catchupOffset < 0 → 0 < c.masterDiff m →
        1 ≤ x ∧ (1 ≤ s → s ≤ 3 / 2 →
          ∃ q : ℚ, (c.onMasterClock l m).2.steering = FloatVal.finite q ∧ 1 ≤ q ∧
            (FloatVal.ofInt c.constBaseInt = FloatVal.finite c.constBaseInt →
              c.constBaseInt < 2 ^ 31 → c.constBaseInt ≤ (c.onMasterClock l m).1))) ∧
      (c.constBaseInt < 2 ^ 24 →
        FloatVal.ofInt c.constBaseInt = FloatVal.finite c.constBaseInt) := by
  have hstep := onMasterClock_synced c l m hs
  rw [onMasterClock_catchupOffset c l m hs]
  have hsteer2 : (c.onMasterClock l m).2.steering =
      FloatVal.add (FloatVal.mul (FloatVal.finite (1 / 2)) (FloatVal.finite s))
        (FloatVal.mul (FloatVal.finite (1 / 2))
          (curSteering (toInt32 (c.catchupOffset + toInt32 (c.masterDiff m - c.diff l)))
            (c.masterDiff m))) := by
    rw [hstep, hsteer]
  have hint : (c.onMasterClock l m).1 =
      FloatVal.toUInt32 (FloatVal.mul (FloatVal.ofInt c.constBaseInt)
        (c.onMasterClock l m).2.steering) := by
    rw [hstep]
  have hoffr := toInt32_range (c.catchupOffset + toInt32 (c.masterDiff m - c.diff l))
  have hmdr : -2 ^ 31 ≤ c.masterDiff m ∧ c.masterDiff m < 2 ^ 31 := toInt32_range _
  generalize toInt32 (c.catchupOffset + toInt32 (c.masterDiff m - c.diff l)) = off
    at hsteer2 hoffr ⊢
  generalize c.masterDiff m = md at hsteer2 hmdr hmd ⊢
  generalize (c.onMasterClock l m).1 = itv at hint ⊢
  generalize (c.onMasterClock l m).2.steering = st at hsteer2 hint ⊢
  obtain ⟨x, hx, hxrep, hx1, hx2, hxpos, hxneg, -⟩ :=
    curSteering_finite off md hoffr.1 hoffr.2 hmdr.1 hmdr.2 hmd
  rw [hx] at hsteer2
  refine ⟨x, hx, hxrep, hx1, hx2, ?_, hsteer2, ?_, ?_, ?_, FloatVal.ofInt_base c.constBaseInt⟩
  · intro ho hm hq ht
    have := curSteering_exact off md ho hm hmd hq ht
    rw [hx] at this
    injection this
  · intro hsrep hs1
    rw [hsteer2]
    exact FloatVal.smoothing_exact s x hsrep hs1 hxrep hx1
  · intro hoff hpos
    refine ⟨hxpos hoff hpos, ?_⟩
    intro hs1 hs2
    obtain ⟨q, hq, -, hq1, -, hqle, -⟩ :=
      FloatVal.smoothing_bounds s x hs1 (by linarith) hxrep hx1 hx2
    rw [← hsteer2] at hq
    refine ⟨q, hq, hqle hs2 (hxpos hoff hpos), ?_⟩
    intro hbase hlt
    have hbq : ((c.constBaseInt : Nat) : ℚ) < 2 ^ 32 := by
      have : ((c.constBaseInt : Nat) : ℚ) < ((2 ^ 32 : Nat) : ℚ) := by exact_mod_cast hlt
      push_cast at this
      exact this
    have hone : FloatVal.roundFloat ((c.constBaseInt : ℚ) * 1) =
        FloatVal.finite ((c.constBaseInt : ℚ) * 1) := by
      rw [mul_one]
      unfold FloatVal.ofInt at hbase
      exact_mod_cast hbase
    obtain ⟨r, hr, -, hr2, -⟩ := FloatVal.interval_between c.constBaseInt q (1 / 2) 1 hbase
      (FloatVal.base_half c.constBaseInt hbase) hone
      (by norm_num) hq1 (hqle hs2 (hxpos hoff hpos)) (by rw [mul_one]; exact hbq)
    rw [hint, hq, hr]
    exact FloatVal.toUInt32_finite_le r _ (by rw [mul_one] at hr2; exact hr2)
  · intro hoff hpos
    refine ⟨hxneg hoff hpos, ?_⟩
    intro hs1 hs2
    obtain ⟨q, hq, -, -, hq2, -, hqge⟩ :=
      FloatVal.smoothing_bounds s x (by linarith) hs2 hxrep hx1 hx2
    rw [← hsteer2] at hq
    refine ⟨q, hq, hqge hs1 (hxneg hoff hpos), ?_⟩
    intro hbase hlt
    have hbq : ((c.constBaseInt : Nat) : ℚ) < 2 ^ 31 := by
      have : ((c.constBaseInt : Nat) : ℚ) < ((2 ^ 31 : Nat) : ℚ) := by exact_mod_cast hlt
      push_cast at this
      exact this
    have hone : FloatVal.roundFloat ((c.constBaseInt : ℚ) * 1) =
        FloatVal.finite ((c.constBaseInt : ℚ) * 1) := by
      rw [mul_one]
      unfold FloatVal.ofInt at hbase
      exact_mod_cast hbase
    obtain ⟨r, hr, hr1, hr2, -⟩ := FloatVal.interval_between c.constBaseInt q 1 2 hbase
      hone (FloatVal.base_double c.constBaseInt hbase hlt)
      (by norm_num) (hqge hs1 (hxneg hoff hpos)) (by linarith)
      (by linarith)
    rw [hint, hq, hr]
    exact FloatVal.toUInt32_finite_ge r _ (by rw [mul_one] at hr1; exact hr1) (by linarith)

end ClockCatchUp

namespace FloatVal

/-- The rounding to `float` of a number whose binary exponent is `e` and whose
quotient by the unit in the last place `2^(e - 23)` is nearest to `n`. -/
theorem roundFloat_eval (x : ℚ) (e n : Int) (v : ℚ)
    (he1 : (2 : ℚ) ^ e ≤ |x|) (he2 : |x| < 2 ^ (e + 1)) (hemin : -126 ≤ e)
    (hn : roundHalfEven (x / 2 ^ (e - 23)) = n) (hv : v = (n : ℚ) * 2 ^ (e - 23))
    (hfin : |v| < 2 ^ (128 : Int)) : roundFloat x = finite v := by
  rw [hv] at hfin ⊢
  exact roundTo_eval 24 (-126) 127 x e n he1 he2 hemin hn hfin

/-- The clamped instantaneous steering, from the results of its operations. -/
theorem curSteering_eval (off md : Int) (o d q t u : ℚ)
    (ho : roundFloat (off : ℚ) = finite o) (hd : roundFloat (md : ℚ) = finite d) (hd0 : d ≠ 0)
    (hq : roundFloat (o / d) = finite q) (ht : roundDouble (1 - q) = finite t)
    (hu : roundFloat t = finite u) :
    ClockCatchUp.curSteering off md = finite (Min.min (Max.max u (1 / 2)) (3 / 2)) := by
  unfold ClockCatchUp.curSteering ofInt
  rw [ho, hd, div_finite _ _ hd0, hq, subDouble_finite, ht]
  show FloatVal.min (FloatVal.max (roundFloat t) _) _ = _
  rw [hu, clamp_finite]

/-- The smoothing, from the results of its operations. -/
theorem smoothing_eval (s x h g r : ℚ) (hh : roundFloat (1 / 2 * s) = finite h)
    (hg : roundFloat (1 / 2 * x) = finite g) (hr : roundFloat (h + g) = finite r) :
    add (mul (finite (1 / 2)) (finite s)) (mul (finite (1 / 2)) (finite x)) = finite r := by
  rw [mul_finite, mul_finite, hh, hg, add_finite, hr]

/-- The interval, from the results of its operations. -/
theorem interval_eval (base : Nat) (q b r : ℚ) (i : Nat)
    (hb : roundFloat (base : ℚ) = finite b) (hr : roundFloat (b * q) = finite r)
    (h0 : 0 ≤ r) (h1 : r < 2 ^ 32) (hi : ⌊r⌋ = (i : Int)) :
    toUInt32 (mul (ofInt base) (finite q)) = i := by
  have h := toUInt32_finite r h0 h1
  unfold ofInt
  rw [Int.cast_natCast, hb, mul_finite, hr]
  rw [hi] at h
  exact_mod_cast h

end FloatVal

namespace ClockCatchUp

/-- A beat in a synced state, from the values of its locals. -/
theorem onMasterClock_eval (c : ClockCatchUp) (l m : Nat) (off md : Int) (s x q : ℚ) (i : Nat)
    (hs : c.firstMasterSync = false) (hsteer : c.steering = FloatVal.finite s)
    (hoff : toInt32 (c.catchupOffset + toInt32 (c.masterDiff m - c.diff l)) = off)
    (hmd : c.masterDiff m = md) (hcur : curSteering off md = FloatVal.finite x)
    (hq : FloatVal.add (FloatVal.mul (FloatVal.finite (1 / 2)) (FloatVal.finite s))
      (FloatVal.mul (FloatVal.finite (1 / 2)) (FloatVal.finite x)) = FloatVal.finite q)
    (hi : FloatVal.toUInt32 (FloatVal.mul (FloatVal.ofInt c.constBaseInt) (FloatVal.finite q)) = i) :
    c.onMasterClock l m =
      (i, { c with
        catchupOffset := off, steering := FloatVal.finite q,
        stepsSyncMasterLast := m, stepsSyncLast := l, firstMasterSync := false }) := by
  rw [onMasterClock_synced c l m hs, hoff, hmd, hcur, hsteer, hq, hi]

/-- The quotient `1.0f / 3.0f`. -/
theorem roundFloat_third :
    FloatVal.roundFloat ((1 : ℚ) / 3) = FloatVal.finite (11184811 / 33554432) := by
  apply FloatVal.roundFloat_eval (1 / 3) (-2) 11184811
  · norm_num [abs_of_pos]
  · norm_num [abs_of_pos]
  · norm_num
  · apply FloatVal.roundHalfEven_near <;> norm_num
  · norm_num
  · norm_num [abs_of_pos]

/-- The clamped instantaneous steering for the offset 1 and the master
difference 3: the quotient `1.0f / 3.0f` and the conversion of the difference
to `float` are rounded. -/
theorem curSteering_one_three : curSteering 1 3 = FloatVal.finite (5592405 / 8388608) := by
  have ht : FloatVal.roundDouble (1 - 11184811 / 33554432) =
      FloatVal.finite (22369621 / 33554432) := by
    have := FloatVal.roundDouble_div_pow 22369621 25 (by norm_num) (by norm_num)
    norm_num at this ⊢
    exact this
  have hu : FloatVal.roundFloat (22369621 / 33554432) = FloatVal.finite (5592405 / 8388608) := by
    apply FloatVal.roundFloat_eval (22369621 / 33554432) (-1) 11184810
    · norm_num [abs_of_pos]
    · norm_num [abs_of_pos]
    · norm_num
    · rw [FloatVal.roundHalfEven_tie _ 11184810 (by norm_num)]
      norm_num
    · norm_num
    · norm_num [abs_of_pos]
  have h := FloatVal.curSteering_eval 1 3 1 3 _ _ _
    (by simpa using FloatVal.roundFloat_int 1 (by norm_num))
    (by simpa using FloatVal.roundFloat_int 3 (by norm_num)) (by norm_num) roundFloat_third ht hu
  rw [h]
  norm_num [max_def, min_def]

/-- The beat (2, 3) in the state `synced10`: the offset becomes 1, the
steering 13981013 / 2^24, and the interval returned is 8. -/
theorem synced10_beat_third :
    synced10.onMasterClock 2 3 =
      (8, { constBaseInt := 10, firstMasterSync := false, stepsSyncLast := 2,
            stepsSyncMasterLast := 3, catchupOffset := 1,
            steering := FloatVal.finite (13981013 / 16777216) }) := by
  apply onMasterClock_eval synced10 2 3 1 3 1 (5592405 / 8388608) (13981013 / 16777216) 8 rfl rfl
    (by decide) (by decide) curSteering_one_three
  · apply FloatVal.smoothing_eval 1 _ (1 / 2) (5592405 / 16777216)
    · norm_num
      exact FloatVal.roundFloat_one_half
    · have := FloatVal.roundFloat_div_pow 5592405 24 (by norm_num) (by norm_num)
      norm_num at this ⊢
      exact this
    · have := FloatVal.roundFloat_div_pow 13981013 24 (by norm_num) (by norm_num)
      norm_num at this ⊢
      exact this
  · apply FloatVal.interval_eval 10 _ 10 (8738133 / 1048576) 8
    · simpa using FloatVal.roundFloat_int 10 (by norm_num)
    · apply FloatVal.roundFloat_eval _ 3 8738133
      · norm_num [abs_of_pos]
      · norm_num [abs_of_pos]
      · norm_num
      · apply FloatVal.roundHalfEven_near <;> norm_num
      · norm_num
      · norm_num [abs_of_pos]
    · norm_num
    · norm_num
    · rw [Int.floor_eq_iff]
      norm_num

end ClockCatchUp

namespace ClockCatchUp

/-- The clamped instantaneous steering for the offset 1 and the master
difference `2^26`: the conversion of `1 - 2^(-26)` to `float` gives 1. -/
theorem curSteering_one_pow26 : curSteering 1 67108864 = FloatVal.finite 1 := by
  have hd : FloatVal.roundFloat ((67108864 : Int) : ℚ) = FloatVal.finite 67108864 := by
    have := FloatVal.roundFloat_two_zpow 26 (by norm_num) (by norm_num)
    norm_num at this ⊢
    exact this
  have hq : FloatVal.roundFloat ((1 : ℚ) / 67108864) = FloatVal.finite (1 / 67108864) := by
    have := FloatVal.roundFloat_div_pow 1 26 (by norm_num) (by norm_num)
    norm_num at this ⊢
    exact this
  have ht : FloatVal.roundDouble (1 - 1 / 67108864) = FloatVal.finite (67108863 / 67108864) := by
    have := FloatVal.roundDouble_div_pow 67108863 26 (by norm_num) (by norm_num)
    norm_num at this ⊢
    exact this
  have hu : FloatVal.roundFloat (67108863 / 67108864) = FloatVal.finite 1 := by
    apply FloatVal.roundFloat_eval (67108863 / 67108864) (-1) 16777216
    · norm_num [abs_of_pos]
    · norm_num [abs_of_pos]
    · norm_num
    · apply FloatVal.roundHalfEven_near <;> norm_num
    · norm_num
    · norm_num [abs_of_pos]
  have h := FloatVal.curSteering_eval 1 67108864 1 67108864 _ _ _
    (by simpa using FloatVal.roundFloat_int 1 (by norm_num)) hd (by norm_num) hq ht hu
  rw [h]
  norm_num [max_def, min_def]

/-- The smoothing of the steering 1.0 with the instantaneous steering 1.0. -/
theorem smoothing_one_one :
    FloatVal.add (FloatVal.mul (FloatVal.finite (1 / 2)) (FloatVal.finite 1))
      (FloatVal.mul (FloatVal.finite (1 / 2)) (FloatVal.finite 1)) = FloatVal.finite 1 := by
  apply FloatVal.smoothing_eval 1 1 (1 / 2) (1 / 2)
  · norm_num
    exact FloatVal.roundFloat_one_half
  · norm_num
    exact FloatVal.roundFloat_one_half
  · norm_num
    exact FloatVal.roundFloat_one

/-- The interval for the base interval 10 and the steering 1.0. -/
theorem interval_ten_one :
    FloatVal.toUInt32 (FloatVal.mul (FloatVal.ofInt (10 : Nat)) (FloatVal.finite 1)) = 10 := by
  apply FloatVal.interval_eval 10 1 10 10 10
  · simpa using FloatVal.roundFloat_int 10 (by norm_num)
  · simpa using FloatVal.roundFloat_int 10 (by norm_num)
  · norm_num
  · norm_num
  · exact_mod_cast Int.floor_natCast (α := ℚ) 10

/-- The beat (2^26 - 1, 2^26) in the state `synced10`: the offset becomes 1,
the steering stays 1.0, and the interval returned is the base interval. -/
theorem synced10_beat_pow26 :
    synced10.onMasterClock 67108863 67108864 =
      (10, { constBaseInt := 10, firstMasterSync := false, stepsSyncLast := 67108863,
             stepsSyncMasterLast := 67108864, catchupOffset := 1,
             steering := FloatVal.finite 1 }) :=
  onMasterClock_eval synced10 67108863 67108864 1 67108864 1 1 1 10 rfl rfl
    (by decide) (by decide) curSteering_one_pow26 smoothing_one_one interval_ten_one

/-- C14 fails: in the synced state `synced10` (steering 1.0, offset 0) the beat
(2, 3) gives `c' = 1` and `masterDiff = 3`, and the steering on exit is
13981013 / 2^24, not `0.5 * 1 + 0.5 * clamp(1 - 1/3, 0.5, 1.5) = 5/6`.  The
beat (2^26 - 1, 2^26) gives `c' = 1 > 0` and `masterDiff = 2^26 > 0`, local is
behind, and the instantaneous steering is exactly 1, not below 1: the steering
stays 1.0 and the interval returned is the base interval 10. -/
theorem steering_formula_counterexample :
    synced10.firstMasterSync = false ∧ synced10.steering = FloatVal.finite 1 ∧
    synced10.masterDiff 3 = 3 ∧ (synced10.onMasterClock 2 3).2.catchupOffset = 1 ∧
    (synced10.onMasterClock 2 3).2.steering = FloatVal.finite (13981013 / 16777216) ∧
    (13981013 / 16777216 : ℚ) ≠
      1 / 2 * 1 + 1 / 2 * Min.min (Max.max (1 - (1 : ℚ) / 3) (1 / 2)) (3 / 2) ∧
    synced10.masterDiff 67108864 = 67108864 ∧
    (synced10.onMasterClock 67108863 67108864).2.catchupOffset = 1 ∧
    curSteering 1 67108864 = FloatVal.finite 1 ∧
    (synced10.onMasterClock 67108863 67108864).2.steering = FloatVal.finite 1 ∧
    (synced10.onMasterClock 67108863 67108864).1 = 10 := by
  refine ⟨rfl, rfl, by decide, by decide, by rw [synced10_beat_third], ?_, by decide, by decide,
    curSteering_one_pow26, by rw [synced10_beat_pow26], by rw [synced10_beat_pow26]⟩
  norm_num [max_def, min_def]

/-- C14 amended, evaluated on the sample controller (steering 1.25, offset 7):
the beat (43, 58) gives `c' = 12` and `masterDiff = 8`, no operation rounds,
the instantaneous steering `1 - 12/8` is clamped to 0.5, and the new steering
is `0.5 * 1.25 + 0.5 * 0.5 = 0.875`. -/
theorem onMasterClock_steering_rounded_witness :
    sample.firstMasterSync = false ∧ sample.steering = FloatVal.finite (5 / 4) ∧
    sample.masterDiff 58 ≠ 0 ∧
    (sample.onMasterClock 43 58).2.catchupOffset = 12 ∧ sample.masterDiff 58 = 8 ∧
    curSteering 12 8 = FloatVal.finite (1 / 2) ∧
    (sample.onMasterClock 43 58).2.steering = FloatVal.finite (7 / 8) := by
  obtain ⟨x, hx, -, -, -, hexact, -, hround, -, -, -⟩ :=
    onMasterClock_steering_rounded sample 43 58 (5 / 4) rfl rfl (by decide)
  have h12 : (sample.onMasterClock 43 58).2.catchupOffset = 12 := by decide
  have h8 : sample.masterDiff 58 = 8 := by decide
  rw [h12, h8] at hx hexact
  have hq : FloatVal.roundFloat (((12 : Int) : ℚ) / ((8 : Int) : ℚ)) =
      FloatVal.finite (((12 : Int) : ℚ) / ((8 : Int) : ℚ)) := by
    have := FloatVal.roundFloat_div_pow 3 1 (by norm_num) (by norm_num)
    norm_num at this ⊢
    exact this
  have ht : FloatVal.roundFloat (1 - ((12 : Int) : ℚ) / ((8 : Int) : ℚ)) =
      FloatVal.finite (1 - ((12 : Int) : ℚ) / ((8 : Int) : ℚ)) := by
    have := FloatVal.roundFloat_div_pow (-1) 1 (by norm_num) (by norm_num)
    norm_num at this ⊢
    exact this
  have hxv : x = 1 / 2 := by
    rw [hexact (by norm_num) (by norm_num) hq ht]
    norm_num [max_def, min_def]
  have h58 : FloatVal.roundFloat (5 / 4) = FloatVal.finite (5 / 4) := by
    have := FloatVal.roundFloat_div_pow 5 2 (by norm_num) (by norm_num)
    norm_num at this ⊢
    exact this
  have h78 : FloatVal.roundFloat (1 / 2 * (5 / 4) + 1 / 2 * (1 / 2)) = FloatVal.finite (7 / 8) := by
    have := FloatVal.roundFloat_div_pow 7 3 (by norm_num) (by norm_num)
    norm_num at this ⊢
    exact this
  refine ⟨rfl, rfl, by decide, h12, h8, ?_, ?_⟩
  · rw [hx, hxv]
  · rw [hround h58 (by norm_num), hxv, h78]

/-- The interval returned by a beat in a synced state is the conversion to
`uint32_t` of the `float` product of the base interval and the new steering. -/
theorem onMasterClock_interval (c : ClockCatchUp) (l m : Nat)
    (hs : c.firstMasterSync = false) :
    (c.onMasterClock l m).1 =
      FloatVal.toUInt32 (FloatVal.mul (FloatVal.ofInt c.constBaseInt)
        (c.onMasterClock l m).2.steering) := by
  simp [onMasterClock, hs]

/-- The clamped instantaneous steering for the offset 2 and the master
difference 2: `1 - 2/2 = 0` is clamped to 0.5. -/
theorem curSteering_two_two : curSteering 2 2 = FloatVal.finite (1 / 2) := by
  have h := FloatVal.curSteering_eval 2 2 2 2 1 0 0
    (by simpa using FloatVal.roundFloat_int 2 (by norm_num))
    (by simpa using FloatVal.roundFloat_int 2 (by norm_num)) (by norm_num)
    (by norm_num; exact FloatVal.roundFloat_one)
    (by norm_num; exact FloatVal.roundTo_zero _ _ _)
    FloatVal.roundFloat_zero
  rw [h]
  norm_num [max_def, min_def]

/-- The beat (0, 2) in the state `synced10`: the offset becomes 2, the steering
0.75, and the interval returned is 7. -/
theorem synced10_beat :
    synced10.onMasterClock 0 2 =
      (7, { constBaseInt := 10, firstMasterSync := false, stepsSyncLast := 0,
            stepsSyncMasterLast := 2, catchupOffset := 2,
            steering := FloatVal.finite (3 / 4) }) := by
  apply onMasterClock_eval synced10 0 2 2 2 1 (1 / 2) (3 / 4) 7 rfl rfl
    (by decide) (by decide) curSteering_two_two
  · apply FloatVal.smoothing_eval 1 _ (1 / 2) (1 / 4)
    · norm_num
      exact FloatVal.roundFloat_one_half
    · norm_num
      exact FloatVal.roundFloat_quarter
    · norm_num
      exact FloatVal.roundFloat_three_quarters
  · apply FloatVal.interval_eval 10 _ 10 (15 / 2) 7
    · simpa using FloatVal.roundFloat_int 10 (by norm_num)
    · have := FloatVal.roundFloat_div_pow 15 1 (by norm_num) (by norm_num)
      norm_num at this ⊢
      exact this
    · norm_num
    · norm_num
    · rw [Int.floor_eq_iff]
      norm_num

/-- The clamped instantaneous steering for the offset 0 and the master
difference 1. -/
theorem curSteering_zero_one : curSteering 0 1 = FloatVal.finite 1 := by
  have h := FloatVal.curSteering_eval 0 1 0 1 0 1 1
    (by simpa using FloatVal.roundFloat_zero)
    (by simpa using FloatVal.roundFloat_one) (by norm_num)
    (by norm_num; exact FloatVal.roundFloat_zero)
    (by norm_num; exact FloatVal.roundDouble_one)
    FloatVal.roundFloat_one
  rw [h]
  norm_num [max_def, min_def]

/-- The conversion of `2^24 + 1` to `float` gives `2^24`. -/
theorem roundFloat_pow24_succ :
    FloatVal.roundFloat (16777217 : ℚ) = FloatVal.finite 16777216 := by
  apply FloatVal.roundFloat_eval 16777217 24 8388608
  · norm_num [abs_of_pos]
  · norm_num [abs_of_pos]
  · norm_num
  · rw [FloatVal.roundHalfEven_tie _ 8388608 (by norm_num)]
    norm_num
  · norm_num
  · norm_num [abs_of_pos]

/-- The beat (1, 1) in the synced state with base interval `2^24 + 1`: the
steering stays 1.0, and the interval returned is `2^24`. -/
theorem syncedBase_beat :
    (syncedBase 16777217).onMasterClock 1 1 =
      (16777216, { constBaseInt := 16777217, firstMasterSync := false, stepsSyncLast := 1,
                   stepsSyncMasterLast := 1, catchupOffset := 0,
                   steering := FloatVal.finite 1 }) := by
  apply onMasterClock_eval (syncedBase 16777217) 1 1 0 1 1 1 1 16777216 rfl rfl
    (by decide) (by decide) curSteering_zero_one smoothing_one_one
  apply FloatVal.interval_eval 16777217 1 16777216 16777216 16777216
  · exact_mod_cast roundFloat_pow24_succ
  · have := FloatVal.roundFloat_two_zpow 24 (by norm_num) (by norm_num)
    norm_num at this ⊢
    exact this
  · norm_num
  · norm_num
  · exact_mod_cast Int.floor_natCast (α := ℚ) 16777216

/-- C15 fails: in the synced state `synced10` (base interval 10, steering 1.0)
the beat (0, 2) gives the new steering 0.75 and returns the interval 7, while
the product 7.5 rounded to the nearest integer is 8.  In the synced state with
base interval `2^24 + 1` and steering 1.0 the beat (1, 1) leaves the steering
1.0 and returns `2^24`, not the base interval. -/
theorem onMasterClock_interval_counterexample :
    synced10.firstMasterSync = false ∧
    (synced10.onMasterClock 0 2).2.steering = FloatVal.finite (3 / 4) ∧
    (synced10.onMasterClock 0 2).1 = 7 ∧
    round ((10 : ℚ) * (3 / 4)) = 8 ∧
    (syncedBase 16777217).firstMasterSync = false ∧
    (syncedBase 16777217).constBaseInt = 16777217 ∧
    ((syncedBase 16777217).onMasterClock 1 1).2.steering = FloatVal.finite 1 ∧
    ((syncedBase 16777217).onMasterClock 1 1).1 = 16777216 := by
  refine ⟨rfl, ?_, ?_, ?_, rfl, rfl, ?_, ?_⟩
  · rw [synced10_beat]
  · rw [synced10_beat]
  · rw [round_eq]
    norm_num [Int.floor_eq_iff]
  · rw [syncedBase_beat]
  · rw [syncedBase_beat]

/-- C15, amended: for a beat in a synced state that leaves a finite steering
`q`, the interval returned is the conversion to `uint32_t` of the `float`
product of the base interval, converted to `float`, and `q`: the integer part
of the rounded product `r`, whenever `r` is in the range of `uint32_t`.  A base
interval below `2^24` is converted exactly, and with `q = 1` the interval is
the base interval for every base interval that is converted exactly. -/
theorem onMasterClock_interval_truncated (c : ClockCatchUp) (l m : Nat) (q : ℚ)
    (hs : c.firstMasterSync = false)
    (hq : (c.onMasterClock l m).2.steering = FloatVal.finite q) :
    (c.onMasterClock l m).1 =
      FloatVal.toUInt32 (FloatVal.mul (FloatVal.ofInt c.constBaseInt) (FloatVal.finite q)) ∧
    (∀ b r : ℚ, FloatVal.ofInt c.constBaseInt = FloatVal.finite b →
      FloatVal.roundFloat (b * q) = FloatVal.finite r → 0 ≤ r → r < 2 ^ 32 →
      (((c.onMasterClock l m).1 : Nat) : Int) = ⌊r⌋) ∧
    (c.constBaseInt < 2 ^ 24 →
      FloatVal.ofInt c.constBaseInt = FloatVal.finite c.constBaseInt) ∧
    (q = 1 → FloatVal.ofInt c.constBaseInt = FloatVal.finite c.constBaseInt →
      c.constBaseInt < 2 ^ 32 → (c.onMasterClock l m).1 = c.constBaseInt) := by
  have hint := onMasterClock_interval c l m hs
  rw [hq] at hint
  refine ⟨hint, ?_, FloatVal.ofInt_base c.constBaseInt, ?_⟩
  · intro b r hb hr h0 h1
    rw [hint, hb, FloatVal.mul_finite, hr]
    exact FloatVal.toUInt32_finite r h0 h1
  · intro h1 hbase hb
    have hrep : FloatVal.roundFloat ((c.constBaseInt : ℚ) * q) =
        FloatVal.finite (c.constBaseInt : ℚ) := by
      rw [h1, mul_one]
      unfold FloatVal.ofInt at hbase
      exact_mod_cast hbase
    have hlt : (c.constBaseInt : ℚ) < 2 ^ 32 := by
      have : ((c.constBaseInt : Nat) : ℚ) < ((2 ^ 32 : Nat) : ℚ) := by exact_mod_cast hb
      push_cast at this
      exact this
    have := FloatVal.toUInt32_finite (c.constBaseInt : ℚ) (Nat.cast_nonneg _) hlt
    rw [hint, hbase, FloatVal.mul_finite, hrep]
    have hfl : ⌊(c.constBaseInt : ℚ)⌋ = (c.constBaseInt : Int) := by
      exact_mod_cast Int.floor_natCast (α := ℚ) c.constBaseInt
    rw [hfl] at this
    exact_mod_cast this

/-- C15 amended, evaluated: in `synced10` the beat (0, 2) leaves the steering
0.75; the base interval 10 is converted exactly, the product 7.5 is a `float`,
and the interval returned is its integer part 7. -/
theorem onMasterClock_interval_truncated_witness :
    synced10.firstMasterSync = false ∧
    (synced10.onMasterClock 0 2).2.steering = FloatVal.finite (3 / 4) ∧
    FloatVal.ofInt synced10.constBaseInt = FloatVal.finite 10 ∧
    FloatVal.roundFloat (10 * (3 / 4)) = FloatVal.finite (15 / 2) ∧
    (((synced10.onMasterClock 0 2).1 : Nat) : Int) = ⌊(15 / 2 : ℚ)⌋ ∧
    (synced10.onMasterClock 0 2).1 = 7 := by
  have hb : FloatVal.ofInt synced10.constBaseInt = FloatVal.finite 10 := by
    have := FloatVal.ofInt_base 10 (by norm_num)
    exact_mod_cast this
  have hr : FloatVal.roundFloat (10 * (3 / 4)) = FloatVal.finite (15 / 2) := by
    have := FloatVal.roundFloat_div_pow 15 1 (by norm_num) (by norm_num)
    norm_num at this ⊢
    exact this
  exact ⟨rfl, by rw [synced10_beat], hb, hr,
    (onMasterClock_interval_truncated synced10 0 2 (3 / 4) rfl (by rw [synced10_beat])).2.1
      10 (15 / 2) hb hr (by norm_num) (by norm_num),
    by rw [synced10_beat]⟩

end ClockCatchUp

/-! ### Beats without drift -/

namespace ClockCatchUp

/-- One beat without drift in a synced state with offset 0 and finite steering
`s`: the offset stays 0, the instantaneous steering is 1.0, and the steering
becomes `0.5f * s + 0.5f * 1.0f`. -/
theorem onMasterClock_zero_drift (c : ClockCatchUp) (l m : Nat) (s : ℚ)
    (hs : c.firstMasterSync = false) (hoff : c.catchupOffset = 0)
    (hsteer : c.steering = FloatVal.finite s)
    (heq : c.masterDiff m = c.diff l) (hmd : c.masterDiff m ≠ 0) :
    (c.onMasterClock l m).2.firstMasterSync = false ∧
    (c.onMasterClock l m).2.catchupOffset = 0 ∧
    (c.onMasterClock l m).2.steering =
      FloatVal.add (FloatVal.mul (FloatVal.finite (1 / 2)) (FloatVal.finite s))
        (FloatVal.mul (FloatVal.finite (1 / 2)) (FloatVal.finite 1)) ∧
    (c.onMasterClock l m).2.constBaseInt = c.constBaseInt := by
  have hstep := onMasterClock_synced c l m hs
  have h0 : toInt32 (c.catchupOffset + toInt32 (c.masterDiff m - c.diff l)) = 0 := by
    rw [hoff, heq, sub_self]
    decide
  have hmdr : -2 ^ 31 ≤ c.masterDiff m ∧ c.masterDiff m < 2 ^ 31 := toInt32_range _
  obtain ⟨x, hx, -, -, -, -, -, hx0⟩ :=
    curSteering_finite 0 (c.masterDiff m) (by norm_num) (by norm_num) hmdr.1 hmdr.2 hmd
  rw [hx0 rfl] at hx
  rw [h0, hx, hsteer] at hstep
  rw [hstep]
  exact ⟨rfl, rfl, rfl, rfl⟩

/-- A stream of beats without drift, from a synced state with offset 0 and a
steering `s` that is a `float` of [0.5, 1.5]: the offset stays 0 and the
steering stays a `float` between `s` and 1. -/
theorem run_zero_drift (beats : List (Nat × Nat)) :
    ∀ (c : ClockCatchUp) (s : ℚ), c.firstMasterSync = false → c.catchupOffset = 0 →
      c.steering = FloatVal.finite s → FloatVal.roundFloat s = FloatVal.finite s →
      1 / 2 ≤ s → s ≤ 3 / 2 → ZeroDrift c beats →
      (c.run beats).firstMasterSync = false ∧ (c.run beats).catchupOffset = 0 ∧
      ∃ q : ℚ, (c.run beats).steering = FloatVal.finite q ∧
        FloatVal.roundFloat q = FloatVal.finite q ∧ Min.min s 1 ≤ q ∧ q ≤ Max.max s 1 := by
  induction beats with
  | nil =>
    intro c s hs hoff hsteer hrep _ _ _
    exact ⟨hs, hoff, s, hsteer, hrep, min_le_left _ _, le_max_left _ _⟩
  | cons beat rest ih =>
    intro c s hs hoff hsteer hrep hlo hhi hz
    obtain ⟨heq, hmd, hrest⟩ := hz
    obtain ⟨h1, h2, h3, -⟩ := onMasterClock_zero_drift c beat.1 beat.2 s hs hoff hsteer heq hmd
    rw [FloatVal.smoothing_exact s 1 hrep hlo FloatVal.roundFloat_one (by norm_num)] at h3
    have hminrep : FloatVal.roundFloat (Min.min s 1) = FloatVal.finite (Min.min s 1) := by
      rcases min_choice s 1 with h | h <;> rw [h]
      · exact hrep
      · exact FloatVal.roundFloat_one
    have hmaxrep : FloatVal.roundFloat (Max.max s 1) = FloatVal.finite (Max.max s 1) := by
      rcases max_choice s 1 with h | h <;> rw [h]
      · exact hrep
      · exact FloatVal.roundFloat_one
    have hmin1 : Min.min s 1 ≤ 1 / 2 * s + 1 / 2 * 1 := by
      rcases le_total s 1 with h | h
      · rw [min_eq_left h]
        linarith
      · rw [min_eq_right h]
        linarith
    have hmax1 : 1 / 2 * s + 1 / 2 * 1 ≤ Max.max s 1 := by
      rcases le_total s 1 with h | h
      · rw [max_eq_right h]
        linarith
      · rw [max_eq_left h]
        linarith
    obtain ⟨r, hr, hr1, hr2⟩ := FloatVal.roundFloat_between _ _ _ hminrep hmaxrep hmin1 hmax1
    rw [hr] at h3
    have hrlo : 1 / 2 ≤ r := le_trans (le_min hlo (by norm_num)) hr1
    have hrhi : r ≤ 3 / 2 := le_trans hr2 (max_le hhi (by norm_num))
    obtain ⟨r1, r2, q, hq, hqrep, hq1, hq2⟩ :=
      ih _ r h1 h2 h3 (FloatVal.roundFloat_idem _ _ hr) hrlo hrhi hrest
    refine ⟨r1, r2, q, hq, hqrep, ?_, ?_⟩
    · exact le_trans (le_min hr1 (min_le_right _ _)) hq1
    · exact le_trans hq2 (max_le hr2 (le_max_right _ _))

/-- A stream of `n` beats without drift, from a synced state with offset 0 and
steering `s >= 0.5`: the steering becomes `1 + (s - 1) / 2^n` when this number
is a `float` for each of the beats. -/
theorem run_zero_drift_exact (beats : List (Nat × Nat)) :
    ∀ (c : ClockCatchUp) (s : ℚ), c.firstMasterSync = false → c.catchupOffset = 0 →
      c.steering = FloatVal.finite s → 1 / 2 ≤ s →
      (∀ j : Nat, j ≤ beats.length →
        FloatVal.roundFloat (1 + (s - 1) / 2 ^ j) = FloatVal.finite (1 + (s - 1) / 2 ^ j)) →
      ZeroDrift c beats →
      (c.run beats).steering = FloatVal.finite (1 + (s - 1) / 2 ^ beats.length) := by
  induction beats with
  | nil =>
    intro c s _ _ hsteer _ _ _
    simp [run, hsteer]
  | cons beat rest ih =>
    intro c s hs hoff hsteer hlo hrep hz
    obtain ⟨heq, hmd, hrest⟩ := hz
    obtain ⟨h1, h2, h3, -⟩ := onMasterClock_zero_drift c beat.1 beat.2 s hs hoff hsteer heq hmd
    have hs0 : FloatVal.roundFloat s = FloatVal.finite s := by
      have := hrep 0 (Nat.zero_le _)
      simpa using this
    have hs1 : FloatVal.roundFloat (1 / 2 * s + 1 / 2 * 1) =
        FloatVal.finite (1 + (s - 1) / 2) := by
      have := hrep 1 (by simp)
      rw [pow_one] at this
      rw [show (1 / 2 * s + 1 / 2 * 1 : ℚ) = 1 + (s - 1) / 2 by ring]
      exact this
    rw [FloatVal.smoothing_exact s 1 hs0 hlo FloatVal.roundFloat_one (by norm_num), hs1] at h3
    have hshift : ∀ j : Nat, (1 : ℚ) + ((1 + (s - 1) / 2) - 1) / 2 ^ j = 1 + (s - 1) / 2 ^ (j + 1) := by
      intro j
      rw [pow_succ]
      field_simp
      ring
    have := ih _ (1 + (s - 1) / 2) h1 h2 h3 (by linarith)
      (by
        intro j hj
        rw [hshift]
        exact hrep (j + 1) (by simpa using hj))
      hrest
    simp only [run]
    rw [this, hshift]
    rfl

end ClockCatchUp

namespace FloatVal

theorem halveUlps_mono : Monotone halveUlps := by
  intro a b h
  unfold halveUlps
  split_ifs <;> omega

theorem halveUlps_le (k : Nat) : halveUlps k ≤ k := by
  unfold halveUlps
  split_ifs <;> omega

theorem halveUlps_iterate_zero (n : Nat) : halveUlps^[n] 0 = 0 := by
  induction n with
  | zero => rfl
  | succ n ih =>
    rw [Function.iterate_succ_apply]
    exact ih

theorem halveUlps_iterate_pow (a : Nat) : halveUlps^[a + 1] (2 ^ a) = 0 := by
  induction a with
  | zero => rfl
  | succ a ih =>
    rw [Function.iterate_succ_apply]
    have h : halveUlps (2 ^ (a + 1)) = 2 ^ a := by
      have h1 : 1 ≤ 2 ^ a := Nat.one_le_two_pow
      unfold halveUlps
      rw [pow_succ]
      split_ifs <;> omega
    rw [h]
    exact ih

/-- The distance is 0 after `a + 1` beats when it is at most `2^a` at first. -/
theorem halveUlps_iterate_eq_zero (a n k : Nat) (hk : k ≤ 2 ^ a) (hn : a + 1 ≤ n) :
    halveUlps^[n] k = 0 := by
  obtain ⟨m, rfl⟩ : ∃ m, n = m + (a + 1) := ⟨n - (a + 1), by omega⟩
  have h1 : halveUlps^[m + (a + 1)] k ≤ halveUlps^[m + (a + 1)] (2 ^ a) :=
    (halveUlps_mono.iterate _) hk
  have hz : halveUlps^[m + (a + 1)] (2 ^ a) = 0 := by
    rw [Function.iterate_add_apply, halveUlps_iterate_pow, halveUlps_iterate_zero]
  omega

/-- The steering `1 + k / 2^23` after a beat without drift: the distance to 1.0
is halved, up to the rounding. -/
theorem up_step (k : Nat) (hk : k ≤ 2 ^ 22) :
    ∃ k2 : Nat, roundFloat (1 / 2 * (1 + (k : ℚ) / 2 ^ 23) + 1 / 2 * 1) =
      finite (1 + (k2 : ℚ) / 2 ^ 23) ∧ k2 ≤ halveUlps k := by
  have hkq : (k : ℚ) ≤ 2 ^ 22 := by exact_mod_cast hk
  have hk0 : (0 : ℚ) ≤ (k : ℚ) := Nat.cast_nonneg _
  rcases Nat.lt_or_ge k 2 with hlt | hge
  · interval_cases k
    · refine ⟨0, ?_, by decide⟩
      norm_num
      exact roundFloat_one
    · refine ⟨0, ?_, by decide⟩
      norm_num
      apply roundFloat_eval _ 0 8388608
      · norm_num [abs_of_pos]
      · norm_num [abs_of_pos]
      · norm_num
      · rw [roundHalfEven_tie _ 8388608 (by norm_num)]
        norm_num
      · norm_num
      · norm_num [abs_of_pos]
  · have hy1 : (1 : ℚ) ≤ 1 / 2 * (1 + (k : ℚ) / 2 ^ 23) + 1 / 2 * 1 := by
      have : (0 : ℚ) ≤ (k : ℚ) / 2 ^ 23 := div_nonneg hk0 (by norm_num)
      linarith
    have hy2 : 1 / 2 * (1 + (k : ℚ) / 2 ^ 23) + 1 / 2 * 1 ≤ 5 / 4 := by
      have : (k : ℚ) / 2 ^ 23 ≤ 1 / 2 := by
        rw [div_le_iff₀ (by norm_num)]
        linarith
      linarith
    have hx : (1 / 2 * (1 + (k : ℚ) / 2 ^ 23) + 1 / 2 * 1) / 2 ^ ((0 : Int) - 23) =
        2 ^ 23 + (k : ℚ) / 2 := by
      rw [show ((0 : Int) - 23) = -23 by norm_num, zpow_neg, div_inv_eq_mul]
      norm_num
      ring
    have hn1 : (2 ^ 23 : Int) ≤
        roundHalfEven ((1 / 2 * (1 + (k : ℚ) / 2 ^ 23) + 1 / 2 * 1) / 2 ^ ((0 : Int) - 23)) := by
      apply roundHalfEven_ge
      rw [hx]
      push_cast
      linarith
    obtain ⟨h, hh1, hh2⟩ : ∃ h : Nat, k ≤ 2 * h ∧ 2 * h ≤ k + 1 := ⟨(k + 1) / 2, by omega, by omega⟩
    have hn2 : roundHalfEven ((1 / 2 * (1 + (k : ℚ) / 2 ^ 23) + 1 / 2 * 1) / 2 ^ ((0 : Int) - 23))
        ≤ 2 ^ 23 + (h : Int) := by
      apply roundHalfEven_le
      rw [hx]
      have h3 : (k : ℚ) ≤ 2 * (h : ℚ) := by exact_mod_cast hh1
      push_cast
      linarith
    obtain ⟨n, hn⟩ : ∃ n : Int, roundHalfEven
        ((1 / 2 * (1 + (k : ℚ) / 2 ^ 23) + 1 / 2 * 1) / 2 ^ ((0 : Int) - 23)) = n := ⟨_, rfl⟩
    rw [hn] at hn1 hn2
    refine ⟨(n - 2 ^ 23).toNat, ?_, ?_⟩
    · have hcast : (((n - 2 ^ 23).toNat : Nat) : ℚ) = (n : ℚ) - 2 ^ 23 := by
        have : (((n - 2 ^ 23).toNat : Nat) : Int) = n - 2 ^ 23 := Int.toNat_of_nonneg (by omega)
        have h2 : ((((n - 2 ^ 23).toNat : Nat) : Int) : ℚ) = ((n - 2 ^ 23 : Int) : ℚ) := by
          rw [this]
        push_cast at h2
        exact h2
      have hnq : (n : ℚ) ≤ 2 ^ 23 + 2 ^ 22 := by
        have : n ≤ 2 ^ 23 + 2 ^ 22 := by omega
        exact_mod_cast this
      have hnq1 : (2 ^ 23 : ℚ) ≤ (n : ℚ) := by exact_mod_cast hn1
      apply roundFloat_eval _ 0 n _ _ _ (by norm_num) hn
      · rw [hcast, show ((0 : Int) - 23) = -23 by norm_num, zpow_neg]
        norm_num
        ring
      · rw [hcast, abs_of_nonneg (by
          have : (0 : ℚ) ≤ ((n : ℚ) - 2 ^ 23) / 2 ^ 23 := div_nonneg (by linarith) (by norm_num)
          linarith)]
        have : ((n : ℚ) - 2 ^ 23) / 2 ^ 23 ≤ 1 := by
          rw [div_le_one (by norm_num)]
          linarith
        have h128 : (2 : ℚ) ≤ 2 ^ (128 : Int) := by
          have := two_zpow_mono (a := 1) (b := 128) (by norm_num)
          simpa using this
        linarith
      · rw [abs_of_pos (by linarith)]
        simpa using hy1
      · rw [abs_of_pos (by linarith)]
        norm_num
        linarith
    · unfold halveUlps
      rw [if_neg (by omega)]
      omega

/-- The steering `1 - j / 2^24` after a beat without drift: the distance to 1.0
is halved, up to the rounding. -/
theorem down_step (j : Nat) (hj : j ≤ 2 ^ 23) :
    ∃ j2 : Nat, roundFloat (1 / 2 * (1 - (j : ℚ) / 2 ^ 24) + 1 / 2 * 1) =
      finite (1 - (j2 : ℚ) / 2 ^ 24) ∧ j2 ≤ halveUlps j := by
  have hjq : (j : ℚ) ≤ 2 ^ 23 := by exact_mod_cast hj
  have hj0 : (0 : ℚ) ≤ (j : ℚ) := Nat.cast_nonneg _
  rcases Nat.lt_or_ge j 2 with hlt | hge
  · interval_cases j
    · refine ⟨0, ?_, by decide⟩
      norm_num
      exact roundFloat_one
    · refine ⟨0, ?_, by decide⟩
      norm_num
      apply roundFloat_eval _ (-1) 16777216
      · norm_num [abs_of_pos]
      · norm_num [abs_of_pos]
      · norm_num
      · rw [roundHalfEven_tie _ 16777215 (by norm_num)]
        norm_num
      · norm_num
      · norm_num [abs_of_pos]
  · have hge2 : (2 : ℚ) ≤ (j : ℚ) := by exact_mod_cast hge
    have hy1 : (3 / 4 : ℚ) ≤ 1 / 2 * (1 - (j : ℚ) / 2 ^ 24) + 1 / 2 * 1 := by
      have : (j : ℚ) / 2 ^ 24 ≤ 1 / 2 := by
        rw [div_le_iff₀ (by norm_num)]
        linarith
      linarith
    have hy2 : 1 / 2 * (1 - (j : ℚ) / 2 ^ 24) + 1 / 2 * 1 < 1 := by
      have : (0 : ℚ) < (j : ℚ) / 2 ^ 24 := div_pos (by linarith) (by norm_num)
      linarith
    have hx : (1 / 2 * (1 - (j : ℚ) / 2 ^ 24) + 1 / 2 * 1) / 2 ^ ((-1 : Int) - 23) =
        2 ^ 24 - (j : ℚ) / 2 := by
      rw [show ((-1 : Int) - 23) = -24 by norm_num, zpow_neg, div_inv_eq_mul]
      norm_num
      ring
    obtain ⟨h, hh1, hh2⟩ : ∃ h : Nat, j ≤ 2 * h ∧ 2 * h ≤ j + 1 := ⟨(j + 1) / 2, by omega, by omega⟩
    have hn1 : roundHalfEven ((1 / 2 * (1 - (j : ℚ) / 2 ^ 24) + 1 / 2 * 1) / 2 ^ ((-1 : Int) - 23))
        ≤ (2 ^ 24 : Int) := by
      apply roundHalfEven_le
      rw [hx]
      push_cast
      linarith
    have hn2 : (2 ^ 24 - (h : Int)) ≤
        roundHalfEven ((1 / 2 * (1 - (j : ℚ) / 2 ^ 24) + 1 / 2 * 1) / 2 ^ ((-1 : Int) - 23)) := by
      apply roundHalfEven_ge
      rw [hx]
      have h3 : (j : ℚ) ≤ 2 * (h : ℚ) := by exact_mod_cast hh1
      push_cast
      linarith
    obtain ⟨n, hn⟩ : ∃ n : Int, roundHalfEven
        ((1 / 2 * (1 - (j : ℚ) / 2 ^ 24) + 1 / 2 * 1) / 2 ^ ((-1 : Int) - 23)) = n := ⟨_, rfl⟩
    rw [hn] at hn1 hn2
    refine ⟨(2 ^ 24 - n).toNat, ?_, ?_⟩
    · have hcast : (((2 ^ 24 - n).toNat : Nat) : ℚ) = 2 ^ 24 - (n : ℚ) := by
        have : (((2 ^ 24 - n).toNat : Nat) : Int) = 2 ^ 24 - n := Int.toNat_of_nonneg (by omega)
        have h2 : ((((2 ^ 24 - n).toNat : Nat) : Int) : ℚ) = ((2 ^ 24 - n : Int) : ℚ) := by
          rw [this]
        push_cast at h2
        exact h2
      have hnq : (n : ℚ) ≤ 2 ^ 24 := by exact_mod_cast hn1
      have hnq1 : (2 ^ 23 : ℚ) ≤ (n : ℚ) := by
        have : 2 ^ 23 ≤ n := by omega
        exact_mod_cast this
      apply roundFloat_eval _ (-1) n _ _ _ (by norm_num) hn
      · rw [hcast, show ((-1 : Int) - 23) = -24 by norm_num, zpow_neg]
        norm_num
        ring
      · rw [hcast, abs_of_nonneg (by
          have : (2 ^ 24 - (n : ℚ)) / 2 ^ 24 ≤ 1 := by
            rw [div_le_one (by norm_num)]
            linarith
          linarith)]
        have : (0 : ℚ) ≤ (2 ^ 24 - (n : ℚ)) / 2 ^ 24 := div_nonneg (by linarith) (by norm_num)
        have h128 : (2 : ℚ) ≤ 2 ^ (128 : Int) := by
          have := two_zpow_mono (a := 1) (b := 128) (by norm_num)
          simpa using this
        linarith
      · rw [abs_of_pos (by linarith)]
        norm_num
        linarith
      · rw [abs_of_pos (by linarith)]
        norm_num
        linarith
    · unfold halveUlps
      rw [if_neg (by omega)]
      omega

/-- A `float` of [1, 1.5] is `1 + k / 2^23` for a natural number `k <= 2^22`. -/
theorem float_above_one (s : ℚ) (hs : roundFloat s = finite s) (h1 : 1 ≤ s) (h2 : s ≤ 3 / 2) :
    ∃ k : Nat, k ≤ 2 ^ 22 ∧ s = 1 + (k : ℚ) / 2 ^ 23 := by
  obtain ⟨n, -, hn, -⟩ := rep_canon 24 (-126) 127 s hs
  have hpos : 0 < s := by linarith
  have hlog : Int.log 2 |s| = 0 := by
    rw [abs_of_pos hpos]
    apply le_antisymm
    · have := log_lt_of_lt s 1 hpos (by norm_num; linarith)
      omega
    · exact le_log_of_le s 0 hpos (by simpa using h1)
  have hulp : ulp 24 (-126) s = 1 / 2 ^ 23 := by
    unfold ulp expo
    rw [hlog]
    norm_num
  rw [hulp] at hn
  have hnq : (n : ℚ) = s * 2 ^ 23 := by
    rw [hn]
    field_simp
  have hn1 : (2 ^ 23 : Int) ≤ n := by
    have : ((2 ^ 23 : Int) : ℚ) ≤ (n : ℚ) := by
      rw [hnq]
      push_cast
      nlinarith
    exact_mod_cast this
  have hn2 : n ≤ 2 ^ 23 + 2 ^ 22 := by
    have : (n : ℚ) ≤ ((2 ^ 23 + 2 ^ 22 : Int) : ℚ) := by
      rw [hnq]
      push_cast
      nlinarith
    exact_mod_cast this
  refine ⟨(n - 2 ^ 23).toNat, by omega, ?_⟩
  have hcast : (((n - 2 ^ 23).toNat : Nat) : ℚ) = (n : ℚ) - 2 ^ 23 := by
    have : (((n - 2 ^ 23).toNat : Nat) : Int) = n - 2 ^ 23 := Int.toNat_of_nonneg (by omega)
    have h2 : ((((n - 2 ^ 23).toNat : Nat) : Int) : ℚ) = ((n - 2 ^ 23 : Int) : ℚ) := by
      rw [this]
    push_cast at h2
    exact h2
  rw [hcast, hnq]
  field_simp

/-- A `float` of [0.5, 1) is `1 - j / 2^24` for a natural number `j <= 2^23`. -/
theorem float_below_one (s : ℚ) (hs : roundFloat s = finite s) (h1 : 1 / 2 ≤ s) (h2 : s < 1) :
    ∃ j : Nat, j ≤ 2 ^ 23 ∧ s = 1 - (j : ℚ) / 2 ^ 24 := by
  obtain ⟨n, -, hn, -⟩ := rep_canon 24 (-126) 127 s hs
  have hpos : 0 < s := by linarith
  have hlog : Int.log 2 |s| = -1 := by
    rw [abs_of_pos hpos]
    apply le_antisymm
    · have := log_lt_of_lt s 0 hpos (by simpa using h2)
      omega
    · exact le_log_of_le s (-1) hpos (by norm_num; linarith)
  have hulp : ulp 24 (-126) s = 1 / 2 ^ 24 := by
    unfold ulp expo
    rw [hlog]
    norm_num
  rw [hulp] at hn
  have hnq : (n : ℚ) = s * 2 ^ 24 := by
    rw [hn]
    field_simp
  have hn1 : (2 ^ 23 : Int) ≤ n := by
    have : ((2 ^ 23 : Int) : ℚ) ≤ (n : ℚ) := by
      rw [hnq]
      push_cast
      nlinarith
    exact_mod_cast this
  have hn2 : n ≤ 2 ^ 24 := by
    have : (n : ℚ) ≤ ((2 ^ 24 : Int) : ℚ) := by
      rw [hnq]
      push_cast
      nlinarith
    exact_mod_cast this
  refine ⟨(2 ^ 24 - n).toNat, by omega, ?_⟩
  have hcast : (((2 ^ 24 - n).toNat : Nat) : ℚ) = 2 ^ 24 - (n : ℚ) := by
    have : (((2 ^ 24 - n).toNat : Nat) : Int) = 2 ^ 24 - n := Int.toNat_of_nonneg (by omega)
    have h2 : ((((2 ^ 24 - n).toNat : Nat) : Int) : ℚ) = ((2 ^ 24 - n : Int) : ℚ) := by
      rw [this]
    push_cast at h2
    exact h2
  rw [hcast, hnq]
  field_simp

end FloatVal

namespace ClockCatchUp

/-- A stream of beats without drift, from a synced state with offset 0 and the
steering `1 + k / 2^23`: the distance of the steering to 1.0 is halved on each
beat, up to the rounding. -/
theorem run_zero_drift_above (beats : List (Nat × Nat)) :
    ∀ (c : ClockCatchUp) (k : Nat), c.firstMasterSync = false → c.catchupOffset = 0 →
      c.steering = FloatVal.finite (1 + (k : ℚ) / 2 ^ 23) →
      FloatVal.roundFloat (1 + (k : ℚ) / 2 ^ 23) = FloatVal.finite (1 + (k : ℚ) / 2 ^ 23) →
      k ≤ 2 ^ 22 → ZeroDrift c beats →
      ∃ k2 : Nat, (c.run beats).steering = FloatVal.finite (1 + (k2 : ℚ) / 2 ^ 23) ∧
        k2 ≤ FloatVal.halveUlps^[beats.length] k := by
  induction beats with
  | nil =>
    intro c k _ _ hsteer _ _ _
    exact ⟨k, hsteer, le_rfl⟩
  | cons beat rest ih =>
    intro c k hs hoff hsteer hrep hk hz
    obtain ⟨heq, hmd, hrest⟩ := hz
    obtain ⟨h1, h2, h3, -⟩ := onMasterClock_zero_drift c beat.1 beat.2 _ hs hoff hsteer heq hmd
    have hlo : (1 / 2 : ℚ) ≤ 1 + (k : ℚ) / 2 ^ 23 := by
      have : (0 : ℚ) ≤ (k : ℚ) / 2 ^ 23 := div_nonneg (Nat.cast_nonneg _) (by norm_num)
      linarith
    rw [FloatVal.smoothing_exact _ 1 hrep hlo FloatVal.roundFloat_one (by norm_num)] at h3
    obtain ⟨k1, hk1, hk1le⟩ := FloatVal.up_step k hk
    rw [hk1] at h3
    obtain ⟨k2, hk2, hk2le⟩ := ih _ k1 h1 h2 h3 (FloatVal.roundFloat_idem _ _ hk1)
      (le_trans hk1le (le_trans (FloatVal.halveUlps_le k) hk)) hrest
    refine ⟨k2, hk2, le_trans hk2le ?_⟩
    rw [List.length_cons, Function.iterate_succ_apply]
    exact (FloatVal.halveUlps_mono.iterate _) hk1le

/-- A stream of beats without drift, from a synced state with offset 0 and the
steering `1 - j / 2^24`: the distance of the steering to 1.0 is halved on each
beat, up to the rounding. -/
theorem run_zero_drift_below (beats : List (Nat × Nat)) :
    ∀ (c : ClockCatchUp) (j : Nat), c.firstMasterSync = false → c.catchupOffset = 0 →
      c.steering = FloatVal.finite (1 - (j : ℚ) / 2 ^ 24) →
      FloatVal.roundFloat (1 - (j : ℚ) / 2 ^ 24) = FloatVal.finite (1 - (j : ℚ) / 2 ^ 24) →
      j ≤ 2 ^ 23 → ZeroDrift c beats →
      ∃ j2 : Nat, (c.run beats).steering = FloatVal.finite (1 - (j2 : ℚ) / 2 ^ 24) ∧
        j2 ≤ FloatVal.halveUlps^[beats.length] j := by
  induction beats with
  | nil =>
    intro c j _ _ hsteer _ _ _
    exact ⟨j, hsteer, le_rfl⟩
  | cons beat rest ih =>
    intro c j hs hoff hsteer hrep hj hz
    obtain ⟨heq, hmd, hrest⟩ := hz
    obtain ⟨h1, h2, h3, -⟩ := onMasterClock_zero_drift c beat.1 beat.2 _ hs hoff hsteer heq hmd
    have hlo : (1 / 2 : ℚ) ≤ 1 - (j : ℚ) / 2 ^ 24 := by
      have hjq : (j : ℚ) ≤ 2 ^ 23 := by exact_mod_cast hj
      have : (j : ℚ) / 2 ^ 24 ≤ 1 / 2 := by
        rw [div_le_iff₀ (by norm_num)]
        linarith
      linarith
    rw [FloatVal.smoothing_exact _ 1 hrep hlo FloatVal.roundFloat_one (by norm_num)] at h3
    obtain ⟨j1, hj1, hj1le⟩ := FloatVal.down_step j hj
    rw [hj1] at h3
    obtain ⟨j2, hj2, hj2le⟩ := ih _ j1 h1 h2 h3 (FloatVal.roundFloat_idem _ _ hj1)
      (le_trans hj1le (le_trans (FloatVal.halveUlps_le j) hj)) hrest
    refine ⟨j2, hj2, le_trans hj2le ?_⟩
    rw [List.length_cons, Function.iterate_succ_apply]
    exact (FloatVal.halveUlps_mono.iterate _) hj1le

/-- A stream of at least 24 beats without drift, from a synced state with
offset 0 and a steering that is a `float` of [0.5, 1.5], leaves the steering
exactly 1.0. -/
theorem run_zero_drift_settles (c : ClockCatchUp) (s : ℚ) (beats : List (Nat × Nat))
    (hs : c.firstMasterSync = false) (hoff : c.catchupOffset = 0)
    (hsteer : c.steering = FloatVal.finite s)
    (hfloat : FloatVal.roundFloat s = FloatVal.finite s) (hlo : 1 / 2 ≤ s) (hhi : s ≤ 3 / 2)
    (hz : ZeroDrift c beats) (hlen : 24 ≤ beats.length) :
    (c.run beats).steering = FloatVal.finite 1 := by
  rcases le_or_lt 1 s with h1 | h1
  · obtain ⟨k, hk, hsk⟩ := FloatVal.float_above_one s hfloat h1 hhi
    rw [hsk] at hsteer hfloat
    obtain ⟨k2, hk2, hk2le⟩ := run_zero_drift_above beats c k hs hoff hsteer hfloat hk hz
    rw [FloatVal.halveUlps_iterate_eq_zero 22 _ k hk (by omega)] at hk2le
    have : k2 = 0 := by omega
    rw [hk2, this]
    norm_num
  · obtain ⟨j, hj, hsj⟩ := FloatVal.float_below_one s hfloat hlo h1
    rw [hsj] at hsteer hfloat
    obtain ⟨j2, hj2, hj2le⟩ := run_zero_drift_below beats c j hs hoff hsteer hfloat hj hz
    rw [FloatVal.halveUlps_iterate_eq_zero 23 _ j hj (by omega)] at hj2le
    have : j2 = 0 := by omega
    rw [hj2, this]
    norm_num

end ClockCatchUp

namespace ClockCatchUp

/-- C16 fails: the synced state with offset 0 and steering `1 + 2^(-23)`, the
`float` next above 1.0, and the beat (5, 5), which is without drift.  The
steering on exit is exactly 1.0, not `1 + (s - 1) / 2 = 1 + 2^(-24)`. -/
theorem zero_drift_closed_form_counterexample :
    (syncedSteering (8388609 / 8388608)).firstMasterSync = false ∧
    (syncedSteering (8388609 / 8388608)).catchupOffset = 0 ∧
    (syncedSteering (8388609 / 8388608)).steering = FloatVal.finite (8388609 / 8388608) ∧
    FloatVal.roundFloat (8388609 / 8388608) = FloatVal.finite (8388609 / 8388608) ∧
    ZeroDrift (syncedSteering (8388609 / 8388608)) [(5, 5)] ∧
    ((syncedSteering (8388609 / 8388608)).run [(5, 5)]).steering = FloatVal.finite 1 ∧
    (1 : ℚ) ≠ 1 + ((8388609 / 8388608 : ℚ) - 1) / 2 ^ 1 := by
  have hrep : FloatVal.roundFloat (8388609 / 8388608) = FloatVal.finite (8388609 / 8388608) := by
    have := FloatVal.roundFloat_div_pow 8388609 23 (by norm_num) (by norm_num)
    norm_num at this ⊢
    exact this
  have hz : ZeroDrift (syncedSteering (8388609 / 8388608)) [(5, 5)] :=
    ⟨by decide, by decide, trivial⟩
  refine ⟨rfl, rfl, rfl, hrep, hz, ?_, by norm_num⟩
  have h := (onMasterClock_zero_drift (syncedSteering (8388609 / 8388608)) 5 5
    (8388609 / 8388608) rfl rfl rfl (by decide) (by decide)).2.2.1
  rw [FloatVal.smoothing_exact _ 1 hrep (by norm_num) FloatVal.roundFloat_one (by norm_num)] at h
  simp only [run]
  rw [h]
  apply FloatVal.roundFloat_eval _ 0 8388608
  · norm_num [abs_of_pos]
  · norm_num [abs_of_pos]
  · norm_num
  · rw [FloatVal.roundHalfEven_tie _ 8388608 (by norm_num)]
    norm_num
  · norm_num
  · norm_num [abs_of_pos]

/-- C16, amended: from a synced state with cumulative offset 0 and a steering
`s` that is a `float` of [0.5, 1.5], after `n` beats without drift
(`masterDiff = diff`, `masterDiff != 0` on every beat) the cumulative offset is
still 0 and the steering is a `float` between `s` and 1: each beat replaces the
steering by `0.5 * s + 0.5` rounded to `float`.  The steering is
`1 + (s - 1) / 2^n` when this number is a `float` for each of the beats, and it
is exactly 1.0 after 24 beats or more.  Starting from `reset()`, after a first
beat and any number of beats without drift the offset is 0 and the steering is
exactly 1.0. -/
theorem zero_drift_steering_rounded (c : ClockCatchUp) (s : ℚ) (beats : List (Nat × Nat))
    (hs : c.firstMasterSync = false) (hoff : c.catchupOffset = 0)
    (hsteer : c.steering = FloatVal.finite s)
    (hfloat : FloatVal.roundFloat s = FloatVal.finite s) (hlo : 1 / 2 ≤ s) (hhi : s ≤ 3 / 2)
    (hz : ZeroDrift c beats) :
    (c.run beats).catchupOffset = 0 ∧
    (∃ q : ℚ, (c.run beats).steering = FloatVal.finite q ∧
      FloatVal.roundFloat q = FloatVal.finite q ∧ Min.min s 1 ≤ q ∧ q ≤ Max.max s 1) ∧
    (∀ (l m : Nat), c.masterDiff m = c.diff l → c.masterDiff m ≠ 0 →
      (c.onMasterClock l m).2.steering = FloatVal.roundFloat (1 / 2 * s + 1 / 2)) ∧
    ((∀ j : Nat, j ≤ beats.length →
        FloatVal.roundFloat (1 + (s - 1) / 2 ^ j) = FloatVal.finite (1 + (s - 1) / 2 ^ j)) →
      (c.run beats).steering = FloatVal.finite (1 + (s - 1) / 2 ^ beats.length)) ∧
    (24 ≤ beats.length → (c.run beats).steering = FloatVal.finite 1) ∧
    (∀ (u : ClockCatchUp) (first : Nat × Nat) (rest : List (Nat × Nat)),
      ZeroDrift (u.reset.2.onMasterClock first.1 first.2).2 rest →
      (u.reset.2.run (first :: rest)).catchupOffset = 0 ∧
      (u.reset.2.run (first :: rest)).steering = FloatVal.finite 1) := by
  obtain ⟨-, r2, r3⟩ := run_zero_drift beats c s hs hoff hsteer hfloat hlo hhi hz
  refine ⟨r2, r3, ?_, ?_, run_zero_drift_settles c s beats hs hoff hsteer hfloat hlo hhi hz, ?_⟩
  · intro l m heq hmd
    rw [(onMasterClock_zero_drift c l m s hs hoff hsteer heq hmd).2.2.1,
      FloatVal.smoothing_exact s 1 hfloat hlo FloatVal.roundFloat_one (by norm_num), mul_one]
  · intro hrep
    exact run_zero_drift_exact beats c s hs hoff hsteer hlo hrep hz
  · intro u first rest hrest
    have hfirst := (reset_first u first.1 first.2)
    obtain ⟨-, q2, q, hq, -, hq1, hq2⟩ :=
      run_zero_drift rest (u.reset.2.onMasterClock first.1 first.2).2 1
        (by rw [hfirst]) (by rw [hfirst]) (by rw [hfirst]) FloatVal.roundFloat_one
        (by norm_num) (by norm_num) hrest
    simp only [run]
    refine ⟨q2, ?_⟩
    rw [hq]
    congr 1
    rw [min_self] at hq1
    rw [max_self] at hq2
    exact le_antisymm hq2 hq1

/-- C16 amended, evaluated: from the synced state with offset 0 and steering
1.5, the two beats (5, 5) and (9, 9) are without drift; 1.5, 1.25 and 1.125 are
`float`s, and the beats leave the offset 0 and the steering
`1 + 0.5 / 4 = 1.125`. -/
theorem zero_drift_steering_rounded_witness :
    (syncedSteering (3 / 2)).firstMasterSync = false ∧
    (syncedSteering (3 / 2)).catchupOffset = 0 ∧
    FloatVal.roundFloat (3 / 2) = FloatVal.finite (3 / 2) ∧
    ZeroDrift (syncedSteering (3 / 2)) [(5, 5), (9, 9)] ∧
    ((syncedSteering (3 / 2)).run [(5, 5), (9, 9)]).catchupOffset = 0 ∧
    ((syncedSteering (3 / 2)).run [(5, 5), (9, 9)]).steering = FloatVal.finite (9 / 8) := by
  have hz : ZeroDrift (syncedSteering (3 / 2)) [(5, 5), (9, 9)] :=
    ⟨by decide, by decide, by decide, by decide, trivial⟩
  have h := zero_drift_steering_rounded (syncedSteering (3 / 2)) (3 / 2) [(5, 5), (9, 9)]
    rfl rfl rfl FloatVal.roundFloat_three_halves (by norm_num) (by norm_num) hz
  refine ⟨rfl, rfl, FloatVal.roundFloat_three_halves, hz, h.1, ?_⟩
  have hrep : ∀ j : Nat, j ≤ [((5 : Nat), (5 : Nat)), (9, 9)].length →
      FloatVal.roundFloat (1 + ((3 / 2 : ℚ) - 1) / 2 ^ j) =
        FloatVal.finite (1 + ((3 / 2 : ℚ) - 1) / 2 ^ j) := by
    intro j hj
    simp only [List.length_cons, List.length_nil] at hj
    interval_cases j
    · have := FloatVal.roundFloat_div_pow 3 1 (by norm_num) (by norm_num)
      norm_num at this ⊢
      exact this
    · have := FloatVal.roundFloat_div_pow 5 2 (by norm_num) (by norm_num)
      norm_num at this ⊢
      exact this
    · have := FloatVal.roundFloat_div_pow 9 3 (by norm_num) (by norm_num)
      norm_num at this ⊢
      exact this
  rw [h.2.2.2.1 hrep]
  norm_num

end ClockCatchUp

/-! ### Wraparound, the repeated beat, and the bounds -/

namespace ClockCatchUp

/-- The difference computed by `calcOverflowVal` does not change when both
counters are shifted by the same constant modulo `2^32`. -/
theorem calcOverflowVal_shift (a b k : Nat) :
    StepSync.calcOverflowVal ((a + k) % 2 ^ 32) ((b + k) % 2 ^ 32) =
      StepSync.calcOverflowVal a b := by
  have h : (((((b + k) % 2 ^ 32 : Nat) : Int) - (((a + k) % 2 ^ 32 : Nat) : Int)) % 2 ^ 32) =
      (((b : Int) - (a : Int)) % 2 ^ 32) := by
    push_cast
    omega
  unfold StepSync.calcOverflowVal
  simp only [h]

/-- C17: for every previous value `p` and every elapsed distance `d < 2^31`,
`calcOverflowVal(p, (p + d) mod 2^32) = d`, also when `p + d` crosses `2^32`;
and shifting the last-seen and the current local step, or the last-seen and
the current master step, by the same constant modulo `2^32` leaves the
interval, the cumulative offset and the steering computed by `onMasterClock`
unchanged. -/
theorem calcOverflowVal_wraparound (p d : Nat) (hd : d < 2 ^ 31) :
    StepSync.calcOverflowVal p ((p + d) % 2 ^ 32) = d ∧
    (∀ (c : ClockCatchUp) (k l m : Nat),
      (ClockCatchUp.onMasterClock { c with stepsSyncLast := (c.stepsSyncLast + k) % 2 ^ 32 }
          ((l + k) % 2 ^ 32) m).1 = (c.onMasterClock l m).1 ∧
      (ClockCatchUp.onMasterClock { c with stepsSyncLast := (c.stepsSyncLast + k) % 2 ^ 32 }
          ((l + k) % 2 ^ 32) m).2.catchupOffset = (c.onMasterClock l m).2.catchupOffset ∧
      (ClockCatchUp.onMasterClock { c with stepsSyncLast := (c.stepsSyncLast + k) % 2 ^ 32 }
          ((l + k) % 2 ^ 32) m).2.steering = (c.onMasterClock l m).2.steering) ∧
    (∀ (c : ClockCatchUp) (k l m : Nat),
      (ClockCatchUp.onMasterClock
          { c with stepsSyncMasterLast := (c.stepsSyncMasterLast + k) % 2 ^ 32 }
          l ((m + k) % 2 ^ 32)).1 = (c.onMasterClock l m).1 ∧
      (ClockCatchUp.onMasterClock
          { c with stepsSyncMasterLast := (c.stepsSyncMasterLast + k) % 2 ^ 32 }
          l ((m + k) % 2 ^ 32)).2.catchupOffset = (c.onMasterClock l m).2.catchupOffset ∧
      (ClockCatchUp.onMasterClock
          { c with stepsSyncMasterLast := (c.stepsSyncMasterLast + k) % 2 ^ 32 }
          l ((m + k) % 2 ^ 32)).2.steering = (c.onMasterClock l m).2.steering) := by
  refine ⟨?_, ?_, ?_⟩
  · unfold StepSync.calcOverflowVal
    have h : (((((p + d) % 2 ^ 32 : Nat) : Int) - (p : Int)) % 2 ^ 32) = (d : Int) := by
      push_cast
      omega
    simp only [h]
    split_ifs with hgt
    · omega
    · rfl
  · intro c k l m
    have hdiff : ClockCatchUp.diff { c with stepsSyncLast := (c.stepsSyncLast + k) % 2 ^ 32 }
        ((l + k) % 2 ^ 32) = c.diff l := by
      simp only [diff, calcOverflowVal_shift]
    have hmd : ClockCatchUp.masterDiff
        { c with stepsSyncLast := (c.stepsSyncLast + k) % 2 ^ 32 } m = c.masterDiff m := rfl
    simp only [onMasterClock, hdiff, hmd]
    split_ifs <;> exact ⟨rfl, rfl, rfl⟩
  · intro c k l m
    have hmd : ClockCatchUp.masterDiff
        { c with stepsSyncMasterLast := (c.stepsSyncMasterLast + k) % 2 ^ 32 }
        ((m + k) % 2 ^ 32) = c.masterDiff m := by
      simp only [masterDiff, calcOverflowVal_shift]
    have hdiff : ClockCatchUp.diff
        { c with stepsSyncMasterLast := (c.stepsSyncMasterLast + k) % 2 ^ 32 } l = c.diff l := rfl
    simp only [onMasterClock, hdiff, hmd]
    split_ifs <;> exact ⟨rfl, rfl, rfl⟩

/-- C17, evaluated: previous `2^32 - 3` and current 2 give 5, the same as
previous 10 and current 15. -/
theorem calcOverflowVal_wraparound_witness :
    (5 : Nat) < 2 ^ 31 ∧
    StepSync.calcOverflowVal (2 ^ 32 - 3) ((2 ^ 32 - 3 + 5) % 2 ^ 32) = (5 : Nat) ∧
    StepSync.calcOverflowVal (2 ^ 32 - 3) 2 = 5 ∧
    StepSync.calcOverflowVal 10 15 = 5 :=
  ⟨by decide, (calcOverflowVal_wraparound (2 ^ 32 - 3) 5 (by decide)).1, by decide, by decide⟩

/-- The clamped instantaneous steering for the offset 0 and the master
difference 0 is NaN: the quotient is `0 / 0`, and the comparisons of the clamp
are false on NaN. -/
theorem curSteering_zero_zero : curSteering 0 0 = FloatVal.nan := by
  have h0 : FloatVal.ofInt 0 = FloatVal.finite 0 := by
    unfold FloatVal.ofInt
    simpa using FloatVal.roundFloat_zero
  have hdiv : FloatVal.div (FloatVal.finite 0) (FloatVal.finite 0) = FloatVal.nan := by
    simp [FloatVal.div, FloatVal.infOfSign]
  unfold curSteering
  rw [h0, hdiv]
  simp [FloatVal.subDouble, FloatVal.neg, FloatVal.addWith, FloatVal.toFloat, FloatVal.max,
    FloatVal.min, FloatVal.lt]

/-- A beat in a synced state with master difference 0 that leaves the
cumulative offset 0 divides 0 by 0: the steering becomes NaN, whatever it was
before, and it stays NaN on every later beat. -/
theorem onMasterClock_zero_by_zero (c : ClockCatchUp) (l m : Nat)
    (hs : c.firstMasterSync = false) (hmd : c.masterDiff m = 0)
    (hoff : toInt32 (c.catchupOffset + toInt32 (c.masterDiff m - c.diff l)) = 0) :
    (c.onMasterClock l m).2.steering = FloatVal.nan := by
  rw [onMasterClock_synced c l m hs, hoff, hmd, curSteering_zero_zero]
  have hmul : FloatVal.mul (FloatVal.finite (1 / 2)) FloatVal.nan = FloatVal.nan := rfl
  show FloatVal.add _ (FloatVal.mul (FloatVal.finite (1 / 2)) FloatVal.nan) = _
  rw [hmul]
  exact FloatVal.add_nan _

/-- C18, the code at the failing input: in the synced state `synced10`
(last-seen pair (0, 0), offset 0, steering 1.0) the repeated beat (0, 0) has
`masterDiff = 0` and offset 0; the quotient is `0 / 0`, the clamp leaves NaN,
and the steering on exit is NaN, not a number of [0.5, 1.5].  The same happens
after `reset()`, a first beat (5, 7) and the same beat again. -/
theorem onMasterClock_repeated_beat_nan :
    synced10.firstMasterSync = false ∧ synced10.masterDiff 0 = 0 ∧
    (synced10.onMasterClock 0 0).2.catchupOffset = 0 ∧
    (synced10.onMasterClock 0 0).2.steering = FloatVal.nan ∧
    ((sample.reset.2.onMasterClock 5 7).2.onMasterClock 5 7).2.steering = FloatVal.nan ∧
    (∀ q : ℚ, (synced10.onMasterClock 0 0).2.steering ≠ FloatVal.finite q) := by
  have h1 : (synced10.onMasterClock 0 0).2.steering = FloatVal.nan :=
    onMasterClock_zero_by_zero synced10 0 0 rfl (by decide) (by decide)
  have h2 : ((sample.reset.2.onMasterClock 5 7).2.onMasterClock 5 7).2.steering
      = FloatVal.nan :=
    onMasterClock_zero_by_zero _ 5 7 (by decide) (by decide) (by decide)
  refine ⟨rfl, by decide, by decide, h1, h2, ?_⟩
  intro q hq
  rw [h1] at hq
  exact FloatVal.noConfusion hq

/-- One beat keeps the steering a `float` of [0.5, 1.5] when the master
difference is not 0.  For a base interval that `float` holds exactly, it
returns an interval between half the base interval and twice the base
interval; and of at most one and a half times the base interval when `float`
holds this bound exactly too. -/
theorem onMasterClock_bounded (c : ClockCatchUp) (l m : Nat) (s : ℚ)
    (hsteer : c.steering = FloatVal.finite s) (hsrep : FloatVal.roundFloat s = FloatVal.finite s)
    (hlo : 1 / 2 ≤ s) (hhi : s ≤ 3 / 2)
    (hmd : c.firstMasterSync = false → c.masterDiff m ≠ 0) :
    (c.onMasterClock l m).2.constBaseInt = c.constBaseInt ∧
    (c.onMasterClock l m).2.firstMasterSync = false ∧
    (∃ q : ℚ, (c.onMasterClock l m).2.steering = FloatVal.finite q ∧
      FloatVal.roundFloat q = FloatVal.finite q ∧ 1 / 2 ≤ q ∧ q ≤ 3 / 2) ∧
    (FloatVal.ofInt c.constBaseInt = FloatVal.finite c.constBaseInt → c.constBaseInt < 2 ^ 31 →
      c.constBaseInt / 2 ≤ (c.onMasterClock l m).1 ∧
      (c.onMasterClock l m).1 ≤ 2 * c.constBaseInt) ∧
    (FloatVal.ofInt c.constBaseInt = FloatVal.finite c.constBaseInt →
      FloatVal.roundFloat ((c.constBaseInt : ℚ) * (3 / 2)) =
        FloatVal.finite ((c.constBaseInt : ℚ) * (3 / 2)) →
      3 * c.constBaseInt < 2 ^ 33 → 2 * (c.onMasterClock l m).1 ≤ 3 * c.constBaseInt) := by
  by_cases hs : c.firstMasterSync = false
  · have hstep := onMasterClock_synced c l m hs
    have hoffr := toInt32_range (c.catchupOffset + toInt32 (c.masterDiff m - c.diff l))
    have hmdr : -2 ^ 31 ≤ c.masterDiff m ∧ c.masterDiff m < 2 ^ 31 := toInt32_range _
    obtain ⟨x, hx, hxrep, hx1, hx2, -, -, -⟩ :=
      curSteering_finite _ (c.masterDiff m) hoffr.1 hoffr.2 hmdr.1 hmdr.2 (hmd hs)
    obtain ⟨q, hq, hqrep, hq1, hq2, -, -⟩ := FloatVal.smoothing_bounds s x hlo hhi hxrep hx1 hx2
    rw [hx, hsteer, hq] at hstep
    rw [hstep]
    refine ⟨rfl, rfl, ⟨q, rfl, hqrep, hq1, hq2⟩, ?_, ?_⟩
    · intro hbase hlt
      have hbq : ((c.constBaseInt : Nat) : ℚ) < 2 ^ 31 := by
        have : ((c.constBaseInt : Nat) : ℚ) < ((2 ^ 31 : Nat) : ℚ) := by exact_mod_cast hlt
        push_cast at this
        exact this
      have hb0 : (0 : ℚ) ≤ (c.constBaseInt : ℚ) := Nat.cast_nonneg _
      obtain ⟨r, hr, hr1, hr2, hfl⟩ := FloatVal.interval_between c.constBaseInt q (1 / 2) 2 hbase
        (FloatVal.base_half c.constBaseInt hbase) (FloatVal.base_double c.constBaseInt hbase hlt)
        (by norm_num) hq1 (by linarith) (by linarith)
      show c.constBaseInt / 2 ≤ FloatVal.toUInt32 (FloatVal.mul (FloatVal.ofInt c.constBaseInt)
        (FloatVal.finite q)) ∧ FloatVal.toUInt32 (FloatVal.mul (FloatVal.ofInt c.constBaseInt)
        (FloatVal.finite q)) ≤ 2 * c.constBaseInt
      rw [hr]
      have hfl1 := Int.floor_le r
      have hfl2 := Int.lt_floor_add_one r
      rw [← hfl] at hfl1 hfl2
      generalize FloatVal.toUInt32 (FloatVal.finite r) = itv at hfl1 hfl2 ⊢
      push_cast at hfl1 hfl2
      constructor
      · have : (c.constBaseInt : ℚ) < 2 * ((itv : ℚ) + 1) := by linarith
        have hnat : c.constBaseInt < 2 * (itv + 1) := by exact_mod_cast this
        omega
      · have : (itv : ℚ) ≤ 2 * (c.constBaseInt : ℚ) := by linarith
        exact_mod_cast this
    · intro hbase hrep32 hlt
      have hbq : (3 : ℚ) * ((c.constBaseInt : Nat) : ℚ) < 2 ^ 33 := by
        have : ((3 * c.constBaseInt : Nat) : ℚ) < ((2 ^ 33 : Nat) : ℚ) := by exact_mod_cast hlt
        push_cast at this
        exact this
      have hb0 : (0 : ℚ) ≤ (c.constBaseInt : ℚ) := Nat.cast_nonneg _
      obtain ⟨r, hr, hr1, hr2, hfl⟩ := FloatVal.interval_between c.constBaseInt q (1 / 2) (3 / 2)
        hbase (FloatVal.base_half c.constBaseInt hbase) hrep32
        (by norm_num) hq1 hq2 (by linarith)
      show 2 * FloatVal.toUInt32 (FloatVal.mul (FloatVal.ofInt c.constBaseInt)
        (FloatVal.finite q)) ≤ 3 * c.constBaseInt
      rw [hr]
      have hfl1 := Int.floor_le r
      rw [← hfl] at hfl1
      generalize FloatVal.toUInt32 (FloatVal.finite r) = itv at hfl1 ⊢
      push_cast at hfl1
      have : 2 * (itv : ℚ) ≤ 3 * (c.constBaseInt : ℚ) := by linarith
      exact_mod_cast this
  · have hu : c.firstMasterSync = true := by simpa using hs
    have hstep : c.onMasterClock l m = (c.constBaseInt,
        { c with stepsSyncMasterLast := m, stepsSyncLast := l, firstMasterSync := false }) := by
      simp [onMasterClock, hu]
    rw [hstep]
    refine ⟨rfl, rfl, ⟨s, hsteer, hsrep, hlo, hhi⟩, ?_, ?_⟩
    · intro _ _
      constructor <;> omega
    · intro _ _ _
      omega

/-- The invariant of `onMasterClock_bounded` along a sequence of beats. -/
theorem run_bounded (beats : List (Nat × Nat)) :
    ∀ (c : ClockCatchUp) (s : ℚ), c.steering = FloatVal.finite s →
      FloatVal.roundFloat s = FloatVal.finite s → 1 / 2 ≤ s → s ≤ 3 / 2 →
      NonZeroMaster c beats →
      (∃ q : ℚ, (c.run beats).steering = FloatVal.finite q ∧
        FloatVal.roundFloat q = FloatVal.finite q ∧ 1 / 2 ≤ q ∧ q ≤ 3 / 2) ∧
      (FloatVal.ofInt c.constBaseInt = FloatVal.finite c.constBaseInt → c.constBaseInt < 2 ^ 31 →
        ∀ i ∈ c.intervals beats, c.constBaseInt / 2 ≤ i ∧ i ≤ 2 * c.constBaseInt) ∧
      (FloatVal.ofInt c.constBaseInt = FloatVal.finite c.constBaseInt →
        FloatVal.roundFloat ((c.constBaseInt : ℚ) * (3 / 2)) =
          FloatVal.finite ((c.constBaseInt : ℚ) * (3 / 2)) →
        3 * c.constBaseInt < 2 ^ 33 → ∀ i ∈ c.intervals beats, 2 * i ≤ 3 * c.constBaseInt) := by
  induction beats with
  | nil =>
    intro c s hsteer hsrep hlo hhi _
    exact ⟨⟨s, hsteer, hsrep, hlo, hhi⟩, fun _ _ i hi => absurd hi (List.not_mem_nil i),
      fun _ _ _ i hi => absurd hi (List.not_mem_nil i)⟩
  | cons beat rest ih =>
    intro c s hsteer hsrep hlo hhi hnz
    obtain ⟨hmd, hrest⟩ := hnz
    obtain ⟨hb, -, ⟨q, hq, hqrep, hq1, hq2⟩, hitv, hitv2⟩ :=
      onMasterClock_bounded c beat.1 beat.2 s hsteer hsrep hlo hhi hmd
    obtain ⟨r1, r2, r3⟩ := ih _ q hq hqrep hq1 hq2 hrest
    refine ⟨r1, ?_, ?_⟩
    · intro hbase hrange i hi
      simp only [intervals, List.mem_cons] at hi
      rcases hi with hi | hi
      · rw [hi]
        exact hitv hbase hrange
      · rw [hb] at r2
        exact r2 hbase hrange i hi
    · intro hbase hrep32 hrange i hi
      simp only [intervals, List.mem_cons] at hi
      rcases hi with hi | hi
      · rw [hi]
        exact hitv2 hbase hrep32 hrange
      · rw [hb] at r3
        exact r3 hbase hrep32 hrange i hi

/-- One and a half times a base interval is a `float` when it is below `2^24`. -/
theorem base_three_halves (base : Nat) (h : 3 * base < 2 ^ 24) :
    FloatVal.roundFloat ((base : ℚ) * (3 / 2)) = FloatVal.finite ((base : ℚ) * (3 / 2)) := by
  have := FloatVal.roundFloat_div_pow (3 * base) 1
    (by rw [abs_of_nonneg (by omega)]; omega) (by norm_num)
  rw [show (base : ℚ) * (3 / 2) = ((3 * base : Int) : ℚ) / 2 ^ 1 by push_cast; ring]
  exact this

/-- C19, amended: in every state reached from `reset()` by a sequence of beats
whose master difference is not 0, the steering is a `float` of [0.5, 1.5].
For a base interval that `float` holds exactly, as every one below `2^24`,
every interval returned along the way lies between half the base interval and
twice the base interval; and it is at most one and a half times the base
interval, up to the integer part, when `float` holds this bound exactly too, as
it does when the bound is below `2^24`. -/
theorem steering_within_bounds (c : ClockCatchUp) (beats : List (Nat × Nat))
    (hnz : NonZeroMaster c.reset.2 beats) :
    (∃ q : ℚ, (c.reset.2.run beats).steering = FloatVal.finite q ∧
      FloatVal.roundFloat q = FloatVal.finite q ∧ 1 / 2 ≤ q ∧ q ≤ 3 / 2) ∧
    (FloatVal.ofInt c.constBaseInt = FloatVal.finite c.constBaseInt → c.constBaseInt < 2 ^ 31 →
      ∀ i ∈ c.reset.2.intervals beats, c.constBaseInt / 2 ≤ i ∧ i ≤ 2 * c.constBaseInt) ∧
    (FloatVal.ofInt c.constBaseInt = FloatVal.finite c.constBaseInt →
      FloatVal.roundFloat ((c.constBaseInt : ℚ) * (3 / 2)) =
        FloatVal.finite ((c.constBaseInt : ℚ) * (3 / 2)) →
      3 * c.constBaseInt < 2 ^ 33 →
      ∀ i ∈ c.reset.2.intervals beats, 2 * i ≤ 3 * c.constBaseInt) ∧
    (c.constBaseInt < 2 ^ 24 →
      FloatVal.ofInt c.constBaseInt = FloatVal.finite c.constBaseInt) ∧
    (3 * c.constBaseInt < 2 ^ 24 →
      FloatVal.roundFloat ((c.constBaseInt : ℚ) * (3 / 2)) =
        FloatVal.finite ((c.constBaseInt : ℚ) * (3 / 2))) :=
  ⟨(run_bounded beats c.reset.2 1 rfl FloatVal.roundFloat_one (by norm_num) (by norm_num) hnz).1,
    (run_bounded beats c.reset.2 1 rfl FloatVal.roundFloat_one (by norm_num) (by norm_num) hnz).2.1,
    (run_bounded beats c.reset.2 1 rfl FloatVal.roundFloat_one (by norm_num) (by norm_num) hnz).2.2,
    FloatVal.ofInt_base c.constBaseInt, base_three_halves c.constBaseInt⟩

/-- C19 amended, evaluated: after `reset()` the beats (0, 0), (0, 2) and (3, 4)
all have a non-zero master difference where it is computed, the steering they
leave is a `float` of [0.5, 1.5], and the intervals returned for the base
interval 10 lie between 5 and 15. -/
theorem steering_within_bounds_witness :
    NonZeroMaster sample.reset.2 [(0, 0), (0, 2), (3, 4)] ∧
    (∃ q : ℚ, (sample.reset.2.run [(0, 0), (0, 2), (3, 4)]).steering = FloatVal.finite q ∧
      FloatVal.roundFloat q = FloatVal.finite q ∧ 1 / 2 ≤ q ∧ q ≤ 3 / 2) ∧
    (∀ i ∈ sample.reset.2.intervals [(0, 0), (0, 2), (3, 4)], 10 / 2 ≤ i ∧ 2 * i ≤ 3 * 10) := by
  have h := steering_within_bounds sample [(0, 0), (0, 2), (3, 4)]
    ⟨by decide, by decide, by decide, trivial⟩
  have hb := h.2.2.2.1 (by decide)
  have hb32 := h.2.2.2.2 (by decide)
  exact ⟨⟨by decide, by decide, by decide, trivial⟩, h.1,
    fun i hi => ⟨(h.2.1 hb (by decide) i hi).1, h.2.2.1 hb hb32 (by decide) i hi⟩⟩

end ClockCatchUp

namespace ClockCatchUp

/-- The difference computed by `calcOverflowVal` when the counter has advanced
by `d < 2^31` steps. -/
theorem calcOverflowVal_add (p d : Nat) (hd : d < 2 ^ 31) :
    StepSync.calcOverflowVal p (p + d) = d := by
  unfold StepSync.calcOverflowVal
  have h : (((p + d : Nat) : Int) - (p : Int)) % 2 ^ 32 = (d : Int) := by
    push_cast
    omega
  simp only [h]
  split_ifs with hgt
  · omega
  · rfl

theorem run_append (xs ys : List (Nat × Nat)) :
    ∀ c : ClockCatchUp, c.run (xs ++ ys) = (c.run xs).run ys := by
  induction xs with
  | nil => intro c; rfl
  | cons x rest ih => intro c; exact ih _

theorem intervals_append (xs ys : List (Nat × Nat)) :
    ∀ c : ClockCatchUp, c.intervals (xs ++ ys) = c.intervals xs ++ (c.run xs).intervals ys := by
  induction xs with
  | nil => intro c; rfl
  | cons x rest ih =>
    intro c
    show _ :: intervals _ (rest ++ ys) = _
    rw [ih]
    rfl

/-- The clamped instantaneous steering for the offset `-9 (k + 1)` and the
master difference 1: `1 + 9 (k + 1)` is clamped to 1.5. -/
theorem curSteering_ahead (k : Nat) (hk : k < 100) :
    curSteering (-9 * ((k : Int) + 1)) 1 = FloatVal.finite (3 / 2) := by
  have ho : FloatVal.roundFloat (((-9 * ((k : Int) + 1) : Int)) : ℚ) =
      FloatVal.finite (((-9 * ((k : Int) + 1) : Int)) : ℚ) :=
    FloatVal.roundFloat_int _ (abs_le.mpr ⟨by omega, by omega⟩)
  have hq : FloatVal.roundFloat ((((-9 * ((k : Int) + 1) : Int)) : ℚ) / 1) =
      FloatVal.finite (((-9 * ((k : Int) + 1) : Int)) : ℚ) := by
    rw [div_one]
    exact ho
  have hcast : (1 : ℚ) - (((-9 * ((k : Int) + 1) : Int)) : ℚ) =
      (((1 + 9 * ((k : Int) + 1) : Int)) : ℚ) := by
    push_cast
    ring
  have ht : FloatVal.roundDouble (1 - (((-9 * ((k : Int) + 1) : Int)) : ℚ)) =
      FloatVal.finite (((1 + 9 * ((k : Int) + 1) : Int)) : ℚ) := by
    rw [hcast]
    exact FloatVal.roundDouble_int _ (abs_lt.mpr ⟨by omega, by omega⟩)
  have hu : FloatVal.roundFloat (((1 + 9 * ((k : Int) + 1) : Int)) : ℚ) =
      FloatVal.finite (((1 + 9 * ((k : Int) + 1) : Int)) : ℚ) :=
    FloatVal.roundFloat_int _ (abs_le.mpr ⟨by omega, by omega⟩)
  have h := FloatVal.curSteering_eval (-9 * ((k : Int) + 1)) 1 _ 1 _ _ _ ho
    (by simpa using FloatVal.roundFloat_one) (by norm_num) hq ht hu
  rw [h]
  have hbig : (3 / 2 : ℚ) ≤ (((1 + 9 * ((k : Int) + 1) : Int)) : ℚ) := by
    have : (2 : Int) ≤ 1 + 9 * ((k : Int) + 1) := by omega
    have h2 : ((2 : Int) : ℚ) ≤ (((1 + 9 * ((k : Int) + 1) : Int)) : ℚ) := by exact_mod_cast this
    push_cast at h2 ⊢
    linarith
  rw [max_eq_left (by linarith), min_eq_right hbig]

/-- One beat of the stream after the beat `(10 k, k)`: the offset becomes
`-9 (k + 1)`, the instantaneous steering is clamped to 1.5, and the steering
`s`, a `float` of at least 0.5, becomes `0.5 * s + 0.75` rounded to `float`. -/
theorem ahead_beat (base k : Nat) (s r : ℚ) (hk : k < 100)
    (hsrep : FloatVal.roundFloat s = FloatVal.finite s) (hs1 : 1 / 2 ≤ s)
    (hr : FloatVal.roundFloat (1 / 2 * s + 1 / 2 * (3 / 2)) = FloatVal.finite r) :
    (aheadState base k s).onMasterClock (10 * (k + 1)) (k + 1) =
      (FloatVal.toUInt32 (FloatVal.mul (FloatVal.ofInt base) (FloatVal.finite r)),
        aheadState base (k + 1) r) := by
  have hdiff : (aheadState base k s).diff (10 * (k + 1)) = 10 := by
    have h := calcOverflowVal_add (10 * k) 10 (by norm_num)
    unfold diff aheadState
    rw [show 10 * (k + 1) = 10 * k + 10 by ring, h]
    decide
  have hmd : (aheadState base k s).masterDiff (k + 1) = 1 := by
    have h := calcOverflowVal_add k 1 (by norm_num)
    unfold masterDiff aheadState
    rw [h]
    decide
  have hoff : toInt32 ((aheadState base k s).catchupOffset +
      toInt32 ((aheadState base k s).masterDiff (k + 1) - (aheadState base k s).diff (10 * (k + 1))))
      = -9 * ((k : Int) + 1) := by
    rw [hmd, hdiff]
    have h9 : toInt32 (1 - 10) = -9 := by decide
    rw [h9]
    show toInt32 (-9 * (k : Int) + -9) = _
    rw [toInt32_of_range _ (by omega) (by omega)]
    ring
  have hq := FloatVal.smoothing_exact s (3 / 2) hsrep hs1 FloatVal.roundFloat_three_halves
    (by norm_num)
  rw [hr] at hq
  have h := onMasterClock_eval (aheadState base k s) (10 * (k + 1)) (k + 1) _ 1 s (3 / 2) r _
    rfl rfl hoff hmd (curSteering_ahead k hk) hq rfl
  rw [h]
  unfold aheadState
  simp only [Prod.mk.injEq, true_and]
  congr 1

/-- The steering on the first 22 beats of the stream: `1.5 - 2^(-(k + 1))`
after the beat `(10 k, k)`. -/
theorem run_ahead (base : Nat) (n : Nat) :
    ∀ k : Nat, k + n ≤ 22 →
      (aheadState base k (3 / 2 - 1 / 2 ^ (k + 1))).run (aheadFrom k n) =
        aheadState base (k + n) (3 / 2 - 1 / 2 ^ (k + n + 1)) := by
  induction n with
  | zero => intro k _; rfl
  | succ n ih =>
    intro k hk
    have hform : ∀ j : Nat, (3 / 2 - 1 / 2 ^ (j + 1) : ℚ) =
        ((3 * 2 ^ j - 1 : Int) : ℚ) / 2 ^ (j + 1) := by
      intro j
      push_cast
      rw [pow_succ]
      field_simp
      ring
    have hrepj : ∀ j : Nat, j ≤ 22 → FloatVal.roundFloat (3 / 2 - 1 / 2 ^ (j + 1)) =
        FloatVal.finite (3 / 2 - 1 / 2 ^ (j + 1)) := by
      intro j hj
      rw [hform]
      apply FloatVal.roundFloat_div_pow _ _ _ (by omega)
      have h1 : (1 : Int) ≤ 2 ^ j := one_le_pow₀ (by norm_num)
      have h2 : (2 : Int) ^ j ≤ 2 ^ 22 := pow_le_pow_right₀ (by norm_num) hj
      rw [abs_of_nonneg (by omega)]
      omega
    have hge : (1 / 2 : ℚ) ≤ 3 / 2 - 1 / 2 ^ (k + 1) := by
      have : (1 : ℚ) / 2 ^ (k + 1) ≤ 1 := by
        rw [div_le_one (by positivity)]
        exact one_le_pow₀ (by norm_num)
      linarith
    have hnext : FloatVal.roundFloat (1 / 2 * (3 / 2 - 1 / 2 ^ (k + 1)) + 1 / 2 * (3 / 2)) =
        FloatVal.finite (3 / 2 - 1 / 2 ^ (k + 1 + 1)) := by
      have := hrepj (k + 1) (by omega)
      rw [show (1 / 2 * (3 / 2 - 1 / 2 ^ (k + 1)) + 1 / 2 * (3 / 2) : ℚ) =
        3 / 2 - 1 / 2 ^ (k + 1 + 1) by
          rw [pow_succ 2 (k + 1)]
          field_simp
          ring]
      exact this
    have hstep := ahead_beat base k _ _ (by omega) (hrepj k (by omega)) hge hnext
    show ((aheadState base k _).onMasterClock (10 * (k + 1)) (k + 1)).2.run (aheadFrom (k + 1) n) = _
    rw [hstep, ih (k + 1) (by omega)]
    rw [show k + 1 + n = k + (n + 1) by ring]

/-- The master difference is 1, and so not 0, on every beat of the stream. -/
theorem nonZeroMaster_ahead (n : Nat) :
    ∀ (c : ClockCatchUp) (k : Nat), c.firstMasterSync = false → c.stepsSyncMasterLast = k →
      k + n ≤ 100 → NonZeroMaster c (aheadFrom k n) := by
  induction n with
  | zero => intro c k _ _ _; trivial
  | succ n ih =>
    intro c k hs hk hkn
    refine ⟨?_, ih _ (k + 1) (by simp [onMasterClock]) (by simp [onMasterClock]) (by omega)⟩
    intro _
    have h := calcOverflowVal_add k 1 (by norm_num)
    unfold masterDiff
    rw [hk, h]
    decide

/-- The conversion of `2^31 + 129` to `float` gives `2^31 + 256`. -/
theorem roundFloat_big_base :
    FloatVal.roundFloat (2147483777 : ℚ) = FloatVal.finite 2147483904 := by
  apply FloatVal.roundFloat_eval 2147483777 31 8388609
  · norm_num [abs_of_pos]
  · norm_num [abs_of_pos]
  · norm_num
  · apply FloatVal.roundHalfEven_near <;> norm_num
  · norm_num
  · norm_num [abs_of_pos]

/-- The `float` product of `2^31 + 256` and 1.5 is `3 * 2^30 + 512`. -/
theorem roundFloat_big_product :
    FloatVal.roundFloat (2147483904 * (3 / 2) : ℚ) = FloatVal.finite 3221225984 := by
  apply FloatVal.roundFloat_eval _ 31 12582914
  · norm_num [abs_of_pos]
  · norm_num [abs_of_pos]
  · norm_num
  · rw [FloatVal.roundHalfEven_tie _ 12582913 (by norm_num)]
    norm_num
  · norm_num
  · norm_num [abs_of_pos]

/-- The last beat of `aheadBeats`: the steering `1.5 - 2^(-23)` becomes 1.5,
the tie `1.5 - 2^(-24)` going to the even neighbour, and the interval for the
base interval `2^31 + 129` is `3 * 2^30 + 512`. -/
theorem ahead_last_beat :
    (aheadState 2147483777 22 (3 / 2 - 1 / 2 ^ (22 + 1))).onMasterClock 230 23 =
      (3221225984, aheadState 2147483777 23 (3 / 2)) := by
  have hrep : FloatVal.roundFloat (3 / 2 - 1 / 2 ^ (22 + 1)) =
      FloatVal.finite (3 / 2 - 1 / 2 ^ (22 + 1)) := by
    have := FloatVal.roundFloat_div_pow 12582911 23 (by norm_num) (by norm_num)
    norm_num at this ⊢
    exact this
  have hr : FloatVal.roundFloat (1 / 2 * (3 / 2 - 1 / 2 ^ (22 + 1)) + 1 / 2 * (3 / 2)) =
      FloatVal.finite (3 / 2) := by
    apply FloatVal.roundFloat_eval _ 0 12582912
    · norm_num [abs_of_pos]
    · norm_num [abs_of_pos]
    · norm_num
    · rw [FloatVal.roundHalfEven_tie _ 12582911 (by norm_num)]
      norm_num
    · norm_num
    · norm_num [abs_of_pos]
  have h := ahead_beat 2147483777 22 _ _ (by norm_num) hrep (by norm_num) hr
  have hi : FloatVal.toUInt32 (FloatVal.mul (FloatVal.ofInt (2147483777 : Nat))
      (FloatVal.finite (3 / 2))) = 3221225984 := by
    apply FloatVal.interval_eval 2147483777 _ 2147483904 3221225984 3221225984
    · exact_mod_cast roundFloat_big_base
    · exact roundFloat_big_product
    · norm_num
    · norm_num
    · exact_mod_cast Int.floor_natCast (α := ℚ) 3221225984
  rw [hi] at h
  exact h

/-- C19 fails: the controller with base interval `2^31 + 129`, after `reset()`
and the 24 beats of `aheadBeats`, each with master difference 1.  The steering
is exactly 1.5 after the last beat, the base interval is converted to the
`float` `2^31 + 256`, and the last interval returned is 3221225984, which
exceeds one and a half times the base interval by more than 300. -/
theorem interval_bound_counterexample :
    NonZeroMaster (syncedBase 2147483777).reset.2 aheadBeats ∧
    ((syncedBase 2147483777).reset.2.run aheadBeats).steering = FloatVal.finite (3 / 2) ∧
    (3221225984 : Nat) ∈ (syncedBase 2147483777).reset.2.intervals aheadBeats ∧
    3 * 2147483777 + 600 < 2 * 3221225984 := by
  have hsplit : aheadBeats = [(0, 0)] ++ aheadFrom 0 22 ++ [(230, 23)] := by decide
  have hfirst : (syncedBase 2147483777).reset.2.run [(0, 0)] =
      aheadState 2147483777 0 (3 / 2 - 1 / 2 ^ (0 + 1)) := by
    show ((syncedBase 2147483777).reset.2.onMasterClock 0 0).2 = _
    rw [reset_first]
    unfold aheadState syncedBase
    norm_num
  have hmid : (syncedBase 2147483777).reset.2.run ([(0, 0)] ++ aheadFrom 0 22) =
      aheadState 2147483777 22 (3 / 2 - 1 / 2 ^ (22 + 1)) := by
    rw [run_append, hfirst, run_ahead 2147483777 22 0 (by norm_num)]
  refine ⟨?_, ?_, ?_, by norm_num⟩
  · have hcons : aheadBeats = (0, 0) :: aheadFrom 0 23 := by decide
    rw [hcons]
    refine ⟨by decide, ?_⟩
    apply nonZeroMaster_ahead 23 _ 0 _ _ (by norm_num)
    · simp [onMasterClock]
    · simp [onMasterClock]
  · rw [hsplit, run_append, hmid]
    show ((aheadState 2147483777 22 _).onMasterClock 230 23).2.steering = _
    rw [ahead_last_beat]
    rfl
  · rw [hsplit, intervals_append, hmid]
    apply List.mem_append_right
    show 3221225984 ∈ [((aheadState 2147483777 22 _).onMasterClock 230 23).1]
    rw [ahead_last_beat]
    exact List.mem_singleton_self _

end ClockCatchUp

namespace JsonProcessor

/-! ## The mode of a parsed request -/

/-- The blocks of `parseRequestParams` after the one that sets the Kelvin mode
write neither the mode nor a colour field. -/
theorem parseRampTime_colorPart (root : JsonVariant) (params : RequestParameters) :
    colorPart (parseRampTime root params) = colorPart params := by
  unfold parseRampTime
  split_ifs <;> rfl

theorem parseRampSpeed_colorPart (root : JsonVariant) (params : RequestParameters) :
    colorPart (parseRampSpeed root params) = colorPart params := by
  unfold parseRampSpeed
  split_ifs <;> rfl

theorem parseRequeue_colorPart (root : JsonVariant) (params : RequestParameters) :
    colorPart (parseRequeue root params) = colorPart params := by
  unfold parseRequeue
  split_ifs <;> rfl

theorem parseKelvin_colorPart (root : JsonVariant) (params : RequestParameters) :
    colorPart (parseKelvin root params) = colorPart params := by
  unfold parseKelvin
  split_ifs <;> rfl

theorem parseDirection_colorPart (root : JsonVariant) (params : RequestParameters) :
    colorPart (parseDirection root params) = colorPart params := by
  unfold parseDirection
  split_ifs <;> rfl

theorem parseName_colorPart (root : JsonVariant) (params : RequestParameters) :
    colorPart (parseName root params) = colorPart params := by
  unfold parseName
  split_ifs <;> rfl

theorem parseCmd_colorPart (root : JsonVariant) (params : RequestParameters) :
    colorPart (parseCmd root params) = colorPart params := by
  unfold parseCmd
  split_ifs <;> rfl

theorem parseQueue_colorPart (root : JsonVariant) (params : RequestParameters) :
    colorPart (parseQueue root params) = colorPart params := by
  unfold parseQueue
  split_ifs <;> rfl

theorem parseChannels_colorPart (root : JsonVariant) (params : RequestParameters) :
    colorPart (parseChannels root params) = colorPart params := by
  unfold parseChannels
  split_ifs <;> rfl

/-- The mode and the colour fields of the parsed request are those left by the
colour block and the block that sets the Kelvin mode. -/
theorem parseRequestParams_colorPart (mk : String → ValueClass → AbsOrRelValue)
    (root : JsonVariant) (params : RequestParameters) :
    colorPart (parseRequestParams mk root params) =
      colorPart (parseKelvinMode root (parseColor mk root params)) := by
  unfold parseRequestParams
  rw [parseChannels_colorPart, parseQueue_colorPart, parseCmd_colorPart, parseName_colorPart,
    parseDirection_colorPart, parseKelvin_colorPart, parseRequeue_colorPart,
    parseRampSpeed_colorPart, parseRampTime_colorPart]

/-- C20: `parseRequestParams` sets the mode to Kelvin when a `kelvin` key is
present, whether or not `hsv` or `raw` is present too (they are parsed all the
same); otherwise to Hsv when `hsv` is present; otherwise to Raw when `raw` is
present; otherwise it leaves the mode unchanged.  When `hsv` is present no raw
field is written, also when `raw` is present as well. -/
theorem parseRequestParams_mode (mk : String → ValueClass → AbsOrRelValue)
    (root : JsonVariant) (params : RequestParameters) :
    ((root.get "kelvin").success = true →
      (parseRequestParams mk root params).mode = Mode.Kelvin) ∧
    ((root.get "kelvin").success = false → (root.get "hsv").success = true →
      (parseRequestParams mk root params).mode = Mode.Hsv) ∧
    ((root.get "kelvin").success = false → (root.get "hsv").success = false →
      (root.get "raw").success = true →
      (parseRequestParams mk root params).mode = Mode.Raw) ∧
    ((root.get "kelvin").success = false → (root.get "hsv").success = false →
      (root.get "raw").success = false →
      (parseRequestParams mk root params).mode = params.mode) ∧
    ((parseRequestParams mk root params).hsv = (parseColor mk root params).hsv ∧
      (parseRequestParams mk root params).raw = (parseColor mk root params).raw ∧
      (parseRequestParams mk root params).rawFrom = (parseColor mk root params).rawFrom) ∧
    ((root.get "hsv").success = true →
      (parseRequestParams mk root params).raw = params.raw ∧
      (parseRequestParams mk root params).rawFrom = params.rawFrom ∧
      (parseRequestParams mk root params).hasRawFrom = params.hasRawFrom) := by
  have h := parseRequestParams_colorPart mk root params
  have hmode : (parseRequestParams mk root params).mode =
      (parseKelvinMode root (parseColor mk root params)).mode := congrArg (fun t => t.1) h
  have hhsv : (parseRequestParams mk root params).hsv =
      (parseKelvinMode root (parseColor mk root params)).hsv := congrArg (fun t => t.2.2.2.1) h
  have hraw : (parseRequestParams mk root params).raw =
      (parseKelvinMode root (parseColor mk root params)).raw :=
    congrArg (fun t => t.2.2.2.2.2.1) h
  have hrawFrom : (parseRequestParams mk root params).rawFrom =
      (parseKelvinMode root (parseColor mk root params)).rawFrom :=
    congrArg (fun t => t.2.2.2.2.2.2) h
  have hhas : (parseRequestParams mk root params).hasRawFrom =
      (parseKelvinMode root (parseColor mk root params)).hasRawFrom :=
    congrArg (fun t => t.2.2.1) h
  have hk : ∀ p : RequestParameters, (parseKelvinMode root p).hsv = p.hsv ∧
      (parseKelvinMode root p).raw = p.raw ∧ (parseKelvinMode root p).rawFrom = p.rawFrom ∧
      (parseKelvinMode root p).hasRawFrom = p.hasRawFrom := by
    intro p
    unfold parseKelvinMode
    split_ifs <;> exact ⟨rfl, rfl, rfl, rfl⟩
  rw [hmode, hhsv, hraw, hrawFrom, hhas, (hk _).1, (hk _).2.1, (hk _).2.2.1, (hk _).2.2.2]
  have hkm : ∀ p : RequestParameters, (parseKelvinMode root p).mode =
      if (root.get "kelvin").success = true then Mode.Kelvin else p.mode := by
    intro p
    unfold parseKelvinMode
    split_ifs <;> rfl
  have hcm : (parseColor mk root params).mode =
      if (root.get "hsv").success = true then Mode.Hsv
      else if (root.get "raw").success = true then Mode.Raw else params.mode := by
    unfold parseColor
    split_ifs <;> rfl
  rw [hkm, hcm]
  refine ⟨?_, ?_, ?_, ?_, ⟨rfl, rfl, rfl⟩, ?_⟩
  · intro hkel
    rw [if_pos hkel]
  · intro hkel hh
    rw [hkel, hh]
    rfl
  · intro hkel hh hr
    rw [hkel, hh, hr]
    rfl
  · intro hkel hh hr
    rw [hkel, hh, hr]
    rfl
  · intro hh
    unfold parseColor
    rw [if_pos hh]
    split_ifs <;> exact ⟨rfl, rfl, rfl⟩

/-- C20, evaluated: with `kelvin` and `hsv` the mode is Kelvin and `hsv.v` is
parsed; with `hsv` and `raw` the mode is Hsv and `raw.r` stays absent; with
`raw` alone the mode is Raw; with none of them the mode stays undefined. -/
theorem parseRequestParams_mode_witness :
    (parseRequestParams AbsOrRelValue.ofText
      (JsonVariant.object [("hsv", JsonVariant.object [("v", jstr "50")]),
        ("kelvin", jint "3000" 3000)]) RequestParameters.fresh).mode = Mode.Kelvin ∧
    (parseRequestParams AbsOrRelValue.ofText
      (JsonVariant.object [("hsv", JsonVariant.object [("v", jstr "50")]),
        ("kelvin", jint "3000" 3000)]) RequestParameters.fresh).hsv.v
      = absValue 50 ValueClass.Generic ∧
    (parseRequestParams AbsOrRelValue.ofText
      (JsonVariant.object [("raw", JsonVariant.object [("r", jstr "7")]),
        ("hsv", JsonVariant.object [("v", jstr "50")])]) RequestParameters.fresh).mode
      = Mode.Hsv ∧
    (parseRequestParams AbsOrRelValue.ofText
      (JsonVariant.object [("raw", JsonVariant.object [("r", jstr "7")]),
        ("hsv", JsonVariant.object [("v", jstr "50")])]) RequestParameters.fresh).raw
      = RequestParameters.fresh.raw ∧
    (parseRequestParams AbsOrRelValue.ofText
      (JsonVariant.object [("raw", JsonVariant.object [("r", jstr "7")])])
      RequestParameters.fresh).mode = Mode.Raw ∧
    (parseRequestParams AbsOrRelValue.ofText (JsonVariant.object [])
      RequestParameters.fresh).mode = Mode.Undefined :=
  ⟨(parseRequestParams_mode AbsOrRelValue.ofText _ RequestParameters.fresh).1 (by decide),
    by decide,
    (parseRequestParams_mode AbsOrRelValue.ofText _ RequestParameters.fresh).2.1 (by decide)
      (by decide),
    ((parseRequestParams_mode AbsOrRelValue.ofText _ RequestParameters.fresh).2.2.2.2.2
      (by decide)).1,
    by decide, by decide⟩

/-! ## The message of a batch -/

/-- In the batch branch `onColor` leaves the parameter `msg` as it was on
entry, whatever the items returned. -/
theorem onColor_cmds_keeps_msg (env : Env) (root : JsonVariant) (msg : String) (relay : Bool)
    (log : List EngineCall) (hcmds : (root.get "cmds").success = true) :
    (onColor env root msg relay log).2.1 = msg := by
  unfold onColor
  simp only [if_pos hcmds]
  cases relay <;> split_ifs <;> simp

/-- C11, the code at the failing input: for the batch `batchRequest`, whose
item 2 fails with "Invalid queue policy", `onColor` returns false and its
`msg` on exit is the empty string it was on entry, while the pipe-joined
reasons of the failing items are "Invalid queue policy|". -/
theorem onColor_joined_message_lost :
    (batchRequest.get "cmds").success = true ∧
    (onColor (sampleEnv true) batchRequest "" false []).1 = false ∧
    (onColor (sampleEnv true) batchRequest "" false []).2.1 = "" ∧
    failureReasons (runEach (sampleEnv true) (batchRequest.get "cmds").asArray []).1 =
      ["Invalid queue policy"] ∧
    joinErrors (failureReasons (runEach (sampleEnv true) (batchRequest.get "cmds").asArray []).1)
      = "Invalid queue policy|" :=
  ⟨by decide, by decide, by decide, by decide, by decide⟩

/-! ## The ramp of a parsed request -/

/-- Only the blocks on `root["t"]` and `root["s"]` write the ramp. -/
theorem parseColor_ramp (mk : String → ValueClass → AbsOrRelValue) (root : JsonVariant)
    (params : RequestParameters) :
    (parseColor mk root params).ramp = params.ramp := by
  unfold parseColor
  split_ifs <;> rfl

theorem parseKelvinMode_ramp (root : JsonVariant) (params : RequestParameters) :
    (parseKelvinMode root params).ramp = params.ramp := by
  unfold parseKelvinMode
  split_ifs <;> rfl

theorem parseRequeue_ramp (root : JsonVariant) (params : RequestParameters) :
    (parseRequeue root params).ramp = params.ramp := by
  unfold parseRequeue
  split_ifs <;> rfl

theorem parseKelvin_ramp (root : JsonVariant) (params : RequestParameters) :
    (parseKelvin root params).ramp = params.ramp := by
  unfold parseKelvin
  split_ifs <;> rfl

theorem parseDirection_ramp (root : JsonVariant) (params : RequestParameters) :
    (parseDirection root params).ramp = params.ramp := by
  unfold parseDirection
  split_ifs <;> rfl

theorem parseName_ramp (root : JsonVariant) (params : RequestParameters) :
    (parseName root params).ramp = params.ramp := by
  unfold parseName
  split_ifs <;> rfl

theorem parseCmd_ramp (root : JsonVariant) (params : RequestParameters) :
    (parseCmd root params).ramp = params.ramp := by
  unfold parseCmd
  split_ifs <;> rfl

theorem parseQueue_ramp (root : JsonVariant) (params : RequestParameters) :
    (parseQueue root params).ramp = params.ramp := by
  unfold parseQueue
  split_ifs <;> rfl

theorem parseChannels_ramp (root : JsonVariant) (params : RequestParameters) :
    (parseChannels root params).ramp = params.ramp := by
  unfold parseChannels
  split_ifs <;> rfl

/-- The ramp of the parsed request: the Speed ramp of `s` when `s` is present,
else the Time ramp of `t` when `t` is present, else the ramp on entry. -/
theorem parseRequestParams_ramp (mk : String → ValueClass → AbsOrRelValue)
    (root : JsonVariant) (params : RequestParameters) :
    (parseRequestParams mk root params).ramp =
      if (root.get "s").success = true then ⟨(root.get "s").asDouble, RampType.Speed⟩
      else if (root.get "t").success = true then ⟨(root.get "t").asDouble, RampType.Time⟩
      else params.ramp := by
  unfold parseRequestParams
  rw [parseChannels_ramp, parseQueue_ramp, parseCmd_ramp, parseName_ramp, parseDirection_ramp,
    parseKelvin_ramp, parseRequeue_ramp]
  unfold parseRampSpeed
  split_ifs with hs ht
  · rfl
  · simp only [parseRampTime, if_pos ht]
  · simp only [parseRampTime, if_neg ht]
    rw [parseKelvinMode_ramp, parseColor_ramp]

/-- C21: `parseRequestParams` sets the ramp from the top-level keys `t` and
`s`: only `t` gives `(t, Time)`; `s` gives `(s, Speed)`, also when `t` is
present, whose value is then discarded; neither leaves the ramp as it was.  A
request whose `s` is 0 yields a zero Speed ramp, also with `t` present, and
`checkParams` rejects it. -/
theorem parseRequestParams_ramp_keys (mk : String → ValueClass → AbsOrRelValue)
    (root : JsonVariant) (params : RequestParameters) :
    ((root.get "t").success = true → (root.get "s").success = false →
      (parseRequestParams mk root params).ramp = ⟨(root.get "t").asDouble, RampType.Time⟩) ∧
    ((root.get "s").success = true →
      (parseRequestParams mk root params).ramp = ⟨(root.get "s").asDouble, RampType.Speed⟩) ∧
    ((root.get "t").success = false → (root.get "s").success = false →
      (parseRequestParams mk root params).ramp = params.ramp) ∧
    ((root.get "s").success = true → (root.get "s").asDouble = 0 → ∀ errorMsg : String,
      ((parseRequestParams mk root params).checkParams errorMsg).1 ≠ 0) := by
  have h := parseRequestParams_ramp mk root params
  refine ⟨?_, ?_, ?_, ?_⟩
  · intro ht hs
    rw [h, hs, ht]
    rfl
  · intro hs
    rw [h, if_pos hs]
  · intro ht hs
    rw [h, hs, ht]
    rfl
  · intro hs h0 errorMsg hzero
    rw [if_pos hs, h0] at h
    have hc := checkParams_zero_checkCommand _ errorMsg hzero
    rw [← hc] at hzero
    have hv := ((checkCommand_eq_zero_iff _ errorMsg).mp hzero).2.2.2
    apply hv
    rw [h]
    exact ⟨rfl, rfl⟩

/-- C21, evaluated: `{"t": 1000}` gives (1000, Time); `{"s": 3}` gives
(3, Speed); `{"t": 1000, "s": 0}` gives (0, Speed), which `checkParams` rejects
with "Speed cannot be 0!"; `{}` keeps the ramp. -/
theorem parseRequestParams_ramp_keys_witness :
    (parseRequestParams AbsOrRelValue.ofText
      (JsonVariant.object [("t", jint "1000" 1000)]) RequestParameters.fresh).ramp
      = ⟨1000, RampType.Time⟩ ∧
    (parseRequestParams AbsOrRelValue.ofText
      (JsonVariant.object [("s", jint "3" 3)]) RequestParameters.fresh).ramp
      = ⟨3, RampType.Speed⟩ ∧
    (parseRequestParams AbsOrRelValue.ofText
      (JsonVariant.object [("t", jint "1000" 1000), ("s", jint "0" 0)])
      RequestParameters.fresh).ramp = ⟨0, RampType.Speed⟩ ∧
    (parseRequestParams AbsOrRelValue.ofText
      (JsonVariant.object [("hsv", JsonVariant.object [("v", jstr "50")]), ("cmd", jstr "fade"),
        ("t", jint "1000" 1000), ("s", jint "0" 0)])
      RequestParameters.fresh).checkParams "" = (1, "Speed cannot be 0!") ∧
    (parseRequestParams AbsOrRelValue.ofText (JsonVariant.object [])
      { RequestParameters.fresh with ramp := ⟨5, RampType.Speed⟩ }).ramp
      = ⟨5, RampType.Speed⟩ :=
  ⟨(parseRequestParams_ramp_keys AbsOrRelValue.ofText
      (JsonVariant.object [("t", jint "1000" 1000)]) RequestParameters.fresh).1 (by decide)
      (by decide),
    (parseRequestParams_ramp_keys AbsOrRelValue.ofText
      (JsonVariant.object [("s", jint "3" 3)]) RequestParameters.fresh).2.1 (by decide),
    (parseRequestParams_ramp_keys AbsOrRelValue.ofText
      (JsonVariant.object [("t", jint "1000" 1000), ("s", jint "0" 0)])
      RequestParameters.fresh).2.1 (by decide),
    by decide,
    (parseRequestParams_ramp_keys AbsOrRelValue.ofText (JsonVariant.object [])
      { RequestParameters.fresh with ramp := ⟨5, RampType.Speed⟩ }).2.2.1 (by decide)
      (by decide)⟩

/-! ## The `from` endpoints -/

/-- The fields of an hsv block after parsing `obj` into it. -/
theorem parseHsvFields_fields (mk : String → ValueClass → AbsOrRelValue) (obj : JsonVariant)
    (c : RequestHSVCT) :
    (parseHsvFields mk obj c).h =
      (if (obj.get "h").success = true then mk (obj.get "h").asString ValueClass.Hue else c.h) ∧
    (parseHsvFields mk obj c).s =
      (if (obj.get "s").success = true then mk (obj.get "s").asString ValueClass.Generic
        else c.s) ∧
    (parseHsvFields mk obj c).v =
      (if (obj.get "v").success = true then mk (obj.get "v").asString ValueClass.Generic
        else c.v) ∧
    (parseHsvFields mk obj c).ct =
      (if (obj.get "ct").success = true then mk (obj.get "ct").asString ValueClass.Ct
        else c.ct) := by
  unfold parseHsvFields
  refine ⟨?_, ?_, ?_, ?_⟩ <;> split_ifs <;> rfl

/-- The fields of a raw block after parsing `obj` into it. -/
theorem parseRawFields_fields (mk : String → ValueClass → AbsOrRelValue) (obj : JsonVariant)
    (c : RequestChannelOutput) :
    (parseRawFields mk obj c).r =
      (if (obj.get "r").success = true then mk (obj.get "r").asString ValueClass.Raw else c.r) ∧
    (parseRawFields mk obj c).g =
      (if (obj.get "g").success = true then mk (obj.get "g").asString ValueClass.Raw else c.g) ∧
    (parseRawFields mk obj c).b =
      (if (obj.get "b").success = true then mk (obj.get "b").asString ValueClass.Raw else c.b) ∧
    (parseRawFields mk obj c).ww =
      (if (obj.get "ww").success = true then mk (obj.get "ww").asString ValueClass.Raw
        else c.ww) ∧
    (parseRawFields mk obj c).cw =
      (if (obj.get "cw").success = true then mk (obj.get "cw").asString ValueClass.Raw
        else c.cw) := by
  unfold parseRawFields
  refine ⟨?_, ?_, ?_, ?_, ?_⟩ <;> split_ifs <;> rfl

/-- The block that sets the Kelvin mode writes no colour field. -/
theorem parseKelvinMode_colour (root : JsonVariant) (p : RequestParameters) :
    (parseKelvinMode root p).hasHsvFrom = p.hasHsvFrom ∧
    (parseKelvinMode root p).hasRawFrom = p.hasRawFrom ∧
    (parseKelvinMode root p).hsv = p.hsv ∧ (parseKelvinMode root p).hsvFrom = p.hsvFrom ∧
    (parseKelvinMode root p).raw = p.raw ∧ (parseKelvinMode root p).rawFrom = p.rawFrom := by
  unfold parseKelvinMode
  split_ifs <;> exact ⟨rfl, rfl, rfl, rfl, rfl, rfl⟩

/-- The colour fields of the parsed request are those left by the colour
block. -/
theorem parseRequestParams_colour (mk : String → ValueClass → AbsOrRelValue)
    (root : JsonVariant) (params : RequestParameters) :
    (parseRequestParams mk root params).hasHsvFrom = (parseColor mk root params).hasHsvFrom ∧
    (parseRequestParams mk root params).hasRawFrom = (parseColor mk root params).hasRawFrom ∧
    (parseRequestParams mk root params).hsv = (parseColor mk root params).hsv ∧
    (parseRequestParams mk root params).hsvFrom = (parseColor mk root params).hsvFrom ∧
    (parseRequestParams mk root params).raw = (parseColor mk root params).raw ∧
    (parseRequestParams mk root params).rawFrom = (parseColor mk root params).rawFrom := by
  have h := parseRequestParams_colorPart mk root params
  have hk := parseKelvinMode_colour root (parseColor mk root params)
  refine ⟨?_, ?_, ?_, ?_, ?_, ?_⟩
  · exact (congrArg (fun t => t.2.1) h).trans hk.1
  · exact (congrArg (fun t => t.2.2.1) h).trans hk.2.1
  · exact (congrArg (fun t => t.2.2.2.1) h).trans hk.2.2.1
  · exact (congrArg (fun t => t.2.2.2.2.1) h).trans hk.2.2.2.1
  · exact (congrArg (fun t => t.2.2.2.2.2.1) h).trans hk.2.2.2.2.1
  · exact (congrArg (fun t => t.2.2.2.2.2.2) h).trans hk.2.2.2.2.2

/-- The colour block on a request with `hsv` and `hsv.from`. -/
theorem parseColor_hsv_from (mk : String → ValueClass → AbsOrRelValue) (root : JsonVariant)
    (params : RequestParameters) (hhsv : (root.get "hsv").success = true)
    (hfrom : ((root.get "hsv").get "from").success = true) :
    parseColor mk root params =
      { params with
        mode := Mode.Hsv, hasHsvFrom := true
        hsv := parseHsvFields mk ((root.get "hsv").get "from")
          (parseHsvFields mk (root.get "hsv") params.hsv) } := by
  unfold parseColor
  rw [if_pos hhsv, if_pos hfrom]

/-- The colour block on a request with `raw` and `raw.from`, and without `hsv`. -/
theorem parseColor_raw_from (mk : String → ValueClass → AbsOrRelValue) (root : JsonVariant)
    (params : RequestParameters) (hhsv : (root.get "hsv").success = false)
    (hraw : (root.get "raw").success = true)
    (hfrom : ((root.get "raw").get "from").success = true) :
    parseColor mk root params =
      { params with
        mode := Mode.Raw, hasRawFrom := true
        raw := parseRawFields mk (root.get "raw") params.raw
        rawFrom := parseRawFields mk ((root.get "raw").get "from") params.rawFrom } := by
  have hn : ¬ (root.get "hsv").success = true := by rw [hhsv]; decide
  unfold parseColor
  rw [if_neg hn, if_pos hraw, if_pos hfrom]

/-- C22: for a request with an `hsv` object that has a `from` sub-object,
`parseRequestParams` sets the has-from marker, and each of `params.hsv.h`,
`.s`, `.v`, `.ct` holds the value parsed from `hsv.from` when the field is
present there, superseding the one parsed from `hsv`; a field absent from
`hsv.from` keeps the value parsed from `hsv` (or, absent there too, the value
on entry). -/
theorem parseRequestParams_hsv_from (mk : String → ValueClass → AbsOrRelValue)
    (root : JsonVariant) (params : RequestParameters)
    (hhsv : (root.get "hsv").success = true)
    (hfrom : ((root.get "hsv").get "from").success = true) :
    (parseRequestParams mk root params).hasHsvFrom = true ∧
    (parseRequestParams mk root params).hsv.h =
      (if (((root.get "hsv").get "from").get "h").success = true then
        mk (((root.get "hsv").get "from").get "h").asString ValueClass.Hue
      else if ((root.get "hsv").get "h").success = true then
        mk ((root.get "hsv").get "h").asString ValueClass.Hue
      else params.hsv.h) ∧
    (parseRequestParams mk root params).hsv.s =
      (if (((root.get "hsv").get "from").get "s").success = true then
        mk (((root.get "hsv").get "from").get "s").asString ValueClass.Generic
      else if ((root.get "hsv").get "s").success = true then
        mk ((root.get "hsv").get "s").asString ValueClass.Generic
      else params.hsv.s) ∧
    (parseRequestParams mk root params).hsv.v =
      (if (((root.get "hsv").get "from").get "v").success = true then
        mk (((root.get "hsv").get "from").get "v").asString ValueClass.Generic
      else if ((root.get "hsv").get "v").success = true then
        mk ((root.get "hsv").get "v").asString ValueClass.Generic
      else params.hsv.v) ∧
    (parseRequestParams mk root params).hsv.ct =
      (if (((root.get "hsv").get "from").get "ct").success = true then
        mk (((root.get "hsv").get "from").get "ct").asString ValueClass.Ct
      else if ((root.get "hsv").get "ct").success = true then
        mk ((root.get "hsv").get "ct").asString ValueClass.Ct
      else params.hsv.ct) := by
  have hc := parseRequestParams_colour mk root params
  have hp := parseColor_hsv_from mk root params hhsv hfrom
  have hf := parseHsvFields_fields mk ((root.get "hsv").get "from")
    (parseHsvFields mk (root.get "hsv") params.hsv)
  have ht := parseHsvFields_fields mk (root.get "hsv") params.hsv
  rw [hc.1, hc.2.2.1, hp]
  refine ⟨rfl, ?_, ?_, ?_, ?_⟩
  · exact hf.1.trans (by rw [ht.1])
  · exact hf.2.1.trans (by rw [ht.2.1])
  · exact hf.2.2.1.trans (by rw [ht.2.2.1])
  · exact hf.2.2.2.trans (by rw [ht.2.2.2])

/-- C22, evaluated on `{"hsv": {"h": "7", "v": "50", "from": {"h": "9"}}}`:
the marker is set, `hsv.h` holds 9, the value of `hsv.from`, and `hsv.v` keeps
the 50 parsed from `hsv`. -/
theorem parseRequestParams_hsv_from_witness :
    (parseRequestParams AbsOrRelValue.ofText
      (JsonVariant.object [("hsv", JsonVariant.object [("h", jstr "7"), ("v", jstr "50"),
        ("from", JsonVariant.object [("h", jstr "9")])])]) RequestParameters.fresh).hasHsvFrom
      = true ∧
    (parseRequestParams AbsOrRelValue.ofText
      (JsonVariant.object [("hsv", JsonVariant.object [("h", jstr "7"), ("v", jstr "50"),
        ("from", JsonVariant.object [("h", jstr "9")])])]) RequestParameters.fresh).hsv.h
      = absValue 9 ValueClass.Hue ∧
    (parseRequestParams AbsOrRelValue.ofText
      (JsonVariant.object [("hsv", JsonVariant.object [("h", jstr "7"), ("v", jstr "50"),
        ("from", JsonVariant.object [("h", jstr "9")])])]) RequestParameters.fresh).hsv.v
      = absValue 50 ValueClass.Generic :=
  ⟨(parseRequestParams_hsv_from AbsOrRelValue.ofText _ RequestParameters.fresh (by decide)
      (by decide)).1,
    by decide, by decide⟩

/-- No block of `parseRequestParams` writes `params.hsvFrom`: the from block of
`hsv` assigns `params.hsv`. -/
theorem parseRequestParams_hsvFrom (mk : String → ValueClass → AbsOrRelValue)
    (root : JsonVariant) (params : RequestParameters) :
    (parseRequestParams mk root params).hsvFrom = params.hsvFrom := by
  rw [(parseRequestParams_colour mk root params).2.2.2.1]
  unfold parseColor
  split_ifs <;> rfl

/-- C23, the code at the failing input: the request `hsvFromRequest` has
`hsv.from.h = "10"`; after parsing, the marker is set and `params.hsvFrom` is
still the default-constructed one, with no value for `h`, and the two-endpoint
`fadeHSV` is called with this empty from endpoint. -/
theorem parseRequestParams_hsvFrom_empty :
    (((hsvFromRequest.get "hsv").get "from").get "h").success = true ∧
    (requestOf (sampleEnv true) hsvFromRequest).hasHsvFrom = true ∧
    (requestOf (sampleEnv true) hsvFromRequest).hsvFrom = RequestParameters.fresh.hsvFrom ∧
    (requestOf (sampleEnv true) hsvFromRequest).hsvFrom.h.hasValue = false ∧
    (requestOf (sampleEnv true) hsvFromRequest).hsv.h = absValue 10 ValueClass.Hue ∧
    (onSingleColorCommand (sampleEnv true) hsvFromRequest "" []).2.2 =
      [EngineCall.fadeHSVFromTo
        ⟨AbsOrRelValue.none, AbsOrRelValue.none, AbsOrRelValue.none, AbsOrRelValue.none⟩
        ⟨absValue 10 ValueClass.Hue, AbsOrRelValue.none, absValue 50 ValueClass.Generic,
          AbsOrRelValue.none⟩ ⟨700, RampType.Time⟩ 1 QueuePolicy.Back] :=
  ⟨by decide, by decide, by decide, by decide, by decide, by rfl⟩

/-- C24 fails: on `{"raw": {"r": "7", "from": {"r": "9"}}, ...}` the top-level
`raw.r` keeps the 7 of `raw` and the 9 of `raw.from` goes to `rawFrom.r`, while
the parsing worded after the hsv block gives `raw.r` the 9 and leaves `rawFrom`
empty; and on `hsvFromRequest` the value of `hsv.from.h` goes to `hsv.h` and
`hsvFrom` stays empty. -/
theorem raw_from_not_like_hsv_counterexample :
    (parseRequestParams AbsOrRelValue.ofText rawFromRequest RequestParameters.fresh).raw.r
      = absValue 7 ValueClass.Raw ∧
    (parseRequestParams AbsOrRelValue.ofText rawFromRequest RequestParameters.fresh).rawFrom.r
      = absValue 9 ValueClass.Raw ∧
    (parseRawLikeHsv AbsOrRelValue.ofText rawFromRequest RequestParameters.fresh).raw.r
      = absValue 9 ValueClass.Raw ∧
    (parseRawLikeHsv AbsOrRelValue.ofText rawFromRequest RequestParameters.fresh).rawFrom.r
      = AbsOrRelValue.none ∧
    (parseRequestParams AbsOrRelValue.ofText hsvFromRequest RequestParameters.fresh).hsv.h
      = absValue 10 ValueClass.Hue ∧
    (parseRequestParams AbsOrRelValue.ofText hsvFromRequest RequestParameters.fresh).hsvFrom.h
      = AbsOrRelValue.none :=
  ⟨by decide, by decide, by decide, by decide, by decide, by decide⟩

/-- C24, amended: for a request with a `raw` object that has a `from`
sub-object (and no `hsv` object), `parseRequestParams` sets the has-from marker
as it does for hsv; each top-level field `params.raw.r`, `.g`, `.b`, `.ww`,
`.cw` holds the value parsed from `raw` itself, whatever `raw.from` holds; and
each field of `params.rawFrom` holds the value parsed from `raw.from`. -/
theorem parseRequestParams_raw_from (mk : String → ValueClass → AbsOrRelValue)
    (root : JsonVariant) (params : RequestParameters)
    (hhsv : (root.get "hsv").success = false) (hraw : (root.get "raw").success = true)
    (hfrom : ((root.get "raw").get "from").success = true) :
    (parseRequestParams mk root params).hasRawFrom = true ∧
    (parseRequestParams mk root params).raw = parseRawFields mk (root.get "raw") params.raw ∧
    (parseRequestParams mk root params).rawFrom =
      parseRawFields mk ((root.get "raw").get "from") params.rawFrom ∧
    ((parseRequestParams mk root params).raw.r =
        (if ((root.get "raw").get "r").success = true then
          mk ((root.get "raw").get "r").asString ValueClass.Raw else params.raw.r) ∧
      (parseRequestParams mk root params).raw.g =
        (if ((root.get "raw").get "g").success = true then
          mk ((root.get "raw").get "g").asString ValueClass.Raw else params.raw.g) ∧
      (parseRequestParams mk root params).raw.b =
        (if ((root.get "raw").get "b").success = true then
          mk ((root.get "raw").get "b").asString ValueClass.Raw else params.raw.b) ∧
      (parseRequestParams mk root params).raw.ww =
        (if ((root.get "raw").get "ww").success = true then
          mk ((root.get "raw").get "ww").asString ValueClass.Raw else params.raw.ww) ∧
      (parseRequestParams mk root params).raw.cw =
        (if ((root.get "raw").get "cw").success = true then
          mk ((root.get "raw").get "cw").asString ValueClass.Raw else params.raw.cw)) ∧
    ((parseRequestParams mk root params).rawFrom.r =
        (if (((root.get "raw").get "from").get "r").success = true then
          mk (((root.get "raw").get "from").get "r").asString ValueClass.Raw
        else params.rawFrom.r) ∧
      (parseRequestParams mk root params).rawFrom.g =
        (if (((root.get "raw").get "from").get "g").success = true then
          mk (((root.get "raw").get "from").get "g").asString ValueClass.Raw
        else params.rawFrom.g) ∧
      (parseRequestParams mk root params).rawFrom.b =
        (if (((root.get "raw").get "from").get "b").success = true then
          mk (((root.get "raw").get "from").get "b").asString ValueClass.Raw
        else params.rawFrom.b) ∧
      (parseRequestParams mk root params).rawFrom.ww =
        (if (((root.get "raw").get "from").get "ww").success = true then
          mk (((root.get "raw").get "from").get "ww").asString ValueClass.Raw
        else params.rawFrom.ww) ∧
      (parseRequestParams mk root params).rawFrom.cw =
        (if (((root.get "raw").get "from").get "cw").success = true then
          mk (((root.get "raw").get "from").get "cw").asString ValueClass.Raw
        else params.rawFrom.cw)) := by
  have hc := parseRequestParams_colour mk root params
  have hp := parseColor_raw_from mk root params hhsv hraw hfrom
  rw [hc.2.1, hc.2.2.2.2.1, hc.2.2.2.2.2, hp]
  exact ⟨rfl, rfl, rfl, parseRawFields_fields mk (root.get "raw") params.raw,
    parseRawFields_fields mk ((root.get "raw").get "from") params.rawFrom⟩

/-- C24 amended, evaluated on `rawFromRequest`: the marker is set, `raw.r`
holds the 7 of `raw` and `rawFrom.r` the 9 of `raw.from`. -/
theorem parseRequestParams_raw_from_witness :
    ((rawFromRequest.get "hsv").success = false ∧ (rawFromRequest.get "raw").success = true ∧
      ((rawFromRequest.get "raw").get "from").success = true) ∧
    (parseRequestParams AbsOrRelValue.ofText rawFromRequest RequestParameters.fresh).hasRawFrom
      = true ∧
    (parseRequestParams AbsOrRelValue.ofText rawFromRequest RequestParameters.fresh).raw.r
      = absValue 7 ValueClass.Raw ∧
    (parseRequestParams AbsOrRelValue.ofText rawFromRequest RequestParameters.fresh).rawFrom.r
      = absValue 9 ValueClass.Raw :=
  ⟨⟨by decide, by decide, by decide⟩,
    (parseRequestParams_raw_from AbsOrRelValue.ofText rawFromRequest RequestParameters.fresh
      (by decide) (by decide) (by decide)).1,
    by decide, by decide⟩

/-! ## The channel list -/

/-- Only the block on `root["channels"]` writes the channel list. -/
theorem parseColor_channels (mk : String → ValueClass → AbsOrRelValue) (root : JsonVariant)
    (params : RequestParameters) :
    (parseColor mk root params).channels = params.channels := by
  unfold parseColor
  split_ifs <;> rfl

theorem parseKelvinMode_channels (root : JsonVariant) (params : RequestParameters) :
    (parseKelvinMode root params).channels = params.channels := by
  unfold parseKelvinMode
  split_ifs <;> rfl

theorem parseRampTime_channels (root : JsonVariant) (params : RequestParameters) :
    (parseRampTime root params).channels = params.channels := by
  unfold parseRampTime
  split_ifs <;> rfl

theorem parseRampSpeed_channels (root : JsonVariant) (params : RequestParameters) :
    (parseRampSpeed root params).channels = params.channels := by
  unfold parseRampSpeed
  split_ifs <;> rfl

theorem parseRequeue_channels (root : JsonVariant) (params : RequestParameters) :
    (parseRequeue root params).channels = params.channels := by
  unfold parseRequeue
  split_ifs <;> rfl

theorem parseKelvin_channels (root : JsonVariant) (params : RequestParameters) :
    (parseKelvin root params).channels = params.channels := by
  unfold parseKelvin
  split_ifs <;> rfl

theorem parseDirection_channels (root : JsonVariant) (params : RequestParameters) :
    (parseDirection root params).channels = params.channels := by
  unfold parseDirection
  split_ifs <;> rfl

theorem parseName_channels (root : JsonVariant) (params : RequestParameters) :
    (parseName root params).channels = params.channels := by
  unfold parseName
  split_ifs <;> rfl

theorem parseCmd_channels (root : JsonVariant) (params : RequestParameters) :
    (parseCmd root params).channels = params.channels := by
  unfold parseCmd
  split_ifs <;> rfl

theorem parseQueue_channels (root : JsonVariant) (params : RequestParameters) :
    (parseQueue root params).channels = params.channels := by
  unfold parseQueue
  split_ifs <;> rfl

/-- The loop over the `channels` array appends the channels of the recognised
tokens, in order. -/
theorem addChannels_eq (items : List JsonVariant) :
    ∀ channels : List CtrlChannel,
      addChannels items channels =
        channels ++ items.filterMap (fun item => channelOfToken item.asString) := by
  induction items with
  | nil =>
    intro channels
    simp [addChannels]
  | cons item rest ih =>
    intro channels
    rw [List.filterMap_cons]
    unfold addChannels
    by_cases h1 : item.asString = "h"
    · have hc : channelOfToken item.asString = some CtrlChannel.Hue := by
        unfold channelOfToken
        rw [if_pos h1]
      simp only [if_pos h1, hc, ih, List.append_assoc, List.singleton_append]
    · by_cases h2 : item.asString = "s"
      · have hc : channelOfToken item.asString = some CtrlChannel.Sat := by
          unfold channelOfToken
          rw [if_neg h1, if_pos h2]
        simp only [if_neg h1, if_pos h2, hc, ih, List.append_assoc, List.singleton_append]
      · by_cases h3 : item.asString = "v"
        · have hc : channelOfToken item.asString = some CtrlChannel.Val := by
            unfold channelOfToken
            rw [if_neg h1, if_neg h2, if_pos h3]
          simp only [if_neg h1, if_neg h2, if_pos h3, hc, ih, List.append_assoc,
            List.singleton_append]
        · by_cases h4 : item.asString = "ct"
          · have hc : channelOfToken item.asString = some CtrlChannel.ColorTemp := by
              unfold channelOfToken
              rw [if_neg h1, if_neg h2, if_neg h3, if_pos h4]
            simp only [if_neg h1, if_neg h2, if_neg h3, if_pos h4, hc, ih, List.append_assoc,
              List.singleton_append]
          · have hc : channelOfToken item.asString = none := by
              unfold channelOfToken
              rw [if_neg h1, if_neg h2, if_neg h3, if_neg h4]
            simp only [if_neg h1, if_neg h2, if_neg h3, if_neg h4, hc, ih]

/-- C25: with a `channels` array, `parseRequestParams` appends to the channel
list, in array order, the channel of each recognised token ("h": Hue, "s":
Sat, "v": Val, "ct": ColorTemp) and drops every other token; only these four
channels are ever added; an array without a recognised token leaves the list
as a request without `channels` does. -/
theorem parseRequestParams_channels (mk : String → ValueClass → AbsOrRelValue)
    (root : JsonVariant) (params : RequestParameters) :
    ((root.get "channels").success = true →
      (parseRequestParams mk root params).channels =
        params.channels ++ (root.get "channels").asArray.filterMap
          (fun item => channelOfToken item.asString)) ∧
    ((root.get "channels").success = false →
      (parseRequestParams mk root params).channels = params.channels) ∧
    (∀ token : String,
      (token = "h" → channelOfToken token = some CtrlChannel.Hue) ∧
      (token = "s" → channelOfToken token = some CtrlChannel.Sat) ∧
      (token = "v" → channelOfToken token = some CtrlChannel.Val) ∧
      (token = "ct" → channelOfToken token = some CtrlChannel.ColorTemp) ∧
      (token ≠ "h" → token ≠ "s" → token ≠ "v" → token ≠ "ct" → channelOfToken token = none)) ∧
    (∀ ch ∈ (root.get "channels").asArray.filterMap (fun item => channelOfToken item.asString),
      ch = CtrlChannel.Hue ∨ ch = CtrlChannel.Sat ∨ ch = CtrlChannel.Val ∨
        ch = CtrlChannel.ColorTemp) ∧
    ((∀ item ∈ (root.get "channels").asArray, channelOfToken item.asString = none) →
      (parseRequestParams mk root params).channels = params.channels) := by
  have hprev : (parseQueue root (parseCmd root (parseName root (parseDirection root
      (parseKelvin root (parseRequeue root (parseRampSpeed root (parseRampTime root
      (parseKelvinMode root (parseColor mk root params)))))))))).channels = params.channels := by
    rw [parseQueue_channels, parseCmd_channels, parseName_channels, parseDirection_channels,
      parseKelvin_channels, parseRequeue_channels, parseRampSpeed_channels,
      parseRampTime_channels, parseKelvinMode_channels, parseColor_channels]
  have hpresent : (root.get "channels").success = true →
      (parseRequestParams mk root params).channels =
        params.channels ++ (root.get "channels").asArray.filterMap
          (fun item => channelOfToken item.asString) := by
    intro h
    unfold parseRequestParams
    simp only [parseChannels, if_pos h]
    rw [addChannels_eq, hprev]
  have habsent : (root.get "channels").success = false →
      (parseRequestParams mk root params).channels = params.channels := by
    intro h
    have hn : ¬ (root.get "channels").success = true := by rw [h]; decide
    unfold parseRequestParams
    simp only [parseChannels, if_neg hn]
    exact hprev
  refine ⟨hpresent, habsent, ?_, ?_, ?_⟩
  · intro token
    refine ⟨?_, ?_, ?_, ?_, ?_⟩
    · intro h
      rw [h]
      decide
    · intro h
      rw [h]
      decide
    · intro h
      rw [h]
      decide
    · intro h
      rw [h]
      decide
    · intro h1 h2 h3 h4
      simp only [channelOfToken, if_neg h1, if_neg h2, if_neg h3, if_neg h4]
  · intro ch hch
    obtain ⟨item, -, hitem⟩ := List.mem_filterMap.mp hch
    unfold channelOfToken at hitem
    split_ifs at hitem
    all_goals (cases hitem; simp)
  · intro hall
    by_cases h : (root.get "channels").success = true
    · rw [hpresent h]
      have : (root.get "channels").asArray.filterMap (fun item => channelOfToken item.asString)
          = [] := by
        rw [List.filterMap_eq_nil_iff]
        exact hall
      rw [this, List.append_nil]
    · exact habsent (by simpa using h)

/-- C25, evaluated: `["v", "r", "h", "x", "ct"]` gives Val, Hue, ColorTemp;
`["r", "g", "b", "ww", "cw"]` gives the empty list, as a request without
`channels` does. -/
theorem parseRequestParams_channels_witness :
    (parseRequestParams AbsOrRelValue.ofText
      (JsonVariant.object [("channels", JsonVariant.array
        [jstr "v", jstr "r", jstr "h", jstr "x", jstr "ct"])]) RequestParameters.fresh).channels
      = [] ++ [CtrlChannel.Val, CtrlChannel.Hue, CtrlChannel.ColorTemp] ∧
    (parseRequestParams AbsOrRelValue.ofText
      (JsonVariant.object [("channels", JsonVariant.array
        [jstr "r", jstr "g", jstr "b", jstr "ww", jstr "cw"])]) RequestParameters.fresh).channels
      = [] ∧
    (parseRequestParams AbsOrRelValue.ofText (JsonVariant.object [])
      RequestParameters.fresh).channels = [] :=
  ⟨(parseRequestParams_channels AbsOrRelValue.ofText
      (JsonVariant.object [("channels", JsonVariant.array
        [jstr "v", jstr "r", jstr "h", jstr "x", jstr "ct"])]) RequestParameters.fresh).1
      (by decide),
    by decide, by decide⟩

/-! ## Stop and blink -/

/-- C26: for every request, `onStop` returns true and makes, in this order,
the calls `clearAnimationQueue(channels)` and `skipAnimation(channels)` on the
channel list of the request, then the direct apply of its colour
(`colorDirectHSV(hsv)` in mode Hsv, `colorDirectRAW(raw)` in mode Raw, no call
in the other modes), then, if and only if `relay` is set, one relay of the
command "stop"; `checkParams` is not consulted. -/
theorem onStop_calls (env : Env) (cur : List EngineCall → CurrentState) (root : JsonVariant)
    (msg : String) (relay : Bool) (log : List EngineCall) :
    (onStop env cur root msg relay log).1 = true ∧
    ∃ direct : List EngineCall,
      ((requestOf env root).mode = Mode.Hsv →
        direct = [EngineCall.colorDirectHSV (requestOf env root).hsv]) ∧
      ((requestOf env root).mode = Mode.Raw →
        direct = [EngineCall.colorDirectRAW (requestOf env root).raw]) ∧
      ((requestOf env root).mode ≠ Mode.Hsv → (requestOf env root).mode ≠ Mode.Raw →
        direct = []) ∧
      (relay = false →
        (onStop env cur root msg relay log).2.2 =
          log ++ [EngineCall.clearAnimationQueue (requestOf env root).channels,
            EngineCall.skipAnimation (requestOf env root).channels] ++ direct) ∧
      (relay = true → ∃ payload : JsonVariant,
        (onStop env cur root msg relay log).2.2 =
          log ++ [EngineCall.clearAnimationQueue (requestOf env root).channels,
            EngineCall.skipAnimation (requestOf env root).channels] ++ direct ++
            [EngineCall.onCommandRelay "stop" payload]) := by
  have hdirect : ∀ l : List EngineCall, ∃ direct : List EngineCall,
      (onDirect env root msg false l).2.2 = l ++ direct ∧
      ((requestOf env root).mode = Mode.Hsv →
        direct = [EngineCall.colorDirectHSV (requestOf env root).hsv]) ∧
      ((requestOf env root).mode = Mode.Raw →
        direct = [EngineCall.colorDirectRAW (requestOf env root).raw]) ∧
      ((requestOf env root).mode ≠ Mode.Hsv → (requestOf env root).mode ≠ Mode.Raw →
        direct = []) := by
    intro l
    unfold onDirect
    by_cases hk : (requestOf env root).mode = Mode.Kelvin
    · refine ⟨[], by simp [hk], ?_, ?_, fun _ _ => rfl⟩
      · intro h
        rw [hk] at h
        exact absurd h (by decide)
      · intro h
        rw [hk] at h
        exact absurd h (by decide)
    · by_cases hh : (requestOf env root).mode = Mode.Hsv
      · refine ⟨[EngineCall.colorDirectHSV (requestOf env root).hsv], by simp [hk, hh],
          fun _ => rfl, ?_, fun h _ => absurd hh h⟩
        intro h
        rw [hh] at h
        exact absurd h (by decide)
      · by_cases hr : (requestOf env root).mode = Mode.Raw
        · exact ⟨[EngineCall.colorDirectRAW (requestOf env root).raw], by simp [hk, hh, hr],
            fun h => absurd h hh, fun _ => rfl, fun _ h => absurd hr h⟩
        · exact ⟨[], by simp [hk, hh, hr], fun h => absurd h hh, fun h => absurd h hr,
            fun _ _ => rfl⟩
  obtain ⟨direct, hlog, h1, h2, h3⟩ := hdirect
    (log ++ [EngineCall.clearAnimationQueue (requestOf env root).channels] ++
      [EngineCall.skipAnimation (requestOf env root).channels])
  constructor
  · unfold onStop
    cases relay <;> rfl
  · refine ⟨direct, h1, h2, h3, ?_, ?_⟩
    · intro hrel
      unfold onStop
      simp only [hrel, hlog]
      simp
    · intro hrel
      refine ⟨addChannelStatesToCmd (cur (onDirect env root msg false
        (log ++ [EngineCall.clearAnimationQueue (requestOf env root).channels] ++
          [EngineCall.skipAnimation (requestOf env root).channels])).2.2) root
        (requestOf env root).channels, ?_⟩
      unfold onStop
      simp only [hrel, hlog]
      simp

/-- C26, evaluated with the engine state `sampleState`: the request
`{"hsv": {"v": "50"}, "channels": ["v"]}` with relay gives the four calls in
order, the relay carrying the current value of `v`; the request
`{"q": "bogus"}` without relay, which has no colour and would fail
`checkParams`, gives the two queue calls, the message "No color object!" and
the result true. -/
theorem onStop_calls_witness :
    onStop (sampleEnv true) (fun _ => sampleState)
        (JsonVariant.object [("hsv", JsonVariant.object [("v", jstr "50")]),
          ("channels", JsonVariant.array [jstr "v"])]) "" true [] =
      (true, "", [EngineCall.clearAnimationQueue [CtrlChannel.Val],
        EngineCall.skipAnimation [CtrlChannel.Val],
        EngineCall.colorDirectHSV ⟨AbsOrRelValue.none, AbsOrRelValue.none,
          absValue 50 ValueClass.Generic, AbsOrRelValue.none⟩,
        EngineCall.onCommandRelay "stop"
          (JsonVariant.object [("hsv", JsonVariant.object [("v", jint "" 50)]),
            ("channels", JsonVariant.array [jstr "v"])])]) ∧
    onStop (sampleEnv true) (fun _ => sampleState)
        (JsonVariant.object [("q", jstr "bogus")]) "" false [] =
      (true, "No color object!", [EngineCall.clearAnimationQueue [],
        EngineCall.skipAnimation []]) ∧
    (onStop (sampleEnv true) (fun _ => sampleState)
        (JsonVariant.object [("q", jstr "bogus")]) "" false []).1 = true :=
  ⟨by rfl, by rfl,
    (onStop_calls (sampleEnv true) (fun _ => sampleState)
      (JsonVariant.object [("q", jstr "bogus")]) "" false []).1⟩

/-- C27: `onBlink` returns true and calls `blink` exactly once, before the
relay if any, with the channel list, queue, requeue flag and name of the parsed
request; the period is 500 when the request has neither `t` nor `s`, the value
of `s` when `s` is present, and the value of `t` when only `t` is present. -/
theorem onBlink_calls (env : Env) (root : JsonVariant) (msg : String) (relay : Bool)
    (log : List EngineCall) :
    (onBlink env root msg relay log).1 = true ∧
    ∃ period : ℚ,
      (onBlink env root msg relay log).2.2 =
        log ++ [EngineCall.blink
          (parseRequestParams env.mkValue root
            { env.fresh with ramp := { env.fresh.ramp with value := 500 } }).channels period
          (parseRequestParams env.mkValue root
            { env.fresh with ramp := { env.fresh.ramp with value := 500 } }).queue
          (parseRequestParams env.mkValue root
            { env.fresh with ramp := { env.fresh.ramp with value := 500 } }).requeue
          (parseRequestParams env.mkValue root
            { env.fresh with ramp := { env.fresh.ramp with value := 500 } }).name] ++
          (if relay = true then [EngineCall.onCommandRelay "blink" root] else []) ∧
      ((root.get "t").success = false → (root.get "s").success = false → period = 500) ∧
      ((root.get "s").success = true → period = (root.get "s").asDouble) ∧
      ((root.get "s").success = false → (root.get "t").success = true →
        period = (root.get "t").asDouble) := by
  have hr := parseRequestParams_ramp env.mkValue root
    { env.fresh with ramp := { env.fresh.ramp with value := 500 } }
  constructor
  · unfold onBlink
    cases relay <;> rfl
  · refine ⟨(parseRequestParams env.mkValue root
      { env.fresh with ramp := { env.fresh.ramp with value := 500 } }).ramp.value, ?_, ?_, ?_, ?_⟩
    · unfold onBlink
      cases relay <;> simp
    · intro ht hs
      rw [hr, hs, ht]
      rfl
    · intro hs
      rw [hr, if_pos hs]
    · intro hs ht
      rw [hr, hs, ht]
      rfl

/-- C27, evaluated: `{"channels": ["h"], "q": "front", "r": 1, "name": "b"}`
blinks with period 500; with `"t": 300` the period is 300; with `"t": 300` and
`"s": 2` it is 2. -/
theorem onBlink_calls_witness :
    onBlink (sampleEnv true)
        (JsonVariant.object [("channels", JsonVariant.array [jstr "h"]), ("q", jstr "front"),
          ("r", jint "1" 1), ("name", jstr "b")]) "" false [] =
      (true, "", [EngineCall.blink [CtrlChannel.Hue] 500 QueuePolicy.Front true "b"]) ∧
    onBlink (sampleEnv true) (JsonVariant.object [("t", jint "300" 300)]) "" false [] =
      (true, "", [EngineCall.blink [] 300 QueuePolicy.Back false ""]) ∧
    onBlink (sampleEnv true) (JsonVariant.object [("t", jint "300" 300), ("s", jint "2" 2)])
        "" true [] =
      (true, "", [EngineCall.blink [] 2 QueuePolicy.Back false "",
        EngineCall.onCommandRelay "blink"
          (JsonVariant.object [("t", jint "300" 300), ("s", jint "2" 2)])]) ∧
    (onBlink (sampleEnv true) (JsonVariant.object [("t", jint "300" 300)]) "" false []).1
      = true :=
  ⟨by rfl, by rfl, by rfl,
    (onBlink_calls (sampleEnv true) (JsonVariant.object [("t", jint "300" 300)]) "" false []).1⟩

/-! ## The relay of a colour command -/

/-- The calls added by `onSingleColorCommand` are calls on the engine, never a
relay. -/
theorem onSingleColorCommand_no_relay (env : Env) (root : JsonVariant) (errorMsg : String)
    (log : List EngineCall) :
    ∃ added : List EngineCall,
      (onSingleColorCommand env root errorMsg log).2.2 = log ++ added ∧
      ∀ c ∈ added, isRelay c = false := by
  have hnil : ∀ l : List EngineCall, l = log → ∃ added : List EngineCall,
      l = log ++ added ∧ ∀ c ∈ added, isRelay c = false :=
    fun l hl => ⟨[], by rw [hl, List.append_nil], fun c hc => absurd hc (List.not_mem_nil c)⟩
  have hone : ∀ (l : List EngineCall) (call : EngineCall), l = log ++ [call] →
      isRelay call = false → ∃ added : List EngineCall,
      l = log ++ added ∧ ∀ c ∈ added, isRelay c = false := by
    intro l call hl hcall
    refine ⟨[call], hl, ?_⟩
    intro c hc
    rw [List.mem_singleton.mp hc]
    exact hcall
  unfold onSingleColorCommand
  by_cases hc : ((requestOf env root).checkParams errorMsg).1 ≠ 0
  · simp only [if_pos hc]
    exact hnil _ rfl
  · simp only [if_neg hc]
    by_cases hk : (requestOf env root).mode = Mode.Kelvin
    · simp only [if_pos hk]
      exact hnil _ rfl
    · simp only [if_neg hk]
      by_cases hh : (requestOf env root).mode = Mode.Hsv
      · simp only [if_pos hh]
        by_cases hf : (requestOf env root).hasHsvFrom = false
        · simp only [if_pos hf]
          by_cases hfade : (requestOf env root).cmd = "fade"
          · simp only [if_pos hfade]
            exact hone _ _ rfl rfl
          · simp only [if_neg hfade]
            exact hone _ _ rfl rfl
        · simp only [if_neg hf]
          exact hone _ _ rfl rfl
      · simp only [if_neg hh]
        by_cases hr : (requestOf env root).mode = Mode.Raw
        · simp only [if_pos hr]
          by_cases hf : (requestOf env root).hasRawFrom = false
          · simp only [if_pos hf]
            by_cases hfade : (requestOf env root).cmd = "fade"
            · simp only [if_pos hfade]
              exact hone _ _ rfl rfl
            · simp only [if_neg hfade]
              exact hone _ _ rfl rfl
          · simp only [if_neg hf]
            exact hone _ _ rfl rfl
        · simp only [if_neg hr]
          exact hnil _ rfl

/-- The calls added by the items of a batch are never a relay. -/
theorem runEach_no_relay (env : Env) (items : List JsonVariant) :
    ∀ log : List EngineCall, ∃ added : List EngineCall,
      (runEach env items log).2 = log ++ added ∧ ∀ c ∈ added, isRelay c = false := by
  induction items with
  | nil =>
    intro log
    exact ⟨[], by simp [runEach], by simp⟩
  | cons item rest ih =>
    intro log
    obtain ⟨a1, h1, r1⟩ := onSingleColorCommand_no_relay env item "" log
    obtain ⟨a2, h2, r2⟩ := ih (onSingleColorCommand env item "" log).2.2
    refine ⟨a1 ++ a2, ?_, ?_⟩
    · simp only [runEach]
      rw [h2, h1, List.append_assoc]
    · intro c hc
      rcases List.mem_append.mp hc with h | h
      · exact r1 c h
      · exact r2 c h

/-- C28 fails: the single request with the unknown queue token "bogus" fails
validation, `onColor` returns false with "Invalid queue policy", and with
`relay` set the command is relayed all the same. -/
theorem onColor_rejected_relayed_counterexample :
    onColor (sampleEnv true)
        (hsvRequest (JsonVariant.object [("v", jstr "50")]) "fade" "bogus") "" true [] =
      (false, "Invalid queue policy",
        [EngineCall.onCommandRelay "color"
          (hsvRequest (JsonVariant.object [("v", jstr "50")]) "fade" "bogus")]) ∧
    (onColor (sampleEnv true) batchRequest "" true []).1 = false ∧
    (onColor (sampleEnv true) batchRequest "" true []).2.2.filter isRelay =
      [EngineCall.onCommandRelay "color" batchRequest] :=
  ⟨by rfl, by decide, by rfl⟩

/-- C28, amended: for every colour request, single or batch, `onColor` with
`relay` set makes the same engine calls and returns the same result as without
it, and then relays the command "color" exactly once, whether the result is
true or false; without `relay` it relays nothing. -/
theorem onColor_relay (env : Env) (root : JsonVariant) (msg : String)
    (log : List EngineCall) :
    (onColor env root msg true log).1 = (onColor env root msg false log).1 ∧
    (onColor env root msg true log).2.1 = (onColor env root msg false log).2.1 ∧
    (onColor env root msg true log).2.2 =
      (onColor env root msg false log).2.2 ++ [EngineCall.onCommandRelay "color" root] ∧
    ∃ added : List EngineCall,
      (onColor env root msg false log).2.2 = log ++ added ∧ ∀ c ∈ added, isRelay c = false := by
  refine ⟨by simp [onColor], by simp [onColor], by simp [onColor], ?_⟩
  by_cases hcmds : (root.get "cmds").success = true
  · obtain ⟨added, h, r⟩ := runEach_no_relay env (root.get "cmds").asArray log
    refine ⟨added, ?_, r⟩
    unfold onColor
    simp only [if_pos hcmds, runCmds_eq_runEach, Bool.false_eq_true, if_false]
    split_ifs <;> exact h
  · obtain ⟨added, h, r⟩ := onSingleColorCommand_no_relay env root msg log
    refine ⟨added, ?_, r⟩
    unfold onColor
    simp only [if_neg hcmds, Bool.false_eq_true, if_false]
    exact h

/-- C28 amended, evaluated: an accepted request and a rejected one are both
relayed once with `relay` set, and not at all without it. -/
theorem onColor_relay_witness :
    (onColor (sampleEnv true)
        (hsvRequest (JsonVariant.object [("v", jstr "50")]) "fade" "back") "" true []).2.2.filter
        isRelay =
      [EngineCall.onCommandRelay "color"
        (hsvRequest (JsonVariant.object [("v", jstr "50")]) "fade" "back")] ∧
    (onColor (sampleEnv true)
        (hsvRequest (JsonVariant.object [("v", jstr "50")]) "fade" "bogus") "" true []).2.2 =
      (onColor (sampleEnv true)
        (hsvRequest (JsonVariant.object [("v", jstr "50")]) "fade" "bogus") "" false []).2.2 ++
        [EngineCall.onCommandRelay "color"
          (hsvRequest (JsonVariant.object [("v", jstr "50")]) "fade" "bogus")] ∧
    (onColor (sampleEnv true)
        (hsvRequest (JsonVariant.object [("v", jstr "50")]) "fade" "bogus") "" false []).2.2
      = [] :=
  ⟨by rfl,
    (onColor_relay (sampleEnv true)
      (hsvRequest (JsonVariant.object [("v", jstr "50")]) "fade" "bogus") "" []).2.2.1,
    by rfl⟩

/-! ## Unknown JSON-RPC methods -/

/-- For a method that is none of the seven handled ones, `onJsonRpc` makes no
call and reaches the end of the function without a value to return. -/
theorem onJsonRpc_unknown (env : Env) (cur : List EngineCall → CurrentState) (method : String)
    (params : JsonVariant) (log : List EngineCall)
    (h1 : method ≠ "color") (h2 : method ≠ "stop") (h3 : method ≠ "blink")
    (h4 : method ≠ "skip") (h5 : method ≠ "pause") (h6 : method ≠ "continue")
    (h7 : method ≠ "direct") :
    onJsonRpc env cur method params log = (none, log) := by
  unfold onJsonRpc
  rw [if_neg h1, if_neg h2, if_neg h3, if_neg h4, if_neg h5, if_neg h6, if_neg h7]

/-- C29, the code at the failing input: for the method "reboot" `onJsonRpc`
makes no call and returns no defined value (control reaches the end of the
function, which has no `return` there); in particular it does not return
false.  A handled method returns a value. -/
theorem onJsonRpc_unknown_no_value :
    onJsonRpc (sampleEnv true) (fun _ => sampleState) "reboot" (JsonVariant.object []) [] =
      (none, []) ∧
    (onJsonRpc (sampleEnv true) (fun _ => sampleState) "reboot" (JsonVariant.object []) []).1
      ≠ some false ∧
    (onJsonRpc (sampleEnv true) (fun _ => sampleState) "continue" (JsonVariant.object [])
      []).1 = some true :=
  ⟨onJsonRpc_unknown _ _ _ _ _ (by decide) (by decide) (by decide) (by decide) (by decide)
      (by decide) (by decide),
    by
      rw [onJsonRpc_unknown _ _ _ _ _ (by decide) (by decide) (by decide) (by decide)
        (by decide) (by decide) (by decide)]
      exact fun h => Option.noConfusion h,
    by rfl⟩

end JsonProcessor

namespace ClockCatchUp

/-! ## The cumulative offset telescopes -/

/-- The update of the cumulative offset by one beat, up to the reduction to
`int`: the master distance minus the local distance is added. -/
theorem toInt32_offset_step (a : Int) (L l M m : Nat) :
    toInt32 (a + toInt32 (toInt32 (StepSync.calcOverflowVal M m) -
        toInt32 (StepSync.calcOverflowVal L l))) =
      toInt32 (a + (((m : Int) - (M : Int)) - ((l : Int) - (L : Int)))) := by
  unfold StepSync.calcOverflowVal toInt32
  simp only
  split_ifs <;> omega

/-- Reducing an intermediate sum to `int` does not change the reduced total. -/
theorem toInt32_add_toInt32 (x y : Int) : toInt32 (toInt32 x + y) = toInt32 (x + y) := by
  unfold toInt32
  omega

/-- The last-seen pair after a sequence of beats is the last beat. -/
theorem run_last_seen (beats : List (Nat × Nat)) :
    ∀ c : ClockCatchUp,
      ((c.run beats).stepsSyncLast, (c.run beats).stepsSyncMasterLast) =
        beats.getLast?.getD (c.stepsSyncLast, c.stepsSyncMasterLast) := by
  induction beats with
  | nil =>
    intro c
    rfl
  | cons beat rest ih =>
    intro c
    have h := ih (c.onMasterClock beat.1 beat.2).2
    have hl : (c.onMasterClock beat.1 beat.2).2.stepsSyncLast = beat.1 := by
      simp [onMasterClock]
    have hm : (c.onMasterClock beat.1 beat.2).2.stepsSyncMasterLast = beat.2 := by
      simp [onMasterClock]
    rw [hl, hm] at h
    simp only [run]
    rw [h, List.getLast?_cons]
    rfl

/-- From a synced state whose offset is in the range of `int`, the offset after
a sequence of beats is the offset before, plus the master distance from the
last-seen master step to the last one, minus the same local distance, reduced
to `int`. -/
theorem run_offset (beats : List (Nat × Nat)) :
    ∀ c : ClockCatchUp, c.firstMasterSync = false → toInt32 c.catchupOffset = c.catchupOffset →
      (c.run beats).catchupOffset =
        toInt32 (c.catchupOffset +
          ((((c.run beats).stepsSyncMasterLast : Int) - (c.stepsSyncMasterLast : Int)) -
            (((c.run beats).stepsSyncLast : Int) - (c.stepsSyncLast : Int)))) := by
  induction beats with
  | nil =>
    intro c _ hr
    simp only [run, sub_self, add_zero]
    exact hr.symm
  | cons beat rest ih =>
    intro c hs hr
    have hs1 : (c.onMasterClock beat.1 beat.2).2.firstMasterSync = false := by
      simp [onMasterClock]
    have hl : (c.onMasterClock beat.1 beat.2).2.stepsSyncLast = beat.1 := by
      simp [onMasterClock]
    have hm : (c.onMasterClock beat.1 beat.2).2.stepsSyncMasterLast = beat.2 := by
      simp [onMasterClock]
    have hoff : (c.onMasterClock beat.1 beat.2).2.catchupOffset =
        toInt32 (c.catchupOffset + (((beat.2 : Int) - (c.stepsSyncMasterLast : Int)) -
          ((beat.1 : Int) - (c.stepsSyncLast : Int)))) := by
      rw [onMasterClock_catchupOffset c beat.1 beat.2 hs]
      exact toInt32_offset_step _ _ _ _ _
    have hr1 : toInt32 (c.onMasterClock beat.1 beat.2).2.catchupOffset =
        (c.onMasterClock beat.1 beat.2).2.catchupOffset := by
      rw [hoff]
      exact toInt32_of_range _ (toInt32_range _).1 (toInt32_range _).2
    have h := ih (c.onMasterClock beat.1 beat.2).2 hs1 hr1
    simp only [run]
    rw [h, hl, hm, hoff, toInt32_add_toInt32]
    congr 1
    ring

/-- C30: after `reset()` and the beats `(l0, m0), ..., (ln, mn)`, the value of
`getCatchupOffset()` is `(mn - m0) - (ln - l0)` taken modulo `2^32` as a signed
value, where `(ln, mn)` is the last beat (the first one when there is no
other).  It is the same for every controller, whatever its base interval and
its steering before `reset()`, and the same for two sequences that share the
first and the last beat. -/
theorem offset_telescopes (c : ClockCatchUp) (first : Nat × Nat) (rest : List (Nat × Nat)) :
    (c.reset.2.run (first :: rest)).getCatchupOffset.1 =
      toInt32 ((((rest.getLast?.getD first).2 : Int) - (first.2 : Int)) -
        (((rest.getLast?.getD first).1 : Int) - (first.1 : Int))) ∧
    (∀ c2 : ClockCatchUp,
      (c2.reset.2.run (first :: rest)).getCatchupOffset.1 =
        (c.reset.2.run (first :: rest)).getCatchupOffset.1) ∧
    (∀ (mid1 mid2 : List (Nat × Nat)) (last : Nat × Nat),
      (c.reset.2.run (first :: (mid1 ++ [last]))).getCatchupOffset.1 =
        (c.reset.2.run (first :: (mid2 ++ [last]))).getCatchupOffset.1) := by
  have key : ∀ (u : ClockCatchUp) (tail : List (Nat × Nat)),
      (u.reset.2.run (first :: tail)).getCatchupOffset.1 =
        toInt32 ((((tail.getLast?.getD first).2 : Int) - (first.2 : Int)) -
          (((tail.getLast?.getD first).1 : Int) - (first.1 : Int))) := by
    intro u tail
    have hfirst := reset_first u first.1 first.2
    have hrun := run_offset tail (u.reset.2.onMasterClock first.1 first.2).2
      (by rw [hfirst]) (by rw [hfirst]; rfl)
    have hlast := run_last_seen tail (u.reset.2.onMasterClock first.1 first.2).2
    have hl : ((u.reset.2.onMasterClock first.1 first.2).2.run tail).stepsSyncLast =
        (tail.getLast?.getD first).1 := by
      have := congrArg Prod.fst hlast
      rw [hfirst] at this
      rw [hfirst]
      exact this
    have hm : ((u.reset.2.onMasterClock first.1 first.2).2.run tail).stepsSyncMasterLast =
        (tail.getLast?.getD first).2 := by
      have := congrArg Prod.snd hlast
      rw [hfirst] at this
      rw [hfirst]
      exact this
    simp only [getCatchupOffset, run]
    rw [hrun, hl, hm, hfirst]
    simp only [zero_add]
  refine ⟨key c rest, ?_, ?_⟩
  · intro c2
    rw [key c2 rest, key c rest]
  · intro mid1 mid2 last
    rw [key c (mid1 ++ [last]), key c (mid2 ++ [last])]
    simp [List.getLast?_append]

/-- C30, evaluated: after `reset()` the beats (4294967290, 100), (3, 113) and
(10, 130) give the offset `(130 - 100) - (10 - 4294967290)` taken modulo
`2^32`, which is `30 - 16 = 14`; the middle beat does not matter. -/
theorem offset_telescopes_witness :
    (sample.reset.2.run [(4294967290, 100), (3, 113), (10, 130)]).getCatchupOffset.1 = 14 ∧
    (sample.reset.2.run [(4294967290, 100), (10, 130)]).getCatchupOffset.1 = 14 ∧
    toInt32 (((130 : Int) - 100) - ((10 : Int) - 4294967290)) = 14 :=
  ⟨(offset_telescopes sample (4294967290, 100) [(3, 113), (10, 130)]).1.trans (by decide),
    by decide, by decide⟩

end ClockCatchUp
